import Mathlib

/-!
Verification of the storage core of the BusTub-derived repository:
LRU replacer, buffer pool manager (BPM), and the paged B+ tree index.

The definitions below are shallow embeddings of the C++ sources:
  src/buffer/lru_replacer.cpp
  src/buffer/buffer_pool_manager.cpp
  src/storage/page/b_plus_tree_internal_page.cpp
  src/storage/index/b_plus_tree.cpp  (+ helpers in b_plus_tree.h)
  src/storage/index/index_iterator.cpp
Machine integers are modelled as `Int` (they stay far from overflow in every
statement below), page buffers as an abstract content value, and fallible
code returns `Option`.  Code of the repository that is not present under
src/ (the leaf page, the raw `Page` class internals, the header page) is
modelled from the specification; each such definition carries a doc comment
starting with `Modelled from the spec:`.
-/

namespace BusTub

/-- Association-list lookup used throughout (first match wins, mirroring
`std::unordered_map::operator[]` reads and `std::find`). -/
def plookup {α : Type} (p : Int) : List (Int × α) → Option α
  | [] => none
  | e :: t => if e.1 = p then some e.2 else plookup p t

/-- Update the first binding of `p` (all bindings, but the key lists we build
have unique keys); if absent, the list is unchanged. -/
def pupdate {α : Type} (p : Int) (v : α) : List (Int × α) → List (Int × α)
  | [] => []
  | e :: t => if e.1 = p then (p, v) :: t else e :: pupdate p v t

/-- Insert-or-update a binding. -/
def pstore {α : Type} (p : Int) (v : α) (l : List (Int × α)) : List (Int × α) :=
  if (plookup p l).isSome then pupdate p v l else (p, v) :: l

/-- Remove every binding of `p` (mirrors `erase(find(p))` on a unique-key map). -/
def perase {α : Type} (p : Int) (l : List (Int × α)) : List (Int × α) :=
  l.filter (fun e => ¬ (e.1 = p))

/-! ## LRU replacer — embedding of src/buffer/lru_replacer.cpp

`frame_ids` is the `std::list<frame_id_t>`: head of the Lean list is the
front of the C++ list (`push_front` is `cons`, `back` is the last element). -/

structure LRUReplacer where
  frame_ids : List Nat
  max_pages : Nat
  cur_pages : Nat
deriving DecidableEq

/-- `LRUReplacer::LRUReplacer(num_pages)`. -/
def LRUReplacer.init (num_pages : Nat) : LRUReplacer :=
  ⟨[], num_pages, 0⟩

/-- `LRUReplacer::Victim`: fail when `cur_pages == 0`, otherwise pop and
return the back of the list.  (When `cur_pages ≠ 0` the list is nonempty in
every reachable state; the impossible branch returns failure.) -/
def LRUReplacer.Victim (r : LRUReplacer) : Option Nat × LRUReplacer :=
  if r.cur_pages = 0 then (none, r)
  else
    match r.frame_ids.getLast? with
    | none => (none, r)
    | some f => (some f, ⟨r.frame_ids.dropLast, r.max_pages, r.cur_pages - 1⟩)

/-- `LRUReplacer::Pin`: erase the (first) occurrence of `f` if present. -/
def LRUReplacer.Pin (r : LRUReplacer) (f : Nat) : LRUReplacer :=
  if f ∈ r.frame_ids then ⟨r.frame_ids.erase f, r.max_pages, r.cur_pages - 1⟩
  else r

/-- `LRUReplacer::Unpin`: no-op when present; otherwise evict the tail when
at capacity, then push to the front. -/
def LRUReplacer.Unpin (r : LRUReplacer) (f : Nat) : LRUReplacer :=
  if f ∈ r.frame_ids then r
  else
    let r1 := if r.cur_pages = r.max_pages then (r.Victim).2 else r
    ⟨f :: r1.frame_ids, r1.max_pages, r1.cur_pages + 1⟩

/-- `LRUReplacer::Size`. -/
def LRUReplacer.Size (r : LRUReplacer) : Nat := r.cur_pages

/-- Well-formedness that every reachable replacer satisfies: the explicit
counter agrees with the list length and the list has no duplicates. -/
def LRUReplacer.WF (r : LRUReplacer) : Prop :=
  r.cur_pages = r.frame_ids.length ∧ r.frame_ids.Nodup

instance (r : LRUReplacer) : Decidable r.WF := by
  unfold LRUReplacer.WF; infer_instance

/-! ## Buffer pool manager — embedding of src/buffer/buffer_pool_manager.cpp

A `PageRec` is the in-memory `Page` object: id, pin count, dirty bit, and an
abstract content value standing for the 4 KiB byte buffer (`0` is the zeroed
buffer).  The disk manager is a map from page id to content plus the
monotonic allocation counter. -/

structure PageRec where
  page_id : Int
  pin_count : Int
  is_dirty : Bool
  data : Int
deriving DecidableEq

/-- Modelled from the spec: a fresh `Page` has `page_id = INVALID (-1)`,
`pin_count = 0`, clean, zeroed buffer (the `Page` class is not under src/). -/
def PageRec.fresh : PageRec := ⟨-1, 0, false, 0⟩

structure DiskManager where
  store : List (Int × Int)
  next_page : Int
deriving DecidableEq

/-- Modelled from the spec: `read_page` fills the buffer from the store
(a never-written page reads as zeroed). -/
def DiskManager.ReadPage (d : DiskManager) (pid : Int) : Int :=
  (plookup pid d.store).getD 0

/-- Modelled from the spec: `write_page` persists the buffer. -/
def DiskManager.WritePage (d : DiskManager) (pid : Int) (v : Int) : DiskManager :=
  ⟨pstore pid v d.store, d.next_page⟩

/-- Modelled from the spec: `allocate_page` returns a fresh monotonic id. -/
def DiskManager.AllocatePage (d : DiskManager) : Int × DiskManager :=
  (d.next_page, ⟨d.store, d.next_page + 1⟩)

structure BPMState where
  pool_size : Nat
  pages : List PageRec
  page_table : List (Int × Nat)
  free_list : List Nat
  repl : LRUReplacer
  disk : DiskManager
deriving DecidableEq

/-- Page-table lookup (`page_table_[page_id]` after a successful find). -/
def BPMState.ptLookup (s : BPMState) (pid : Int) : Option Nat :=
  plookup pid s.page_table

/-- `BufferPoolManager::isInPageTable`. -/
def BPMState.isInPageTable (s : BPMState) (pid : Int) : Bool :=
  (s.ptLookup pid).isSome

/-- Read frame `f` of the pool array. -/
def BPMState.frame (s : BPMState) (f : Nat) : PageRec :=
  s.pages.getD f PageRec.fresh

/-- Write frame `f` of the pool array. -/
def BPMState.setFrame (s : BPMState) (f : Nat) (p : PageRec) : BPMState :=
  { s with pages := s.pages.set f p }

/-- The BPM constructor: every frame starts fresh and on the free list. -/
def mkBPM (n : Nat) (d : DiskManager) : BPMState :=
  ⟨n, List.replicate n PageRec.fresh, [], List.range n, LRUReplacer.init n, d⟩

/-- `BufferPoolManager::FetchPageImpl`.  Returns the frame index of the
pinned page, or `none` for the C++ `nullptr`. -/
def FetchPageImpl (s : BPMState) (pid : Int) : Option (BPMState × Nat) :=
  match s.ptLookup pid with
  | some f =>
      let p := s.frame f
      let s := { s with repl := s.repl.Pin f }
      let s := s.setFrame f { p with pin_count := p.pin_count + 1 }
      some (s, f)
  | none =>
      match s.free_list with
      | f :: rest =>
          let s := { s with free_list := rest }
          let p := s.frame f
          let p := { p with data := s.disk.ReadPage pid, page_id := pid,
                            pin_count := p.pin_count + 1 }
          let s := s.setFrame f p
          let s := { s with page_table := pstore pid f s.page_table }
          let s := { s with repl := s.repl.Pin f }
          some (s, f)
      | [] =>
          match s.repl.Victim with
          | (none, _) => none
          | (some f, r) =>
              let s := { s with repl := r }
              let p := s.frame f
              let s :=
                if p.is_dirty then
                  { s with disk := s.disk.WritePage p.page_id p.data }
                else s
              let s := { s with page_table := perase p.page_id s.page_table }
              -- ResetMemory zeroes the buffer, then the disk read refills it;
              -- is_dirty is NOT touched on this path in the source.
              let p := { p with data := s.disk.ReadPage pid, page_id := pid,
                                pin_count := p.pin_count + 1 }
              let s := s.setFrame f p
              let s := { s with page_table := pstore pid f s.page_table }
              let s := { s with repl := s.repl.Pin f }
              some (s, f)

/-- `BufferPoolManager::UnpinPageImpl`.  Note the source assigns
`is_dirty_ = is_dirty` (overwrite, not a disjunction) and calls
`replacer_->Unpin` unconditionally after the decrement. -/
def UnpinPageImpl (s : BPMState) (pid : Int) (is_dirty : Bool) : BPMState × Bool :=
  match s.ptLookup pid with
  | none => (s, false)
  | some f =>
      let p := s.frame f
      if p.pin_count ≤ 0 then (s, false)
      else
        let s := s.setFrame f { p with is_dirty := is_dirty,
                                       pin_count := p.pin_count - 1 }
        let s := { s with repl := s.repl.Unpin f }
        (s, true)

/-- `BufferPoolManager::FlushPageImpl`. -/
def FlushPageImpl (s : BPMState) (pid : Int) : BPMState × Bool :=
  match s.ptLookup pid with
  | none => (s, false)
  | some f =>
      let p := s.frame f
      ({ s with disk := s.disk.WritePage p.page_id p.data }, true)

/-- `BufferPoolManager::NewPageImpl`.  Returns the new page id and frame. -/
def NewPageImpl (s : BPMState) : Option (BPMState × Int × Nat) :=
  if s.free_list.isEmpty ∧ s.repl.Size = 0 then none
  else
    let (pid, d) := s.disk.AllocatePage
    let s := { s with disk := d }
    match s.free_list with
    | [] =>
        match s.repl.Victim with
        | (none, _) => none
        | (some f, r) =>
            let s := { s with repl := r }
            let p := s.frame f
            let s :=
              if p.is_dirty then
                { s with disk := s.disk.WritePage p.page_id p.data }
              else s
            let s := { s with page_table := perase p.page_id s.page_table }
            let p := { p with data := 0 }
            let s := { s with repl := s.repl.Pin f }
            let p := { p with pin_count := p.pin_count + 1, page_id := pid }
            let s := s.setFrame f p
            let s := { s with page_table := pstore pid f s.page_table }
            some (s, pid, f)
    | f :: rest =>
        let s := { s with free_list := rest }
        let s := { s with repl := s.repl.Pin f }
        let p := s.frame f
        let p := { p with page_id := pid, pin_count := p.pin_count + 1 }
        let s := s.setFrame f p
        let s := { s with page_table := pstore pid f s.page_table }
        some (s, pid, f)

/-- `BufferPoolManager::DeletePageImpl`. -/
def DeletePageImpl (s : BPMState) (pid : Int) : BPMState × Bool :=
  match s.ptLookup pid with
  | none => (s, true)
  | some f =>
      let p := s.frame f
      if p.pin_count > 0 then (s, false)
      else
        let s := { s with repl := s.repl.Pin f }
        let s := { s with page_table := perase p.page_id s.page_table }
        let s := s.setFrame f { p with data := 0 }
        let s := { s with free_list := s.free_list ++ [f] }
        (s, true)

/-- The residency/replacer invariant of the spec: a frame is a member of the
LRU replacer iff it holds a resident page whose pin count is zero. -/
def ReplInv (s : BPMState) : Prop :=
  ∀ f ∈ List.range s.pool_size,
    (f ∈ s.repl.frame_ids ↔
      ((∃ e ∈ s.page_table, e.2 = f) ∧ (s.frame f).pin_count = 0))

instance (s : BPMState) : Decidable (ReplInv s) := by
  unfold ReplInv; infer_instance

/-! ### Concrete buffer-pool runs used by the theorems below -/

/-- A disk holding page 1 with content 7; next allocatable id 2. -/
def bpmDemoDisk : DiskManager := ⟨[(1, 7)], 2⟩

/-- A one-frame pool over `bpmDemoDisk`. -/
def bpmDemo0 : BPMState := mkBPM 1 bpmDemoDisk

/-- After fetching page 1 once (pin count 1). -/
def bpmDemo1 : BPMState := ((FetchPageImpl bpmDemo0 1).map (·.1)).getD bpmDemo0

/-- After fetching page 1 twice (pin count 2). -/
def bpmDemo2 : BPMState := ((FetchPageImpl bpmDemo1 1).map (·.1)).getD bpmDemo0

/-- After `unpin(1, true)`: pin count 1, dirty set. -/
def bpmDemo3 : BPMState := (UnpinPageImpl bpmDemo2 1 true).1

/-- After a further `unpin(1, false)`: pin count 0 — and the source
overwrites the dirty bit with `false`. -/
def bpmDemo4 : BPMState := (UnpinPageImpl bpmDemo3 1 false).1

/-- A one-frame pool whose only frame holds dirty page 3 (content 99),
unpinned (frame 0 in the replacer); the disk stores content 5 for page 2. -/
def fetchDemoS : BPMState :=
  ⟨1, [⟨3, 0, true, 99⟩], [(3, 0)], [], ⟨[0], 1, 1⟩, ⟨[(2, 5)], 10⟩⟩

/-- The result of fetching non-resident page 2 in `fetchDemoS` (evicts the
dirty victim). -/
def fetchDemoR : BPMState := ((FetchPageImpl fetchDemoS 2).map (·.1)).getD fetchDemoS

/-! ### Concrete LRU run (scenario S2 of the spec) -/

/-- Frames 1,2,3,4,5 unpinned in order on a capacity-5 replacer. -/
def lruDemo : LRUReplacer :=
  (((((LRUReplacer.init 5).Unpin 1).Unpin 2).Unpin 3).Unpin 4).Unpin 5

/-- First victim call on `lruDemo`. -/
def lruDemoV1 : Option Nat × LRUReplacer := lruDemo.Victim

/-- After `pin(3)`. -/
def lruDemoP : LRUReplacer := (lruDemoV1.2).Pin 3

/-- Successive victim calls after `pin(3)`. -/
def lruDemoV2 : Option Nat × LRUReplacer := lruDemoP.Victim

/-- Second successive victim call. -/
def lruDemoV3 : Option Nat × LRUReplacer := lruDemoV2.2.Victim

/-- Third successive victim call. -/
def lruDemoV4 : Option Nat × LRUReplacer := lruDemoV3.2.Victim

/-! ## B+ tree — node-level heap model

The tree manipulates nodes only through BPM frames; since the tree claims
are about the logical node contents and the pin/dirty bookkeeping, the heap
below maps page ids directly to nodes and tracks per-page pin counts and
dirty flags the way the BPM's `FetchPage`/`UnpinPage` maintain them
(`UnpinPage` overwrites the dirty flag, as proved above).  The pool is
treated as unbounded, so a fetch fails only on a missing page. -/

def INVALID_PAGE_ID : Int := -1

/-- A B+ tree node: the common header (`page_type` is the constructor,
`parent_page_id`, `max_size`; `size` is the entries length) plus the leaf
entry array and `next_page_id`, or the internal `(key, child)` array whose
index-0 key is a dummy. -/
inductive BNode where
  | leafN (parent : Int) (maxSize : Nat) (entries : List (Int × Int)) (next : Int)
  | internalN (parent : Int) (maxSize : Nat) (entries : List (Int × Int))
deriving DecidableEq

/-- `BPlusTreePage::IsLeafPage`. -/
def BNode.isLeafPage : BNode → Bool
  | .leafN _ _ _ _ => true
  | .internalN _ _ _ => false

/-- `BPlusTreePage::GetParentPageId`. -/
def BNode.parentPageId : BNode → Int
  | .leafN p _ _ _ => p
  | .internalN p _ _ => p

/-- `BPlusTreePage::GetSize` (the entries length). -/
def BNode.size : BNode → Nat
  | .leafN _ _ es _ => es.length
  | .internalN _ _ es => es.length

/-- `BPlusTreePage::GetMaxSize`. -/
def BNode.maxSize : BNode → Nat
  | .leafN _ m _ _ => m
  | .internalN _ m _ => m

/-- `BPlusTreePage::SetParentPageId`. -/
def BNode.setParent : BNode → Int → BNode
  | .leafN _ m es nx, p => .leafN p m es nx
  | .internalN _ m es, p => .internalN p m es

/-- Modelled from the spec: `GetMinSize` (the b_plus_tree_page source is
not under src/); the spec allows the simpler `max_size / 2` floor, used
consistently for leaves and internal nodes. -/
def GetMinSize (max : Nat) : Nat := max / 2

/-- The tree's configuration: `leaf_max_size_` and `internal_max_size_`. -/
structure TConfig where
  leafMax : Nat
  internalMax : Nat
deriving DecidableEq

/-- The page store: nodes by page id, pin counts and dirty flags as the BPM
maintains them, the disk manager's allocation counter, and the header
page's `(index_name → root_page_id)` records (a single tree, name `0`). -/
structure THeap where
  pages : List (Int × BNode)
  pins : List (Int × Int)
  dirtyFlags : List (Int × Bool)
  nextPid : Int
  headerRecs : List (Int × Int)
deriving DecidableEq

def getPage (h : THeap) (p : Int) : Option BNode := plookup p h.pages

def setPage (h : THeap) (p : Int) (n : BNode) : THeap :=
  { h with pages := pstore p n h.pages }

def pinOf (h : THeap) (p : Int) : Int := (plookup p h.pins).getD 0

def dirtyOf (h : THeap) (p : Int) : Bool := (plookup p h.dirtyFlags).getD false

/-- The pin-count increment a successful fetch performs. -/
def pinBump (h : THeap) (p : Int) : THeap :=
  { h with pins := pstore p (pinOf h p + 1) h.pins }

/-- `FetchPage` through the BPM: pin count + 1; fails only if the page does
not exist (`GetBPlusPage` throws on a null frame). -/
def fetchPg (h : THeap) (p : Int) : Option (BNode × THeap) :=
  match getPage h p with
  | none => none
  | some n => some (n, pinBump h p)

/-- `UnpinPage(p, flag)` through the BPM: fails (no state change) unless
the pin count is positive; otherwise decrements it and overwrites the dirty
flag (as `UnpinPageImpl` does). -/
def unpinPg (h : THeap) (p : Int) (flag : Bool) : THeap :=
  if pinOf h p ≤ 0 then h
  else { h with pins := pstore p (pinOf h p - 1) h.pins,
                dirtyFlags := pstore p flag h.dirtyFlags }

/-- `WrapNewPage` immediately followed by the node's `Init`: allocates the
next page id, installs the initialized node with pin count 1. -/
def newPg (h : THeap) (n : BNode) : THeap × Int :=
  (⟨(h.nextPid, n) :: h.pages, pstore h.nextPid 1 h.pins, h.dirtyFlags,
    h.nextPid + 1, h.headerRecs⟩, h.nextPid)

/-- Modelled from the spec: `HeaderPage::InsertRecord` adds a
`(name, root)` record when absent (the header page is not under src/). -/
def headerInsertRecord (recs : List (Int × Int)) (name root : Int) :
    List (Int × Int) :=
  if (plookup name recs).isSome then recs else (name, root) :: recs

/-- Modelled from the spec: `HeaderPage::UpdateRecord` updates an existing
record and does nothing when the record is absent. -/
def headerUpdateRecord (recs : List (Int × Int)) (name root : Int) :
    List (Int × Int) :=
  pupdate name root recs

/-- `BPlusTree::UpdateRootPageId(insert_record)`: fetches the header page
and inserts (non-zero flag) or updates (zero flag) the record. -/
def updateRootPageId (h : THeap) (root : Int) (insertRecord : Int) : THeap :=
  { h with headerRecs :=
      if insertRecord ≠ 0 then headerInsertRecord h.headerRecs 0 root
      else headerUpdateRecord h.headerRecs 0 root }

/-- `GenericComparator`: negative / zero / positive for less / equal /
greater. -/
def cmpK (a b : Int) : Int := if a < b then -1 else if b < a then 1 else 0

/-- `KeyAt(i)` on an entry array. -/
def keyAtL (es : List (Int × Int)) (i : Nat) : Int := (es.getD i (0, 0)).1

/-- `ValueAt(i)` on an entry array. -/
def valueAtL (es : List (Int × Int)) (i : Nat) : Int := (es.getD i (0, 0)).2

/-- `BPlusTreeInternalPage::ValueIndex`: the first index holding the value,
`-1` when absent. -/
def valueIndexL (es : List (Int × Int)) (v : Int) : Int :=
  match es.findIdx? (fun e => e.2 = v) with
  | some i => (i : Int)
  | none => -1

/-- `SetKeyAt(i, k)` on an entry array. -/
def setKeyAtIdx (es : List (Int × Int)) (i : Nat) (k : Int) :
    List (Int × Int) :=
  match es.getD i (0, 0) with
  | e => es.set i (k, e.2)

/-- `Remove(index)` on an internal entry array. -/
def removeAtIdx (es : List (Int × Int)) (i : Nat) : List (Int × Int) :=
  es.take i ++ es.drop (i + 1)

/-- The binary-search loop of `BPlusTreeInternalPage::Lookup`
(`left = 1`, `right = GetSize()`; the local `mid = (right-left)/2 + left`
is inlined). -/
def lookupLoop (es : List (Int × Int)) (key : Int) (left right : Nat) : Nat :=
  if h : left < right then
    if cmpK (keyAtL es ((right - left) / 2 + left)) key > 0 then
      lookupLoop es key left ((right - left) / 2 + left)
    else lookupLoop es key ((right - left) / 2 + left + 1) right
  else left
termination_by right - left
decreasing_by
  · have hd : (right - left) / 2 < right - left :=
      Nat.div_lt_self (by omega) (by omega)
    omega
  · have hd : (right - left) / 2 < right - left :=
      Nat.div_lt_self (by omega) (by omega)
    omega

/-- `BPlusTreeInternalPage::Lookup`: binary search over keys 1..size-1,
returning `array[left - 1].second`. -/
def internalLookup (es : List (Int × Int)) (key : Int) : Int :=
  valueAtL es (lookupLoop es key 1 es.length - 1)

/-- `BPlusTreeInternalPage::InsertNodeAfter`: insert `(new_key, new_value)`
right after the slot holding `old_value`. -/
def insertNodeAfter (es : List (Int × Int)) (old_value new_key new_value : Int) :
    List (Int × Int) :=
  let old_index := (valueIndexL es old_value + 1).toNat
  es.take old_index ++ (new_key, new_value) :: es.drop old_index

/-- Modelled from the spec: `BPlusTreeLeafPage::Lookup` — the equality
search on the leaf (binary search on a sorted leaf computes exactly the
entry with the equal key; the leaf page source is not under src/). -/
def leafLookup (es : List (Int × Int)) (key : Int) : Option Int :=
  match es with
  | [] => none
  | e :: t => if e.1 = key then some e.2 else leafLookup t key

/-- Modelled from the spec: `BPlusTreeLeafPage::Insert` keeps the entries
sorted by key. -/
def leafInsert (es : List (Int × Int)) (key value : Int) : List (Int × Int) :=
  match es with
  | [] => [(key, value)]
  | e :: t => if key < e.1 then (key, value) :: e :: t
              else e :: leafInsert t key value

/-- Modelled from the spec: `BPlusTreeLeafPage::RemoveAndDeleteRecord`
removes the entry with the given key, if present. -/
def leafRemove (es : List (Int × Int)) (key : Int) : List (Int × Int) :=
  match es with
  | [] => []
  | e :: t => if e.1 = key then t else e :: leafRemove t key

/-- The descent loop shared verbatim by `GetValue`, `InsertIntoLeaf` and
`FindLeafPage` in the source: fetch, route through `Lookup`, unpin the
internal page clean, descend; stops at (and keeps pinned) the leaf. -/
def findLeafLoop (h : THeap) (pid key : Int) : Nat → Option (THeap × Int × BNode)
  | 0 => none
  | fuel + 1 =>
    match fetchPg h pid with
    | none => none
    | some (n, h1) =>
      match n with
      | .leafN _ _ _ _ => some (h1, pid, n)
      | .internalN _ _ es =>
          let child := internalLookup es key
          let h2 := unpinPg h1 pid false
          findLeafLoop h2 child key fuel

/-- `BPlusTree::GetValue`: returns the found value (`none` both for an
empty tree and for a missing key, matching the boolean result; the value
result is `some` exactly when the source returns `true`). -/
def getValueT (h : THeap) (root key : Int) (fuel : Nat) :
    Option (THeap × Option Int) :=
  if root = INVALID_PAGE_ID then some (h, none)
  else
    match findLeafLoop h root key fuel with
    | none => none
    | some (h1, pid, .leafN _ _ es _) =>
        let r := leafLookup es key
        let h2 := unpinPg h1 pid false
        some (h2, r)
    | some _ => none

/-- Re-parent a list of child pages to `par` — the loops in the internal
page's `MoveHalfTo` / `MoveAllTo` (fetch the child, `SetParentPageId`,
unpin dirty). -/
def adoptAll (h : THeap) (pids : List Int) (par : Int) : Option THeap :=
  match pids with
  | [] => some h
  | p :: t =>
    match fetchPg h p with
    | none => none
    | some (n, h1) =>
        let h2 := setPage h1 p (n.setParent par)
        let h3 := unpinPg h2 p true
        adoptAll h3 t par

/-- `BPlusTree::Split(LeafPage*)`: new page + `Init`, leaf `MoveHalfTo`
(modelled from the spec: the upper half moves, the standard floor/ceil
partition — the leaf page source is not under src/), then the sibling
chain is spliced (`R.next = L.next; L.next = R`). -/
def splitLeaf (cfg : TConfig) (h : THeap) (pid : Int) : Option (THeap × Int) :=
  match getPage h pid with
  | some (.leafN par max es nx) =>
      let r := newPg h (.leafN INVALID_PAGE_ID cfg.leafMax [] INVALID_PAGE_ID)
      let h1 := r.1
      let npid := r.2
      let half := es.length / 2
      let h2 := setPage h1 npid (.leafN INVALID_PAGE_ID cfg.leafMax (es.drop half) nx)
      let h3 := setPage h2 pid (.leafN par max (es.take half) npid)
      some (h3, npid)
  | _ => none

/-- `BPlusTree::Split(InternalPage*)`: new page + `Init`, then the
internal page's `MoveHalfTo` from the source (`half = size >> 1`; nothing
moves when `half = 0`; each moved child is re-parented to the recipient). -/
def splitInternal (cfg : TConfig) (h : THeap) (pid : Int) :
    Option (THeap × Int) :=
  match getPage h pid with
  | some (.internalN par max es) =>
      let r := newPg h (.internalN INVALID_PAGE_ID cfg.internalMax [])
      let h1 := r.1
      let npid := r.2
      let half := es.length / 2
      if half = 0 then some (h1, npid)
      else
        match adoptAll h1 ((es.drop half).map (·.2)) npid with
        | none => none
        | some h2 =>
            let h3 := setPage h2 npid
              (.internalN INVALID_PAGE_ID cfg.internalMax (es.drop half))
            let h4 := setPage h3 pid (.internalN par max (es.take half))
            some (h4, npid)
  | _ => none

/-- `BPlusTree::InsertIntoParent`: create a new root via `PopulateNewRoot`
when the old node was the root, else insert after the old node's slot in
the parent and split the parent recursively when it exceeds `max_size`.
Returns the heap and the (possibly changed) `root_page_id_`. -/
def insertIntoParent (cfg : TConfig) (h : THeap) (root oldPid key newPid : Int) :
    Nat → Option (THeap × Int)
  | 0 => none
  | fuel + 1 =>
    match getPage h oldPid with
    | none => none
    | some oldNode =>
      if oldNode.parentPageId = INVALID_PAGE_ID then
        let r := newPg h (.internalN INVALID_PAGE_ID cfg.internalMax
                            [(0, oldPid), (key, newPid)])
        let h1 := r.1
        let ppid := r.2
        match getPage h1 newPid with
        | none => none
        | some nn =>
          let h2 := setPage h1 newPid (nn.setParent ppid)
          match getPage h2 oldPid with
          | none => none
          | some on2 =>
            let h3 := setPage h2 oldPid (on2.setParent ppid)
            let h4 := updateRootPageId h3 ppid 0
            let h5 := unpinPg h4 ppid true
            some (h5, ppid)
      else
        match fetchPg h oldNode.parentPageId with
        | none => none
        | some (.internalN ppar pmax pes, h1) =>
            let pes1 := insertNodeAfter pes oldPid key newPid
            let h2 := setPage h1 oldNode.parentPageId (.internalN ppar pmax pes1)
            match getPage h2 newPid with
            | none => none
            | some nn =>
              let h3 := setPage h2 newPid (nn.setParent oldNode.parentPageId)
              if pes1.length > pmax then
                match splitInternal cfg h3 oldNode.parentPageId with
                | none => none
                | some (h4, spid) =>
                    match getPage h4 spid with
                    | some (.internalN _ _ ses) =>
                        match insertIntoParent cfg h4 root oldNode.parentPageId
                                (keyAtL ses 0) spid fuel with
                        | none => none
                        | some (h5, root1) =>
                            some (unpinPg h5 oldNode.parentPageId true, root1)
                    | _ => none
              else
                some (unpinPg h3 oldNode.parentPageId true, root)
        | some _ => none

/-- `BPlusTree::StartNewTree`: new leaf page, insert the pair, unpin
dirty, set the root id, `UpdateRootPageId(0)` (the source passes the
update flag, not the insert flag). -/
def startNewTree (cfg : TConfig) (h : THeap) (key value : Int) : THeap × Int :=
  let r := newPg h (.leafN INVALID_PAGE_ID cfg.leafMax [(key, value)]
                      INVALID_PAGE_ID)
  let h1 := r.1
  let pid := r.2
  let h2 := unpinPg h1 pid true
  let h3 := updateRootPageId h2 pid 0
  (h3, pid)

/-- `BPlusTree::InsertIntoLeaf`: descend, fail on a duplicate key (the
pinned leaf is NOT unpinned on this path, as in the source), otherwise
insert sorted; when the leaf reaches `max_size`, split it and insert the
separator `new_leaf->KeyAt(0)` into the parent; finally unpin the original
leaf dirty (the new leaf is never unpinned, as in the source). -/
def insertIntoLeaf (cfg : TConfig) (h : THeap) (root key value : Int)
    (fuel : Nat) : Option (THeap × Int × Bool) :=
  match findLeafLoop h root key fuel with
  | none => none
  | some (h1, pid, .leafN par max es nx) =>
      if (leafLookup es key).isSome then some (h1, root, false)
      else
        let es1 := leafInsert es key value
        let h2 := setPage h1 pid (.leafN par max es1 nx)
        if es1.length = max then
          match splitLeaf cfg h2 pid with
          | none => none
          | some (h3, npid) =>
              match getPage h3 npid with
              | some (.leafN _ _ nes _) =>
                  match insertIntoParent cfg h3 root pid (keyAtL nes 0) npid
                          fuel with
                  | none => none
                  | some (h4, root1) => some (unpinPg h4 pid true, root1, true)
              | _ => none
        else
          some (unpinPg h2 pid true, root, true)
  | some _ => none

/-- `BPlusTree::Insert`: start a new tree when empty, else
`InsertIntoLeaf`. -/
def insertT (cfg : TConfig) (h : THeap) (root key value : Int) (fuel : Nat) :
    Option (THeap × Int × Bool) :=
  if root = INVALID_PAGE_ID then
    let r := startNewTree cfg h key value
    some (r.1, r.2, true)
  else insertIntoLeaf cfg h root key value fuel

/-- `BPlusTree::AdjustRoot`: an internal root of size 1 promotes its only
child (fetch it, clear its parent id, update the header record, unpin it
dirty); the Boolean tells the caller the root changed.  Nothing is ever
deallocated. -/
def adjustRoot (h : THeap) (root pid : Int) : Option (Bool × THeap × Int) :=
  match getPage h pid with
  | none => none
  | some (.internalN _ _ es) =>
      if es.length = 1 then
        let newRootId := valueAtL es 0
        match fetchPg h newRootId with
        | none => none
        | some (nn, h1) =>
            let h2 := setPage h1 newRootId (nn.setParent INVALID_PAGE_ID)
            let h3 := updateRootPageId h2 newRootId 0
            let h4 := unpinPg h3 newRootId true
            some (true, h4, newRootId)
      else some (false, h, root)
  | some (.leafN _ _ _ _) => some (false, h, root)

/-- `BPlusTree::FindLeftSilbing` (leaf and internal versions are
identical): fetch the parent, locate this node's slot; slot 0 means no
left sibling (the parent stays pinned on that path, as in the source);
otherwise fetch the left neighbour, unpin the parent clean, and return the
still-pinned sibling. -/
def findLeftSibling (h : THeap) (pid : Int) : Option (THeap × Option Int) :=
  match getPage h pid with
  | none => none
  | some n =>
    if n.parentPageId = INVALID_PAGE_ID then some (h, none)
    else
      match fetchPg h n.parentPageId with
      | none => none
      | some (.internalN _ _ pes, h1) =>
          let index := valueIndexL pes pid
          if index = 0 then some (h1, none)
          else if index < 0 then none
          else
            let sib := valueAtL pes (index.toNat - 1)
            match fetchPg h1 sib with
            | none => none
            | some (_, h2) => some (unpinPg h2 n.parentPageId false, some sib)
      | some _ => none

/-- `BPlusTree::FindRightSilbing(LeafPage*)`: follow `next_page_id`
(which may reach a cousin under a different parent); the sibling is
returned pinned. -/
def findRightSiblingLeaf (h : THeap) (pid : Int) : Option (THeap × Option Int) :=
  match getPage h pid with
  | some (.leafN _ _ _ nx) =>
      if nx = INVALID_PAGE_ID then some (h, none)
      else
        match fetchPg h nx with
        | none => none
        | some (_, h1) => some (h1, some nx)
  | _ => none

/-- `BPlusTree::FindRightSilbing(InternalPage*)`: fetch the parent, locate
this node's slot — the source compares the slot against the NODE's own
`GetSize() - 1` (not the parent's), which is preserved here — then fetch
the right neighbour and unpin the parent clean. -/
def findRightSiblingInternal (h : THeap) (pid : Int) :
    Option (THeap × Option Int) :=
  match getPage h pid with
  | some (.internalN par _ nes) =>
      if par = INVALID_PAGE_ID then some (h, none)
      else
        match fetchPg h par with
        | none => none
        | some (.internalN _ _ pes, h1) =>
            let index := valueIndexL pes pid
            if index = (nes.length : Int) - 1 then some (h1, none)
            else if index < 0 then none
            else
              let sib := valueAtL pes (index.toNat + 1)
              match fetchPg h1 sib with
              | none => none
              | some (_, h2) => some (unpinPg h2 par false, some sib)
        | some _ => none
  | _ => none

/-- `BPlusTree::Redistribute(LeafPage*, ...)`: `dire = 0` (LEFT) moves the
sibling's last entry to the front of the node and updates the parent's key
at the node's slot; `dire = 1` (RIGHT) moves the sibling's first entry to
the node's end and updates the parent's key at the sibling's slot.  (Leaf
`MoveLastToFrontOf` / `MoveFirstToEndOf` are modelled from the spec.) -/
def redistributeLeaf (h : THeap) (nodePid sibPid parentPid : Int) (dire : Nat) :
    Option THeap :=
  match getPage h nodePid, getPage h sibPid, getPage h parentPid with
  | some (.leafN npar nmax nes nnx), some (.leafN spar smax ses snx),
    some (.internalN ppar pmax pes) =>
    if dire = 0 then
      match ses.getLast? with
      | none => none
      | some e =>
        let h1 := setPage h sibPid (.leafN spar smax ses.dropLast snx)
        let h2 := setPage h1 nodePid (.leafN npar nmax (e :: nes) nnx)
        let idx := valueIndexL pes nodePid
        if idx < 0 then none
        else some (setPage h2 parentPid (.internalN ppar pmax
               (setKeyAtIdx pes idx.toNat (keyAtL (e :: nes) 0))))
    else
      match ses with
      | [] => none
      | e :: st =>
        let h1 := setPage h sibPid (.leafN spar smax st snx)
        let h2 := setPage h1 nodePid (.leafN npar nmax (nes ++ [e]) nnx)
        let idx := valueIndexL pes sibPid
        if idx < 0 then none
        else some (setPage h2 parentPid (.internalN ppar pmax
               (setKeyAtIdx pes idx.toNat (keyAtL st 0))))
  | _, _, _ => none

/-- `BPlusTree::Redistribute(InternalPage*, ...)` plus the internal page's
`MoveLastToFrontOf` / `CopyFirstFrom` (LEFT) and `MoveFirstToEndOf` /
`CopyLastFrom` (RIGHT) from the source: the moved child is re-parented to
the receiving node, the middle key is written into the received slot, and
the parent's separator is then set from the node's (LEFT) or sibling's
(RIGHT) key 0. -/
def redistributeInternal (h : THeap) (nodePid sibPid parentPid middleKey : Int)
    (dire : Nat) : Option THeap :=
  match getPage h sibPid with
  | some (.internalN spar smax ses) =>
    if dire = 0 then
      match ses.getLast? with
      | none => none
      | some pair =>
        match fetchPg h pair.2 with
        | none => none
        | some (cn, ha) =>
          let hb := setPage ha pair.2 (cn.setParent nodePid)
          let hc := unpinPg hb pair.2 true
          match getPage hc nodePid with
          | some (.internalN npar nmax nes) =>
              let nes1 := setKeyAtIdx (pair :: nes) 1 middleKey
              let h1 := setPage hc nodePid (.internalN npar nmax nes1)
              let h2 := setPage h1 sibPid (.internalN spar smax ses.dropLast)
              match getPage h2 parentPid with
              | some (.internalN ppar pmax pes) =>
                  let idx := valueIndexL pes nodePid
                  if idx < 0 then none
                  else some (setPage h2 parentPid (.internalN ppar pmax
                         (setKeyAtIdx pes idx.toNat (keyAtL nes1 0))))
              | _ => none
          | _ => none
    else
      match ses with
      | [] => none
      | e :: st =>
        match fetchPg h e.2 with
        | none => none
        | some (cn, ha) =>
          let hb := setPage ha e.2 (cn.setParent nodePid)
          let hc := unpinPg hb e.2 true
          match getPage hc nodePid with
          | some (.internalN npar nmax nes) =>
              let nes1 := setKeyAtIdx (nes ++ [e]) (nes.length) middleKey
              let h1 := setPage hc nodePid (.internalN npar nmax nes1)
              let h2 := setPage h1 sibPid (.internalN spar smax st)
              match getPage h2 parentPid with
              | some (.internalN ppar pmax pes) =>
                  let idx := valueIndexL pes sibPid
                  if idx < 0 then none
                  else some (setPage h2 parentPid (.internalN ppar pmax
                         (setKeyAtIdx pes idx.toNat (keyAtL st 0))))
              | _ => none
          | _ => none
  | _ => none

mutual

/-- `BPlusTree::CoalesceOrRedistribute` — root delegates to `AdjustRoot`;
a leaf whose `next_page_id` is INVALID uses the left sibling, any other
leaf the right sibling reached via `next_page_id` (whose own parent is the
one fetched); an internal node at its parent's last slot uses the left
sibling, else the right.  Merge when the sizes fit (`≤ leaf_max` for
leaves, `< internal_max` for internals), else redistribute.  Pins leak
exactly where the source leaks them. -/
def coalesceOrRedistribute (cfg : TConfig) (h : THeap) (root pid : Int) :
    Nat → Option (THeap × Int)
  | 0 => none
  | fuel + 1 =>
    match getPage h pid with
    | none => none
    | some node =>
      if node.parentPageId = INVALID_PAGE_ID then
        match adjustRoot h root pid with
        | none => none
        | some (changed, h1, root1) =>
            if changed then some (unpinPg h1 pid true, root1)
            else some (h1, root1)
      else
        match node with
        | .leafN par _ _ lnx =>
          if lnx = -1 then
            match findLeftSibling h pid with
            | none => none
            | some (h1, none) => some (h1, root)
            | some (h1, some sibPid) =>
                match fetchPg h1 par with
                | none => none
                | some (_, h2) =>
                    match getPage h2 sibPid, getPage h2 pid with
                    | some sibNode, some curNode =>
                        if sibNode.size + curNode.size ≤ cfg.leafMax then
                          match coalesceLeaf cfg h2 root sibPid pid par fuel with
                          | none => none
                          | some (h3, root1) =>
                              some (unpinPg h3 par true, root1)
                        else
                          match redistributeLeaf h2 pid sibPid par 0 with
                          | none => none
                          | some h3 => some (unpinPg h3 par true, root)
                    | _, _ => none
          else
            match findRightSiblingLeaf h pid with
            | none => none
            | some (h1, none) => some (h1, root)
            | some (h1, some sibPid) =>
                match getPage h1 sibPid with
                | none => none
                | some sibNode0 =>
                  match fetchPg h1 sibNode0.parentPageId with
                  | none => none
                  | some (_, h2) =>
                      match getPage h2 sibPid, getPage h2 pid with
                      | some sibNode, some curNode =>
                          if sibNode.size + curNode.size ≤ cfg.leafMax then
                            match coalesceLeaf cfg h2 root pid sibPid
                                    sibNode0.parentPageId fuel with
                            | none => none
                            | some (h3, root1) =>
                                some (unpinPg h3 sibNode0.parentPageId true, root1)
                          else
                            match redistributeLeaf h2 pid sibPid
                                    sibNode0.parentPageId 1 with
                            | none => none
                            | some h3 =>
                                some (unpinPg h3 sibNode0.parentPageId true, root)
                      | _, _ => none
        | .internalN par _ _ =>
          match fetchPg h par with
          | none => none
          | some (.internalN _ _ pes, h1) =>
            if valueIndexL pes pid = (pes.length : Int) - 1 then
              match findLeftSibling h1 pid with
              | none => none
              | some (h2, none) => some (h2, root)
              | some (h2, some sibPid) =>
                  match getPage h2 sibPid, getPage h2 pid with
                  | some sibNode, some curNode =>
                      if sibNode.size + curNode.size < cfg.internalMax then
                        coalesceInternal cfg h2 root sibPid pid par fuel
                      else
                        match getPage h2 par with
                        | some (.internalN _ _ pes2) =>
                            let parent_index := valueIndexL pes2 pid
                            if parent_index < 0 then none
                            else
                              let middle_key := keyAtL pes2 parent_index.toNat
                              match redistributeInternal h2 pid sibPid par
                                      middle_key 0 with
                              | none => none
                              | some h3 =>
                                  match getPage h3 par, getPage h3 pid with
                                  | some (.internalN p3 m3 pes3), some cur3 =>
                                      match cur3 with
                                      | .internalN _ _ ces3 =>
                                          some (setPage h3 par (.internalN p3 m3
                                            (setKeyAtIdx pes3 parent_index.toNat
                                              (keyAtL ces3 0))), root)
                                      | _ => none
                                  | _, _ => none
                        | _ => none
                  | _, _ => none
            else
              match findRightSiblingInternal h1 pid with
              | none => none
              | some (h2, none) => some (h2, root)
              | some (h2, some sibPid) =>
                  match getPage h2 sibPid, getPage h2 pid with
                  | some sibNode, some curNode =>
                      if sibNode.size + curNode.size < cfg.internalMax then
                        coalesceInternal cfg h2 root pid sibPid par fuel
                      else
                        match getPage h2 par with
                        | some (.internalN _ _ pes2) =>
                            let parent_index := valueIndexL pes2 sibPid
                            if parent_index < 0 then none
                            else
                              let middle_key := keyAtL pes2 parent_index.toNat
                              match redistributeInternal h2 pid sibPid par
                                      middle_key 1 with
                              | none => none
                              | some h3 =>
                                  match getPage h3 par, getPage h3 sibPid with
                                  | some (.internalN p3 m3 pes3), some sib3 =>
                                      match sib3 with
                                      | .internalN _ _ ses3 =>
                                          some (setPage h3 par (.internalN p3 m3
                                            (setKeyAtIdx pes3 parent_index.toNat
                                              (keyAtL ses3 0))), root)
                                      | _ => none
                                  | _, _ => none
                        | _ => none
                  | _, _ => none
          | some _ => none

/-- `BPlusTree::Coalesce(LeafPage*, ...)`: append the right leaf's entries
to the left (leaf `MoveAllTo`, modelled from the spec since the leaf page
source is not under src/), splice the chain, remove the parent's entry for
the right node, and recurse on an underflowing parent.  The right page is
emptied but never deallocated. -/
def coalesceLeaf (cfg : TConfig) (h : THeap) (root leftPid rightPid parentPid : Int) :
    Nat → Option (THeap × Int)
  | 0 => none
  | fuel + 1 =>
    match getPage h parentPid, getPage h rightPid, getPage h leftPid with
    | some (.internalN ppar pmax pes), some (.leafN rpar rmax res rnx),
      some (.leafN lpar lmax les _) =>
        let index := valueIndexL pes rightPid
        if index < 0 then none
        else
          let h1 := setPage h leftPid (.leafN lpar lmax (les ++ res) rnx)
          let h2 := setPage h1 rightPid (.leafN rpar rmax [] rnx)
          let pes1 := removeAtIdx pes index.toNat
          let h3 := setPage h2 parentPid (.internalN ppar pmax pes1)
          if pes1.length < GetMinSize pmax then
            coalesceOrRedistribute cfg h3 root parentPid fuel
          else some (h3, root)
    | _, _, _ => none

/-- `BPlusTree::Coalesce(InternalPage*, ...)`: pull the parent's separator
down into the right node's dummy slot, re-parent the right node's children
— to the RIGHT node's own id, as the source's `MoveAllTo` does — append
the right entries to the left, remove the parent's entry for the right
node, and recurse on an underflowing parent. -/
def coalesceInternal (cfg : TConfig) (h : THeap) (root leftPid rightPid parentPid : Int) :
    Nat → Option (THeap × Int)
  | 0 => none
  | fuel + 1 =>
    match getPage h parentPid, getPage h rightPid with
    | some (.internalN _ _ pes), some (.internalN rpar rmax res) =>
        let index := valueIndexL pes rightPid
        if index < 0 then none
        else
          let middle := keyAtL pes index.toNat
          let res1 := setKeyAtIdx res 0 middle
          let h1 := setPage h rightPid (.internalN rpar rmax res1)
          match adoptAll h1 (res1.map (·.2)) rightPid with
          | none => none
          | some h2 =>
            match getPage h2 leftPid with
            | some (.internalN lpar lmax les) =>
                let h3 := setPage h2 leftPid (.internalN lpar lmax (les ++ res1))
                let h4 := setPage h3 rightPid (.internalN rpar rmax [])
                match getPage h4 parentPid with
                | some (.internalN p2 pm2 pes2) =>
                    let pes3 := removeAtIdx pes2 index.toNat
                    let h5 := setPage h4 parentPid (.internalN p2 pm2 pes3)
                    if pes3.length < GetMinSize pm2 then
                      coalesceOrRedistribute cfg h5 root parentPid fuel
                    else some (h5, root)
                | _ => none
            | _ => none
    | _, _ => none

end

/-- `BPlusTree::Remove`: nothing on an empty tree; descend (the leaf stays
pinned — the source never unpins it), remove the key, and rebalance when
the leaf underflows. -/
def removeT (cfg : TConfig) (h : THeap) (root key : Int) (fuel : Nat) :
    Option (THeap × Int) :=
  if root = INVALID_PAGE_ID then some (h, root)
  else
    match findLeafLoop h root key fuel with
    | none => none
    | some (h1, pid, .leafN par max es nx) =>
        let es1 := leafRemove es key
        let h2 := setPage h1 pid (.leafN par max es1 nx)
        if es1.length < GetMinSize max then
          coalesceOrRedistribute cfg h2 root pid fuel
        else some (h2, root)
    | some _ => none

/-! ### Index iterator — embedding of src/storage/index/index_iterator.cpp -/

/-- The iterator state: the held leaf's page id and the slot index. -/
structure TIter where
  pid : Int
  index : Int
deriving DecidableEq

/-- The `IndexIterator(page_id, index, bpm)` constructor: fetches (pins)
the page and requires it to be a leaf. -/
def iterCreate (h : THeap) (pid index : Int) : Option (THeap × TIter) :=
  match fetchPg h pid with
  | none => none
  | some (n, h1) => if n.isLeafPage then some (h1, ⟨pid, index⟩) else none

/-- `IndexIterator::isEnd`: at the last index of the rightmost leaf. -/
def iterIsEnd (h : THeap) (it : TIter) : Option Bool :=
  match getPage h it.pid with
  | some (.leafN _ _ es nx) =>
      some (decide (nx = INVALID_PAGE_ID ∧ it.index = (es.length : Int) - 1))
  | _ => none

/-- The `~IndexIterator` destructor: unpins the held leaf with dirty flag
`true` (the source always passes `true`). -/
def iterDestroy (h : THeap) (it : TIter) : THeap :=
  unpinPg h it.pid true

/-- `IndexIterator::operator++`: step the index inside the leaf; when the
leaf is exhausted, unpin it with dirty flag `true` and fetch the next
leaf at index 0. -/
def iterNext (h : THeap) (it : TIter) : Option (THeap × TIter) :=
  match getPage h it.pid with
  | some (.leafN _ _ es nx) =>
      if nx = INVALID_PAGE_ID ∧ it.index = (es.length : Int) - 1 then
        some (h, ⟨it.pid, it.index + 1⟩)
      else if it.index < (es.length : Int) - 1 then
        some (h, ⟨it.pid, it.index + 1⟩)
      else
        let h1 := unpinPg h it.pid true
        match fetchPg h1 nx with
        | none => none
        | some (_, h2) => some (h2, ⟨nx, 0⟩)
  | _ => none

/-! ### Concrete trees used by the theorems below -/

/-- The configuration of scenario S3: `leaf_max_size = internal_max_size = 4`. -/
def treeCfg : TConfig := ⟨4, 4⟩

/-- A tree whose root is a single leaf (page 1) holding the entry (1, 10);
no page is pinned. -/
def c3Heap : THeap := ⟨[(1, .leafN (-1) 4 [(1, 10)] (-1))], [], [], 2, [(0, 1)]⟩

/-- `Remove(1)` on `c3Heap`. -/
def c3RemoveRun : Option (THeap × Int) := removeT treeCfg c3Heap 1 1 50

/-- A duplicate `Insert(1, 99)` on `c3Heap` (key 1 is present). -/
def c3DupRun : Option (THeap × Int × Bool) := insertT treeCfg c3Heap 1 1 99 50

/-- A tree whose internal root (page 1) has size 1 — a single child leaf
(page 2) — as delete-rebalancing produces before `AdjustRoot`; the root is
pinned once by the remove in progress. -/
def c9Heap : THeap :=
  ⟨[(1, .internalN (-1) 4 [(0, 2)]), (2, .leafN 1 4 [(5, 50)] (-1))],
   [(1, 1)], [], 3, [(0, 1)]⟩

/-- `CoalesceOrRedistribute` reaching the root of `c9Heap` (which
delegates to `AdjustRoot`). -/
def c9Run : Option (THeap × Int) := coalesceOrRedistribute treeCfg c9Heap 1 1 50

/-- Two chained leaves (pages 4 and 5) under a parent id 3; an iterator
holds leaf 4 (pinned once, clean) at its last slot. -/
def c10Heap : THeap :=
  ⟨[(4, .leafN 3 4 [(1, 10), (2, 20)] 5), (5, .leafN 3 4 [(3, 30)] (-1))],
   [(4, 1)], [], 6, [(0, 3)]⟩

/-- The iterator holding leaf 4 at index 1 (the leaf's last slot). -/
def c10Iter : TIter := ⟨4, 1⟩

/-- A concrete internal node: children 100, 101, 102 with separators 5, 9. -/
def c7Es : List (Int × Int) := [(0, 100), (5, 101), (9, 102)]

/-- A root leaf (page 1) holding keys 1, 2, 3 with `max_size = 4`: the
next insert fills it and splits. -/
def c8Heap : THeap :=
  ⟨[(1, .leafN (-1) 4 [(1, 10), (2, 20), (3, 30)] (-1))], [], [], 2, [(0, 1)]⟩

/-! ### Well-formedness of a tree in the heap

`ST cfg h d pid lo hi` is the search-tree representation invariant of the
spec's section 8 at page `pid`: leaves sorted with keys in `[lo, hi)`
(`none` bounds are the infinities), internal separators strictly
increasing and strictly inside the range, each child a search tree over
its slot range, children's `parent_page_id` fields correct, and every page
id allocated below `nextPid`.  `d` bounds the height. -/

/-- `lo ≤ k` with `none` as `-inf`. -/
def okLo : Option Int → Int → Prop
  | none, _ => True
  | some l, k => l ≤ k

/-- `k < hi` with `none` as `+inf`. -/
def okHi : Option Int → Int → Prop
  | none, _ => True
  | some u, k => k < u

/-- `k ∈ [lo, hi)`. -/
def inB (lo hi : Option Int) (k : Int) : Prop := okLo lo k ∧ okHi hi k

/-- `k ∈ (lo, hi)` (strictly inside, for separators). -/
def keyStrictIn (lo hi : Option Int) (k : Int) : Prop :=
  (∀ l, lo = some l → l < k) ∧ (∀ u, hi = some u → k < u)

/-- The range of child `i` of an internal node: lower bound. -/
def childLo (es : List (Int × Int)) (lo : Option Int) (i : Nat) : Option Int :=
  if i = 0 then lo else some (keyAtL es i)

/-- The range of child `i` of an internal node: upper bound. -/
def childHi (es : List (Int × Int)) (hi : Option Int) (i : Nat) : Option Int :=
  if i + 1 = es.length then hi else some (keyAtL es (i + 1))

/-- `parent_page_id` of the node stored at `p`. -/
def parentOf (h : THeap) (p : Int) : Option Int :=
  (getPage h p).map (·.parentPageId)

inductive ST (cfg : TConfig) (h : THeap) : Nat → Int → Option Int → Option Int → Prop
  | leaf {d pid lo hi par es nx} :
      getPage h pid = some (.leafN par cfg.leafMax es nx) →
      es.Pairwise (fun a b => a.1 < b.1) →
      (∀ e ∈ es, inB lo hi e.1) →
      0 ≤ pid → pid < h.nextPid →
      ST cfg h d pid lo hi
  | node {d pid lo hi par es} :
      getPage h pid = some (.internalN par cfg.internalMax es) →
      2 ≤ es.length →
      (∀ m, 1 ≤ m → m < es.length → keyStrictIn lo hi (keyAtL es m)) →
      (∀ m n, 1 ≤ m → m < n → n < es.length → keyAtL es m < keyAtL es n) →
      (∀ i, i < es.length →
        ST cfg h d (valueAtL es i) (childLo es lo i) (childHi es hi i)) →
      (∀ i, i < es.length → parentOf h (valueAtL es i) = some pid) →
      0 ≤ pid → pid < h.nextPid →
      ST cfg h (d + 1) pid lo hi

/-- The page ids of the subtree rooted at `pid`, read from the heap
(height-bounded). -/
def subPids (h : THeap) : Nat → Int → List Int
  | 0, pid => [pid]
  | d + 1, pid =>
    match getPage h pid with
    | some (.internalN _ _ es) =>
        pid :: (es.map (fun e => subPids h d e.2)).flatten
    | _ => [pid]

/-- `pid` occupies slot `i` of the parent entry list `pes`, its slot range
is `[lo, hi)` inside the parent's `[plo, phi)`, the parent's meaningful
keys are strictly increasing and strictly inside `(plo, phi)`, and
`ValueIndex` finds exactly slot `i`. -/
def SlotAt (pes : List (Int × Int)) (pid : Int)
    (lo hi plo phi : Option Int) : Prop :=
  ∃ i, i < pes.length ∧ valueAtL pes i = pid ∧
    valueIndexL pes pid = (i : Int) ∧
    lo = childLo pes plo i ∧ hi = childHi pes phi i ∧
    (∀ m n, 1 ≤ m → m < n → n < pes.length → keyAtL pes m < keyAtL pes n) ∧
    (∀ m, 1 ≤ m → m < pes.length → keyStrictIn plo phi (keyAtL pes m))

/-- The ancestor chain of `pid` up to the tree root `rt`, as the climb of
`InsertIntoParent` consumes it: each ancestor is an internal page whose
slot for the current node carries the current range; `AS` lists the strict
ancestors bottom-up.  The chain also records that `key` lies in every
range on the path, that the children of each ancestor are allocated, and
that no child of an ancestor is itself an ancestor. -/
inductive Anc (key : Int) : THeap → Int → Option Int → Option Int → Int → List Int → Prop
  | top {h pid lo hi} :
      parentOf h pid = some INVALID_PAGE_ID →
      Anc key h pid lo hi pid []
  | step {h pid lo hi ppid ppar pmax pes plo phi rt AS} :
      parentOf h pid = some ppid →
      getPage h ppid = some (.internalN ppar pmax pes) →
      SlotAt pes pid lo hi plo phi →
      inB plo phi key →
      (∀ v ∈ pes.map (·.2),
        (getPage h v).isSome ∧ 0 ≤ v ∧ v < h.nextPid ∧ ¬ v ∈ ppid :: AS) →
      0 ≤ ppid → ppid < h.nextPid →
      Anc key h ppid plo phi rt AS →
      Anc key h pid lo hi rt (ppid :: AS)

/-- The get-descent from `pid` finds `(key, value)`: either `pid` is a
leaf whose lookup yields `value`, or `pid` is internal and the descent
through `Lookup` continues; every page on the route belongs to `R`. -/
def FindsKVIn (R : List Int) (h : THeap) (key value : Int) : Nat → Int → Prop
  | 0, pid => pid ∈ R ∧ ∃ par max es nx,
      getPage h pid = some (.leafN par max es nx) ∧
      leafLookup es key = some value
  | d + 1, pid => pid ∈ R ∧
      ((∃ par max es nx, getPage h pid = some (.leafN par max es nx) ∧
          leafLookup es key = some value) ∨
       (∃ par max es, getPage h pid = some (.internalN par max es) ∧
          FindsKVIn R h key value d (internalLookup es key)))

/-- No leaf page of the heap carries `key`. -/
def leafKeyFree (h : THeap) (key : Int) : Prop :=
  ∀ p par max es nx, getPage h p = some (.leafN par max es nx) →
    ∀ e ∈ es, ¬ e.1 = key

/-- Every leaf except `T` is free of `key`, and `T` carries it at most
once. -/
def leafKeyOnlyAt (h : THeap) (key T : Int) : Prop :=
  (∀ p par max es nx, getPage h p = some (.leafN par max es nx) →
    ¬ p = T → ∀ e ∈ es, ¬ e.1 = key) ∧
  (∀ par max es nx, getPage h T = some (.leafN par max es nx) →
    (es.filter (fun e => e.1 = key)).length ≤ 1)

/-- Allocation soundness: no page is mapped at or above the allocation
counter. -/
def freshOK (h : THeap) : Prop :=
  ∀ q, h.nextPid ≤ q → getPage h q = none

/-- Two heaps with the same page array and allocation counter (pin and
dirty bookkeeping may differ). -/
def pagesEq (h h' : THeap) : Prop :=
  h'.pages = h.pages ∧ h'.nextPid = h.nextPid

/-- `h'` differs from `h` at most by `parent_page_id` fields. -/
def parentMod (h h' : THeap) : Prop :=
  ∀ q, getPage h' q = getPage h q ∨
    ∃ n p, getPage h q = some n ∧ getPage h' q = some (n.setParent p)

/-- Every leaf of `h'` was a leaf of `h` with the same entries. -/
def leafPreserve (h h' : THeap) : Prop :=
  ∀ p par max es nx, getPage h' p = some (.leafN par max es nx) →
    ∃ par1 nx1, getPage h p = some (.leafN par1 max es nx1)

/-! ### Support lemmas for the association-list primitives -/

theorem plookup_pstore_self {α : Type} (p : Int) (v : α) (l : List (Int × α)) :
    plookup p (pstore p v l) = some v := by
  unfold pstore
  by_cases h : (plookup p l).isSome
  · simp only [h, if_pos]
    induction l with
    | nil => simp [plookup] at h
    | cons e t ih =>
        by_cases he : e.1 = p
        · simp [plookup, pupdate, he]
        · simp only [plookup, pupdate, he, if_neg, ite_false] at *
          simpa [plookup, he] using ih h
  · simp [h, plookup]

theorem plookup_pstore_ne {α : Type} (p q : Int) (v : α) (l : List (Int × α))
    (hne : q ≠ p) : plookup q (pstore p v l) = plookup q l := by
  unfold pstore
  by_cases h : (plookup p l).isSome
  · simp only [h, if_pos]
    induction l with
    | nil => simp [pupdate]
    | cons e t ih =>
        by_cases he : e.1 = p
        · simp [plookup, pupdate, he, Ne.symm hne]
        · simp only [plookup, pupdate, he, ite_false] at *
          by_cases hq : e.1 = q
          · simp [plookup, hq]
          · simp only [plookup, hq, ite_false]
            exact ih h
  · simp [h, plookup, Ne.symm hne]

theorem plookup_perase_ne {α : Type} (p q : Int) (l : List (Int × α))
    (hne : q ≠ p) : plookup q (perase p l) = plookup q l := by
  induction l with
  | nil => rfl
  | cons e t ih =>
      by_cases he : e.1 = p
      · have h1 : perase p (e :: t) = perase p t := by
          simp [perase, List.filter_cons, he]
        have h2 : plookup q (e :: t) = plookup q t := by
          have hne2 : ¬ e.1 = q := fun h => hne (h.symm.trans he)
          simp [plookup, hne2]
        rw [h1, ih, h2]
      · have h1 : perase p (e :: t) = e :: perase p t := by
          simp [perase, List.filter_cons, he]
        rw [h1]
        by_cases hq : e.1 = q
        · simp [plookup, hq]
        · simp [plookup, hq, ih]

theorem plookup_perase_self {α : Type} (p : Int) (l : List (Int × α)) :
    plookup p (perase p l) = none := by
  induction l with
  | nil => rfl
  | cons e t ih =>
      by_cases he : e.1 = p
      · have h1 : perase p (e :: t) = perase p t := by
          simp [perase, List.filter_cons, he]
        rw [h1, ih]
      · have h1 : perase p (e :: t) = e :: perase p t := by
          simp [perase, List.filter_cons, he]
        rw [h1]
        simp [plookup, he, ih]

theorem getD_set_self {α : Type} (l : List α) (i : Nat) (a d : α)
    (h : i < l.length) : (l.set i a).getD i d = a := by
  simp [List.getD, List.getElem?_set_self, h]

theorem ReadPage_WritePage_ne (d : DiskManager) (p q v : Int) (h : q ≠ p) :
    (d.WritePage p v).ReadPage q = d.ReadPage q := by
  unfold DiskManager.ReadPage DiskManager.WritePage
  simp [plookup_pstore_ne p q v d.store h]

theorem cmpK_pos_iff (a b : Int) : cmpK a b > 0 ↔ b < a := by
  unfold cmpK
  split_ifs with h1 h2 <;> omega

theorem lookupLoop_spec (es : List (Int × Int)) (key : Int)
    (hs : ∀ i j, 1 ≤ i → i < j → j < es.length → keyAtL es i < keyAtL es j) :
    ∀ d left right, right - left ≤ d → 1 ≤ left → left ≤ right →
      right ≤ es.length →
      (∀ m, 1 ≤ m → m < left → keyAtL es m ≤ key) →
      (∀ m, right ≤ m → m < es.length → key < keyAtL es m) →
      (left ≤ lookupLoop es key left right ∧
       lookupLoop es key left right ≤ right ∧
       (∀ m, 1 ≤ m → m < lookupLoop es key left right → keyAtL es m ≤ key) ∧
       (∀ m, lookupLoop es key left right ≤ m → m < es.length →
         key < keyAtL es m)) := by
  intro d
  induction d with
  | zero =>
      intro left right hd h1 h2 h3 hlo hhi
      have hnl : ¬ left < right := by omega
      rw [lookupLoop, dif_neg hnl]
      exact ⟨le_refl _, h2, hlo, fun m hm1 hm2 => hhi m (by omega) hm2⟩
  | succ d ih =>
      intro left right hd h1 h2 h3 hlo hhi
      by_cases hlr : left < right
      · rw [lookupLoop, dif_pos hlr]
        have hmlt : (right - left) / 2 + left < right := by
          have := Nat.div_lt_self (show 0 < right - left by omega)
            (show 1 < 2 by omega)
          omega
        have hmge : left ≤ (right - left) / 2 + left := by omega
        by_cases hc : cmpK (keyAtL es ((right - left) / 2 + left)) key > 0
        · rw [if_pos hc]
          have hklt : key < keyAtL es ((right - left) / 2 + left) :=
            (cmpK_pos_iff _ _).mp hc
          have hup : ∀ m, (right - left) / 2 + left ≤ m → m < es.length →
              key < keyAtL es m := by
            intro m hm1 hm2
            by_cases hmm : m = (right - left) / 2 + left
            · rw [hmm]
              exact hklt
            · exact lt_trans hklt (hs _ m (by omega) (by omega) hm2)
          obtain ⟨ra, rb, rc, rd⟩ := ih left ((right - left) / 2 + left)
            (by omega) h1 (by omega) (by omega) hlo hup
          exact ⟨ra, by omega, rc, rd⟩
        · rw [if_neg hc]
          have hkge : keyAtL es ((right - left) / 2 + left) ≤ key := by
            rcases lt_or_le key (keyAtL es ((right - left) / 2 + left)) with h | h
            · exact absurd ((cmpK_pos_iff _ _).mpr h) hc
            · exact h
          have hlow : ∀ m, 1 ≤ m → m < (right - left) / 2 + left + 1 →
              keyAtL es m ≤ key := by
            intro m hm1 hm2
            by_cases hmm : m = (right - left) / 2 + left
            · rw [hmm]
              exact hkge
            · exact le_trans (le_of_lt (hs m _ hm1 (by omega) (by omega))) hkge
          obtain ⟨ra, rb, rc, rd⟩ := ih ((right - left) / 2 + left + 1) right
            (by omega) (by omega) (by omega) h3 hlow hhi
          exact ⟨by omega, rb, rc, rd⟩
      · rw [lookupLoop, dif_neg hlr]
        exact ⟨le_refl _, h2, hlo, fun m hm1 hm2 => hhi m (by omega) hm2⟩

/-! ### Heap frame lemmas and symbolic-execution equations for the tree -/

theorem getPage_setPage_self (h : THeap) (p : Int) (n : BNode) :
    getPage (setPage h p n) p = some n :=
  plookup_pstore_self p n h.pages

theorem getPage_setPage_ne (h : THeap) (p q : Int) (n : BNode) (hne : q ≠ p) :
    getPage (setPage h p n) q = getPage h q :=
  plookup_pstore_ne p q n h.pages hne

theorem getPage_pinBump (h : THeap) (p q : Int) :
    getPage (pinBump h p) q = getPage h q := rfl

theorem getPage_unpinPg (h : THeap) (p : Int) (f : Bool) (q : Int) :
    getPage (unpinPg h p f) q = getPage h q := by
  unfold unpinPg
  split_ifs <;> rfl

theorem getPage_updateRoot (h : THeap) (root ir q : Int) :
    getPage (updateRootPageId h root ir) q = getPage h q := rfl

theorem fetchPg_some (h : THeap) (p : Int) (n : BNode)
    (hp : getPage h p = some n) :
    fetchPg h p = some (n, pinBump h p) := by
  unfold fetchPg
  rw [hp]

theorem newPg_snd (h : THeap) (n : BNode) : (newPg h n).2 = h.nextPid := rfl

theorem getPage_newPg_self (h : THeap) (n : BNode) :
    getPage (newPg h n).1 h.nextPid = some n := by
  unfold getPage newPg plookup
  simp

theorem getPage_newPg_ne (h : THeap) (n : BNode) (q : Int)
    (hne : q ≠ h.nextPid) :
    getPage (newPg h n).1 q = getPage h q := by
  show plookup q ((h.nextPid, n) :: h.pages) = plookup q h.pages
  rw [plookup]
  simp [Ne.symm hne]

theorem nextPid_setPage (h : THeap) (p : Int) (n : BNode) :
    (setPage h p n).nextPid = h.nextPid := rfl

theorem nextPid_pinBump (h : THeap) (p : Int) :
    (pinBump h p).nextPid = h.nextPid := rfl

theorem nextPid_newPg (h : THeap) (n : BNode) :
    (newPg h n).1.nextPid = h.nextPid + 1 := rfl

theorem nextPid_unpinPg (h : THeap) (p : Int) (f : Bool) :
    (unpinPg h p f).nextPid = h.nextPid := by
  unfold unpinPg
  split_ifs <;> rfl

theorem findLeafLoop_leaf (h : THeap) (pid key : Int) (fuel : Nat)
    (par : Int) (max : Nat) (es : List (Int × Int)) (nx : Int)
    (hp : getPage h pid = some (.leafN par max es nx)) :
    findLeafLoop h pid key (fuel + 1) =
      some (pinBump h pid, pid, .leafN par max es nx) := by
  unfold findLeafLoop
  rw [fetchPg_some h pid _ hp]

/-- C8 draft. -/
theorem splitLeaf_spec (cfg : TConfig) (h : THeap) (pid par : Int) (max : Nat)
    (es : List (Int × Int)) (nx key value : Int)
    (hp : getPage h pid = some (.leafN par max es nx))
    (hfresh : ¬ pid = h.nextPid) :
    ∃ h1, splitLeaf cfg h pid = some (h1, h.nextPid) ∧
      getPage h1 h.nextPid =
        some (.leafN INVALID_PAGE_ID cfg.leafMax (es.drop (es.length / 2)) nx) ∧
      getPage h1 pid =
        some (.leafN par max (es.take (es.length / 2)) h.nextPid) ∧
      (es.take (es.length / 2)).length = es.length / 2 ∧
      (es.drop (es.length / 2)).length = es.length - es.length / 2 := by
  unfold splitLeaf
  rw [hp]
  refine ⟨_, rfl, ?_, ?_, ?_, ?_⟩
  · rw [getPage_setPage_ne _ _ _ _ (Ne.symm hfresh), newPg_snd,
        getPage_setPage_self]
  · rw [getPage_setPage_self]
    rfl
  · simp
    omega
  · simp

theorem splitLeaf_eq (cfg : TConfig) (h : THeap) (pid par : Int) (max : Nat)
    (es : List (Int × Int)) (nx : Int)
    (hp : getPage h pid = some (.leafN par max es nx)) :
    splitLeaf cfg h pid =
      some (setPage (setPage
          (newPg h (.leafN INVALID_PAGE_ID cfg.leafMax [] INVALID_PAGE_ID)).1
          h.nextPid
          (.leafN INVALID_PAGE_ID cfg.leafMax (es.drop (es.length / 2)) nx))
        pid (.leafN par max (es.take (es.length / 2)) h.nextPid),
        h.nextPid) := by
  unfold splitLeaf
  rw [hp]
  rfl

theorem insertIntoParent_root_eq (cfg : TConfig) (h : THeap)
    (root oldPid key newPid : Int) (fuel : Nat) (oldN newN : BNode)
    (ho : getPage h oldPid = some oldN)
    (hP : oldN.parentPageId = INVALID_PAGE_ID)
    (hn1 : ¬ newPid = h.nextPid) (hn2 : ¬ oldPid = h.nextPid)
    (hne : ¬ oldPid = newPid)
    (hnew : getPage h newPid = some newN) :
    insertIntoParent cfg h root oldPid key newPid (fuel + 1) =
      some (unpinPg (updateRootPageId
          (setPage (setPage
            (newPg h (.internalN INVALID_PAGE_ID cfg.internalMax
              [(0, oldPid), (key, newPid)])).1
            newPid (newN.setParent h.nextPid))
          oldPid (oldN.setParent h.nextPid)) h.nextPid 0) h.nextPid true,
        h.nextPid) := by
  unfold insertIntoParent
  rw [ho]
  simp only [hP, if_pos, newPg_snd]
  simp only [getPage_newPg_ne _ _ _ hn1, hnew, newPg_snd,
    getPage_setPage_ne _ _ _ _ hne, getPage_newPg_ne _ _ _ hn2, ho]

theorem insertFillRootLeaf_spec (cfg : TConfig) (h : THeap) (pid : Int) (max : Nat)
    (es : List (Int × Int)) (nx key value : Int)
    (hp : getPage h pid = some (.leafN INVALID_PAGE_ID max es nx))
    (hfresh : ¬ pid = h.nextPid)
    (hfresh2 : ¬ pid = h.nextPid + 1)
    (hdup : leafLookup es key = none)
    (hfill : (leafInsert es key value).length = max) :
    ∃ h2, insertIntoLeaf cfg h pid key value 2 = some (h2, h.nextPid + 1, true) ∧
      getPage h2 (h.nextPid + 1) =
        some (.internalN INVALID_PAGE_ID cfg.internalMax
          [(0, pid),
           (keyAtL ((leafInsert es key value).drop
              ((leafInsert es key value).length / 2)) 0, h.nextPid)]) ∧
      getPage h2 pid = some (.leafN (h.nextPid + 1) max
          ((leafInsert es key value).take
            ((leafInsert es key value).length / 2)) h.nextPid) ∧
      getPage h2 h.nextPid = some (.leafN (h.nextPid + 1) cfg.leafMax
          ((leafInsert es key value).drop
            ((leafInsert es key value).length / 2)) nx) := by
  have e1 := findLeafLoop_leaf h pid key 1 INVALID_PAGE_ID max es nx hp
  unfold insertIntoLeaf
  rw [e1]
  simp only [hdup, Option.isSome_none, Bool.false_eq_true, if_false]
  rw [if_pos hfill]
  have hp2 : getPage (setPage (pinBump h pid) pid
      (.leafN INVALID_PAGE_ID max (leafInsert es key value) nx)) pid =
      some (.leafN INVALID_PAGE_ID max (leafInsert es key value) nx) :=
    getPage_setPage_self _ _ _
  rw [splitLeaf_eq cfg _ pid INVALID_PAGE_ID max (leafInsert es key value) nx hp2]
  have g1 : getPage (setPage (setPage
      (newPg (setPage (pinBump h pid) pid
        (.leafN INVALID_PAGE_ID max (leafInsert es key value) nx))
        (.leafN INVALID_PAGE_ID cfg.leafMax [] INVALID_PAGE_ID)).1
      h.nextPid
      (.leafN INVALID_PAGE_ID cfg.leafMax
        ((leafInsert es key value).drop ((leafInsert es key value).length / 2)) nx))
      pid (.leafN INVALID_PAGE_ID max
        ((leafInsert es key value).take ((leafInsert es key value).length / 2))
        h.nextPid)) h.nextPid =
      some (.leafN INVALID_PAGE_ID cfg.leafMax
        ((leafInsert es key value).drop ((leafInsert es key value).length / 2)) nx) := by
    rw [getPage_setPage_ne _ _ _ _ (Ne.symm hfresh), getPage_setPage_self]
  simp only [nextPid_setPage, nextPid_pinBump]
  rw [g1]
  simp only []
  have hne_np_pid : ¬ pid = h.nextPid := hfresh
  have e2 := insertIntoParent_root_eq cfg
    (setPage (setPage
      (newPg (setPage (pinBump h pid) pid
        (.leafN INVALID_PAGE_ID max (leafInsert es key value) nx))
        (.leafN INVALID_PAGE_ID cfg.leafMax [] INVALID_PAGE_ID)).1
      h.nextPid
      (.leafN INVALID_PAGE_ID cfg.leafMax
        ((leafInsert es key value).drop ((leafInsert es key value).length / 2)) nx))
      pid (.leafN INVALID_PAGE_ID max
        ((leafInsert es key value).take ((leafInsert es key value).length / 2))
        h.nextPid))
    pid pid
    (keyAtL ((leafInsert es key value).drop ((leafInsert es key value).length / 2)) 0)
    h.nextPid 1
    (.leafN INVALID_PAGE_ID max
      ((leafInsert es key value).take ((leafInsert es key value).length / 2))
      h.nextPid)
    (.leafN INVALID_PAGE_ID cfg.leafMax
      ((leafInsert es key value).drop ((leafInsert es key value).length / 2)) nx)
    (getPage_setPage_self _ _ _) rfl
    (by simp only [nextPid_setPage, nextPid_pinBump, nextPid_newPg]
        omega)
    (by simp only [nextPid_setPage, nextPid_pinBump, nextPid_newPg]
        exact fun hh => hfresh2 hh)
    hfresh g1
  rw [show (1 : Nat) + 1 = 2 from rfl] at e2
  simp only [nextPid_setPage, nextPid_pinBump, nextPid_newPg] at e2
  rw [e2]
  have proot_ne_pid : ¬ (h.nextPid + 1 : Int) = pid := fun hh => hfresh2 hh.symm
  have np_ne_pid : ¬ (h.nextPid : Int) = pid := fun hh => hfresh hh.symm
  have ne1 : ¬ (h.nextPid + 1 : Int) = h.nextPid := by omega
  refine ⟨_, rfl, ?_, ?_, ?_⟩
  · rw [getPage_unpinPg, getPage_unpinPg, getPage_updateRoot,
        getPage_setPage_ne _ _ _ _ proot_ne_pid,
        getPage_setPage_ne _ _ _ _ ne1]
    exact getPage_newPg_self _ _
  · rw [getPage_unpinPg, getPage_unpinPg, getPage_updateRoot,
        getPage_setPage_self]
    rfl
  · rw [getPage_unpinPg, getPage_unpinPg, getPage_updateRoot,
        getPage_setPage_ne _ _ _ _ np_ne_pid,
        getPage_setPage_self]
    rfl

theorem pinOf_pinBump_self (h : THeap) (p : Int) :
    pinOf (pinBump h p) p = pinOf h p + 1 := by
  unfold pinOf pinBump
  rw [plookup_pstore_self]
  rfl

theorem pinOf_pinBump_ne (h : THeap) (p q : Int) (hne : q ≠ p) :
    pinOf (pinBump h p) q = pinOf h q := by
  unfold pinOf pinBump
  rw [plookup_pstore_ne _ _ _ _ hne]

theorem pinOf_unpinPg_self (h : THeap) (p : Int) (f : Bool)
    (hpin : 1 ≤ pinOf h p) :
    pinOf (unpinPg h p f) p = pinOf h p - 1 := by
  unfold unpinPg
  rw [if_neg (by omega)]
  show (plookup p (pstore p (pinOf h p - 1) h.pins)).getD 0 = pinOf h p - 1
  rw [plookup_pstore_self]
  rfl

theorem pinOf_unpinPg_ne (h : THeap) (p q : Int) (f : Bool) (hne : q ≠ p) :
    pinOf (unpinPg h p f) q = pinOf h q := by
  unfold unpinPg
  split_ifs with hp
  · rfl
  · show (plookup q (pstore p (pinOf h p - 1) h.pins)).getD 0 = pinOf h q
    rw [plookup_pstore_ne _ _ _ _ hne]
    rfl

theorem dirtyOf_unpinPg_self (h : THeap) (p : Int) (f : Bool)
    (hpin : 1 ≤ pinOf h p) :
    dirtyOf (unpinPg h p f) p = f := by
  unfold unpinPg
  rw [if_neg (by omega)]
  show (plookup p (pstore p f h.dirtyFlags)).getD false = f
  rw [plookup_pstore_self]
  rfl

theorem dirtyOf_pinBump (h : THeap) (p q : Int) :
    dirtyOf (pinBump h p) q = dirtyOf h q := rfl

/-! ### Sorted-list lemmas for the leaf operations -/

theorem leafLookup_eq_none (es : List (Int × Int)) (key : Int) :
    leafLookup es key = none ↔ ∀ e ∈ es, ¬ e.1 = key := by
  induction es with
  | nil => simp [leafLookup]
  | cons e t ih =>
      by_cases he : e.1 = key
      · simp [leafLookup, he]
      · simp [leafLookup, he, ih]

theorem leafLookup_mem (es : List (Int × Int)) (key v : Int)
    (h : leafLookup es key = some v) : (key, v) ∈ es := by
  induction es with
  | nil => simp [leafLookup] at h
  | cons e t ih =>
      by_cases he : e.1 = key
      · simp only [leafLookup, he, if_pos] at h
        have hv := Option.some.inj h
        have heq : (key, v) = e := by
          obtain ⟨e1, e2⟩ := e
          simp only at he hv
          rw [← he, ← hv]
        rw [heq]
        exact List.mem_cons_self _ _
      · simp only [leafLookup, he, ite_false] at h
        exact List.mem_cons_of_mem _ (ih h)

theorem leafInsert_mem (es : List (Int × Int)) (k v : Int) (a : Int × Int) :
    a ∈ leafInsert es k v ↔ a = (k, v) ∨ a ∈ es := by
  induction es with
  | nil => simp [leafInsert]
  | cons e t ih =>
      by_cases hk : k < e.1
      · simp [leafInsert, hk]
      · simp only [leafInsert, hk, ite_false, List.mem_cons, ih]
        tauto

theorem leafInsert_pairwise (es : List (Int × Int)) (k v : Int)
    (hs : es.Pairwise (fun a b => a.1 < b.1))
    (hfree : ∀ e ∈ es, ¬ e.1 = k) :
    (leafInsert es k v).Pairwise (fun a b => a.1 < b.1) := by
  induction es with
  | nil => simp [leafInsert]
  | cons e t ih =>
      obtain ⟨he, ht⟩ := List.pairwise_cons.mp hs
      by_cases hk : k < e.1
      · simp only [leafInsert, hk, if_pos]
        refine List.pairwise_cons.mpr ⟨?_, hs⟩
        intro b hb
        rcases List.mem_cons.mp hb with hb | hb
        · rw [hb]
          exact hk
        · exact lt_trans hk (he b hb)
      · simp only [leafInsert, hk, ite_false]
        refine List.pairwise_cons.mpr
          ⟨?_, ih ht (fun x hx => hfree x (List.mem_cons_of_mem _ hx))⟩
        intro b hb
        rcases (leafInsert_mem t k v b).mp hb with hb | hb
        · rw [hb]
          have := hfree e (List.mem_cons_self _ _)
          simp only at this ⊢
          omega
        · exact he b hb

theorem leafLookup_of_mem_pairwise (es : List (Int × Int)) (k v : Int)
    (hs : es.Pairwise (fun a b => a.1 < b.1)) (hm : (k, v) ∈ es) :
    leafLookup es k = some v := by
  induction es with
  | nil => simp at hm
  | cons e t ih =>
      obtain ⟨he, ht⟩ := List.pairwise_cons.mp hs
      rcases List.mem_cons.mp hm with hm | hm
      · rw [← hm]
        simp [leafLookup]
      · have hne : ¬ e.1 = k := by
          have := he _ hm
          simp only at this
          omega
        simp only [leafLookup, hne, ite_false]
        exact ih ht hm

theorem leafInsert_length (es : List (Int × Int)) (k v : Int) :
    (leafInsert es k v).length = es.length + 1 := by
  induction es with
  | nil => rfl
  | cons e t ih =>
      by_cases hk : k < e.1
      · simp [leafInsert, hk]
      · simp [leafInsert, hk, ih]

theorem pairwise_key_lt_of_pos (l : List (Int × Int)) (i j : Nat)
    (hs : l.Pairwise (fun a b => a.1 < b.1))
    (hij : i < j) (hj : j < l.length) :
    (l.getD i (0, 0)).1 < (l.getD j (0, 0)).1 := by
  have hi : i < l.length := lt_trans hij hj
  have := List.pairwise_iff_get.mp hs ⟨i, hi⟩ ⟨j, hj⟩ hij
  rw [List.getD_eq_getElem?_getD, List.getD_eq_getElem?_getD,
      List.getElem?_eq_getElem hi, List.getElem?_eq_getElem hj]
  simpa [List.get_eq_getElem] using this

theorem mem_take_of_lt_sep (l : List (Int × Int)) (half : Nat) (k v : Int)
    (hs : l.Pairwise (fun a b => a.1 < b.1))
    (hh : half < l.length)
    (hk : k < (l.getD half (0, 0)).1)
    (hm : (k, v) ∈ l) : (k, v) ∈ l.take half := by
  have hsplit := List.take_append_drop half l
  rw [← hsplit] at hm
  rcases List.mem_append.mp hm with h | h
  · exact h
  · exfalso
    obtain ⟨⟨i, hi⟩, hget⟩ := List.get_of_mem h
    have hig : (l.drop half).get ⟨i, hi⟩ = l.getD (half + i) (0, 0) := by
      rw [List.getD_eq_getElem?_getD, ← List.getElem?_drop,
          List.getElem?_eq_getElem hi]
      simp [List.get_eq_getElem]
    rw [hget] at hig
    have hhalfi : half + i < l.length := by
      have := List.length_drop half l
      omega
    rcases Nat.eq_or_lt_of_le (Nat.le_add_right half i) with hcase | hcase
    · rw [← hcase] at hig
      rw [← hig] at hk
      simp at hk
    · have := pairwise_key_lt_of_pos l half (half + i) hs hcase hhalfi
      rw [← hig] at this
      simp only at this
      omega

theorem mem_drop_of_ge_sep (l : List (Int × Int)) (half : Nat) (k v : Int)
    (hs : l.Pairwise (fun a b => a.1 < b.1))
    (hh : half < l.length)
    (hk : (l.getD half (0, 0)).1 ≤ k)
    (hm : (k, v) ∈ l) : (k, v) ∈ l.drop half := by
  have hsplit := List.take_append_drop half l
  rw [← hsplit] at hm
  rcases List.mem_append.mp hm with h | h
  · exfalso
    obtain ⟨⟨i, hi⟩, hget⟩ := List.get_of_mem h
    have hitake : i < half := by
      have := List.length_take half l
      omega
    have hig : (l.take half).get ⟨i, hi⟩ = l.getD i (0, 0) := by
      have hil : i < l.length := lt_trans hitake hh
      rw [List.getD_eq_getElem?_getD, List.getElem?_eq_getElem hil]
      simp [List.get_eq_getElem, List.getElem_take]
    rw [hget] at hig
    have := pairwise_key_lt_of_pos l i half hs hitake hh
    rw [← hig] at this
    simp only at this
    omega
  · exact h

theorem leafRemove_free (es : List (Int × Int)) (key : Int)
    (hc : (es.filter (fun e => e.1 = key)).length ≤ 1) :
    ∀ e ∈ leafRemove es key, ¬ e.1 = key := by
  induction es with
  | nil => simp [leafRemove]
  | cons e t ih =>
      by_cases he : e.1 = key
      · simp only [leafRemove, he, if_pos]
        have hfc : (e :: t).filter (fun x => decide (x.1 = key)) =
            e :: t.filter (fun x => decide (x.1 = key)) := by
          simp [List.filter_cons, he]
        rw [hfc] at hc
        simp only [List.length_cons] at hc
        have h0 : (t.filter (fun x => decide (x.1 = key))).length = 0 := by
          omega
        have h0b : t.filter (fun x => decide (x.1 = key)) = [] :=
          List.length_eq_zero.mp h0
        intro x hx hxk
        have hxm : x ∈ t.filter (fun x => decide (x.1 = key)) :=
          List.mem_filter.mpr ⟨hx, by simpa using hxk⟩
        rw [h0b] at hxm
        simp at hxm
      · simp only [leafRemove, he, ite_false]
        intro x hx
        rcases List.mem_cons.mp hx with hx | hx
        · rw [hx]
          exact he
        · refine ih ?_ x hx
          have hfc : (e :: t).filter (fun x => decide (x.1 = key)) =
              t.filter (fun x => decide (x.1 = key)) := by
            simp [List.filter_cons, he]
          rw [hfc] at hc
          exact hc

theorem filter_none_of_free (l : List (Int × Int)) (k : Int)
    (hl : ∀ e ∈ l, ¬ e.1 = k) :
    l.filter (fun e => e.1 = k) = [] := by
  rw [List.filter_eq_nil_iff]
  intro a ha
  simpa using hl a ha

theorem filter_leafInsert (es : List (Int × Int)) (k v : Int)
    (hfree : ∀ e ∈ es, ¬ e.1 = k) :
    ((leafInsert es k v).filter (fun e => e.1 = k)).length = 1 := by
  induction es with
  | nil => simp [leafInsert]
  | cons e t ih =>
      have hne : ¬ e.1 = k := hfree e (List.mem_cons_self _ _)
      by_cases hk : k < e.1
      · have h0 : (e :: t).filter (fun e => decide (e.1 = k)) = [] :=
          filter_none_of_free _ _ hfree
        simp only [leafInsert, hk, if_pos]
        rw [List.filter_cons, if_pos (by simp), h0]
        rfl
      · simp only [leafInsert, hk, ite_false]
        rw [List.filter_cons, if_neg (by simpa using hne)]
        exact ih (fun x hx => hfree x (List.mem_cons_of_mem _ hx))

/-! ### Binary-search uniqueness and transport lemmas for the tree -/

theorem internalLookup_at_slot (es : List (Int × Int)) (key : Int) (i : Nat)
    (hs : ∀ m n, 1 ≤ m → m < n → n < es.length → keyAtL es m < keyAtL es n)
    (hi : i < es.length)
    (hlo : i = 0 ∨ keyAtL es i ≤ key)
    (hhi : i + 1 = es.length ∨ key < keyAtL es (i + 1)) :
    internalLookup es key = valueAtL es i := by
  have hn : 1 ≤ es.length := by omega
  obtain ⟨ha, hb, hc, hd⟩ := lookupLoop_spec es key hs es.length 1 es.length
    (by omega) (le_refl 1) hn (le_refl _)
    (fun m hm1 hm2 => by omega) (fun m hm1 hm2 => by omega)
  have hj : lookupLoop es key 1 es.length - 1 = i := by
    by_cases hlt : lookupLoop es key 1 es.length - 1 < i
    · have hki : key < keyAtL es i := hd i (by omega) hi
      rcases hlo with h0 | h0
      · omega
      · omega
    · by_cases hgt : i < lookupLoop es key 1 es.length - 1
      · have h1 : keyAtL es (lookupLoop es key 1 es.length - 1) ≤ key :=
          hc _ (by omega) (by omega)
        rcases hhi with h0 | h0
        · omega
        · by_cases heq : i + 1 = lookupLoop es key 1 es.length - 1
          · rw [heq] at h0
            omega
          · have h2 : keyAtL es (i + 1) <
                keyAtL es (lookupLoop es key 1 es.length - 1) :=
              hs (i + 1) _ (by omega) (by omega) (by omega)
            omega
      · omega
  rw [internalLookup, hj]

theorem getPage_congr (h h' : THeap) (hpe : pagesEq h h') (q : Int) :
    getPage h' q = getPage h q := by
  unfold getPage
  rw [hpe.1]

theorem parentOf_congr (h h' : THeap) (hpe : pagesEq h h') (q : Int) :
    parentOf h' q = parentOf h q := by
  unfold parentOf
  rw [getPage_congr h h' hpe]

theorem ST_congr (cfg : TConfig) (h h' : THeap) (hpe : pagesEq h h') :
    ∀ {d pid lo hi}, ST cfg h d pid lo hi → ST cfg h' d pid lo hi := by
  intro d pid lo hi hst
  induction hst with
  | leaf hp hs hb h0 h1 =>
      exact ST.leaf ((getPage_congr h h' hpe _).trans hp) hs hb h0
        (by rw [hpe.2]; exact h1)
  | node hp hlen hin hsort hkids hpar h0 h1 ih =>
      exact ST.node ((getPage_congr h h' hpe _).trans hp) hlen hin hsort
        (fun i hi2 => ih i hi2)
        (fun i hi2 => (parentOf_congr h h' hpe _).trans (hpar i hi2)) h0
        (by rw [hpe.2]; exact h1)

theorem FindsKVIn_frame (R : List Int) (h h' : THeap) (key value : Int)
    (hR : ∀ q ∈ R, ∀ n0, getPage h q = some n0 → getPage h' q = some n0 ∨
      ∃ p, getPage h' q = some (n0.setParent p)) :
    ∀ d pid, FindsKVIn R h key value d pid → FindsKVIn R h' key value d pid := by
  intro d
  induction d with
  | zero =>
      intro pid hf
      obtain ⟨hm, par, max, es, nx, hp, hl⟩ := hf
      rcases hR pid hm _ hp with hq | ⟨p, hq⟩
      · exact ⟨hm, par, max, es, nx, hq, hl⟩
      · exact ⟨hm, p, max, es, nx, hq, hl⟩
  | succ d ih =>
      intro pid hf
      obtain ⟨hm, hf⟩ := hf
      refine ⟨hm, ?_⟩
      rcases hf with ⟨par, max, es, nx, hp, hl⟩ | ⟨par, max, es, hp, hrec⟩
      · rcases hR pid hm _ hp with hq | ⟨p, hq⟩
        · exact Or.inl ⟨par, max, es, nx, hq, hl⟩
        · exact Or.inl ⟨p, max, es, nx, hq, hl⟩
      · rcases hR pid hm _ hp with hq | ⟨p, hq⟩
        · exact Or.inr ⟨par, max, es, hq, ih _ hrec⟩
        · exact Or.inr ⟨p, max, es, hq, ih _ hrec⟩

theorem FindsKVIn_mono (R : List Int) (h : THeap) (key value : Int) :
    ∀ d pid, FindsKVIn R h key value d pid →
      FindsKVIn R h key value (d + 1) pid := by
  intro d
  induction d with
  | zero =>
      intro pid hf
      obtain ⟨hm, par, max, es, nx, hp, hl⟩ := hf
      exact ⟨hm, Or.inl ⟨par, max, es, nx, hp, hl⟩⟩
  | succ d ih =>
      intro pid hf
      obtain ⟨hm, hf⟩ := hf
      rcases hf with hleaf | ⟨par, max, es, hp, hrec⟩
      · exact ⟨hm, Or.inl hleaf⟩
      · exact ⟨hm, Or.inr ⟨par, max, es, hp, ih _ hrec⟩⟩

theorem FindsKVIn_sub (R R2 : List Int) (h : THeap) (key value : Int)
    (hsub : ∀ q ∈ R, q ∈ R2) :
    ∀ d pid, FindsKVIn R h key value d pid → FindsKVIn R2 h key value d pid := by
  intro d
  induction d with
  | zero =>
      intro pid hf
      obtain ⟨hm, rest⟩ := hf
      exact ⟨hsub _ hm, rest⟩
  | succ d ih =>
      intro pid hf
      obtain ⟨hm, hf⟩ := hf
      rcases hf with hleaf | ⟨par, max, es, hp, hrec⟩
      · exact ⟨hsub _ hm, Or.inl hleaf⟩
      · exact ⟨hsub _ hm, Or.inr ⟨par, max, es, hp, ih _ hrec⟩⟩

theorem Anc_frame (key : Int) (h h' : THeap)
    (halive : ∀ q, (getPage h q).isSome → (getPage h' q).isSome)
    (hnext : h.nextPid ≤ h'.nextPid) :
    ∀ {pid lo hi rt AS}, Anc key h pid lo hi rt AS →
      (∀ a ∈ AS, getPage h' a = getPage h a) →
      parentOf h' pid = parentOf h pid →
      Anc key h' pid lo hi rt AS := by
  intro pid lo hi rt AS hanc
  induction hanc with
  | top hp =>
      intro hAS hparent
      exact Anc.top (hparent.trans hp)
  | step hp hpp hslot hin hkids h0 h1 hrec ih =>
      intro hAS hparent
      refine Anc.step (hparent.trans hp)
        ((hAS _ (List.mem_cons_self _ _)).trans hpp) hslot hin ?_ h0
        (by omega) ?_
      · intro v hv
        obtain ⟨ha, hb, hc, hd⟩ := hkids v hv
        exact ⟨halive _ ha, hb, by omega, hd⟩
      · refine ih (fun a ha => hAS a (List.mem_cons_of_mem _ ha)) ?_
        unfold parentOf
        rw [hAS _ (List.mem_cons_self _ _)]

theorem valueAtL_mem (es : List (Int × Int)) (i : Nat) (hi : i < es.length) :
    valueAtL es i ∈ es.map (fun e => e.2) := by
  unfold valueAtL
  rw [List.getD_eq_getElem?_getD, List.getElem?_eq_getElem hi]
  exact List.mem_map_of_mem _ (List.getElem_mem hi)

theorem anc_self_not_mem (key : Int) (h : THeap) {pid : Int}
    {lo hi : Option Int} {rt : Int} {AS : List Int}
    (hanc : Anc key h pid lo hi rt AS) : ¬ pid ∈ AS := by
  cases hanc with
  | top => simp
  | step hp hpp hslot hin hkids h0 h1 hrec =>
      obtain ⟨i, hil, hvi, -⟩ := hslot
      have hm := hvi ▸ valueAtL_mem _ i hil
      exact (hkids _ hm).2.2.2

theorem anc_nodup (key : Int) (h : THeap) :
    ∀ {pid lo hi rt AS}, Anc key h pid lo hi rt AS → (pid :: AS).Nodup := by
  intro pid lo hi rt AS hanc
  induction hanc with
  | top hp => simp
  | step hp hpp hslot hin hkids h0 h1 hrec ih =>
      obtain ⟨i, hil, hvi, -⟩ := hslot
      have hm := hvi ▸ valueAtL_mem _ i hil
      exact List.nodup_cons.mpr ⟨(hkids _ hm).2.2.2, ih⟩

/-! ### Descent, fuel and allocation lemmas -/

theorem pages_pinBump (h : THeap) (p : Int) : (pinBump h p).pages = h.pages := rfl

theorem pages_unpinPg (h : THeap) (p : Int) (f : Bool) :
    (unpinPg h p f).pages = h.pages := by
  unfold unpinPg
  split_ifs <;> rfl

theorem headerRecs_pinBump (h : THeap) (p : Int) :
    (pinBump h p).headerRecs = h.headerRecs := rfl

theorem headerRecs_unpinPg (h : THeap) (p : Int) (f : Bool) :
    (unpinPg h p f).headerRecs = h.headerRecs := by
  unfold unpinPg
  split_ifs <;> rfl

theorem findLeafLoop_internal (h : THeap) (pid key : Int) (fuel : Nat)
    (par : Int) (max : Nat) (es : List (Int × Int))
    (hp : getPage h pid = some (.internalN par max es)) :
    findLeafLoop h pid key (fuel + 1) =
      findLeafLoop (unpinPg (pinBump h pid) pid false)
        (internalLookup es key) key fuel := by
  conv_lhs => rw [findLeafLoop]
  rw [fetchPg_some h pid _ hp]

theorem findLeafLoop_out (key : Int) : ∀ (fuel : Nat) (h : THeap)
    (pid : Int) (h1 : THeap) (L : Int) (n : BNode),
    findLeafLoop h pid key fuel = some (h1, L, n) →
    getPage h L = some n ∧ (∃ par max es nx, n = .leafN par max es nx) ∧
    h1.pages = h.pages ∧ h1.nextPid = h.nextPid ∧
    h1.headerRecs = h.headerRecs := by
  intro fuel
  induction fuel with
  | zero =>
      intro h pid h1 L n he
      simp [findLeafLoop] at he
  | succ fuel ih =>
      intro h pid h1 L n he
      cases hg : getPage h pid with
      | none =>
          unfold findLeafLoop fetchPg at he
          rw [hg] at he
          simp at he
      | some n0 =>
          cases n0 with
          | leafN par max es nx =>
              rw [findLeafLoop_leaf h pid key fuel par max es nx hg] at he
              obtain ⟨h1e, Le, ne⟩ : pinBump h pid = h1 ∧ pid = L ∧
                  BNode.leafN par max es nx = n := by
                have := Option.some.inj he
                exact ⟨congrArg Prod.fst this,
                  congrArg Prod.fst (congrArg Prod.snd this),
                  congrArg Prod.snd (congrArg Prod.snd this)⟩
              subst h1e
              subst Le
              subst ne
              exact ⟨hg, ⟨par, max, es, nx, rfl⟩, rfl, rfl, rfl⟩
          | internalN par max es =>
              rw [findLeafLoop_internal h pid key fuel par max es hg] at he
              obtain ⟨ha, hb, hc, hd, hhr⟩ := ih _ _ _ _ _ he
              rw [getPage_unpinPg, getPage_pinBump] at ha
              rw [pages_unpinPg, pages_pinBump] at hc
              rw [nextPid_unpinPg, nextPid_pinBump] at hd
              rw [headerRecs_unpinPg, headerRecs_pinBump] at hhr
              exact ⟨ha, hb, hc, hd, hhr⟩

theorem findLeafLoop_fuel_succ (key : Int) : ∀ (fuel : Nat) (h : THeap)
    (pid : Int) (r : THeap × Int × BNode),
    findLeafLoop h pid key fuel = some r →
    findLeafLoop h pid key (fuel + 1) = some r := by
  intro fuel
  induction fuel with
  | zero =>
      intro h pid r he
      simp [findLeafLoop] at he
  | succ fuel ih =>
      intro h pid r he
      cases hg : getPage h pid with
      | none =>
          unfold findLeafLoop fetchPg at he
          rw [hg] at he
          simp at he
      | some n0 =>
          cases n0 with
          | leafN par max es nx =>
              rw [findLeafLoop_leaf h pid key fuel par max es nx hg] at he
              rw [findLeafLoop_leaf h pid key (fuel + 1) par max es nx hg]
              exact he
          | internalN par max es =>
              rw [findLeafLoop_internal h pid key fuel par max es hg] at he
              rw [findLeafLoop_internal h pid key (fuel + 1) par max es hg]
              exact ih _ _ _ he

theorem findLeafLoop_fuel_mono (key : Int) (f1 f2 : Nat) (h : THeap)
    (pid : Int) (r : THeap × Int × BNode) (hle : f1 ≤ f2)
    (he : findLeafLoop h pid key f1 = some r) :
    findLeafLoop h pid key f2 = some r := by
  induction f2 with
  | zero =>
      have : f1 = 0 := by omega
      rw [← this]
      exact he
  | succ f2 ih =>
      by_cases hf : f1 = f2 + 1
      · rw [← hf]
        exact he
      · exact findLeafLoop_fuel_succ key f2 h pid r (ih (by omega))

theorem findLeafLoop_finds (R : List Int) (key value : Int) :
    ∀ (d : Nat) (h : THeap)
    (pid : Int), FindsKVIn R h key value d pid →
    ∃ h1 L par max es nx,
      findLeafLoop h pid key (d + 1) =
        some (h1, L, .leafN par max es nx) ∧
      leafLookup es key = some value := by
  intro d
  induction d with
  | zero =>
      intro h pid hf
      obtain ⟨hm, par, max, es, nx, hp, hl⟩ := hf
      exact ⟨_, _, par, max, es, nx, findLeafLoop_leaf h pid key 0 par max es nx hp, hl⟩
  | succ d ih =>
      intro h pid hf
      obtain ⟨hm, hf⟩ := hf
      rcases hf with ⟨par, max, es, nx, hp, hl⟩ | ⟨par, max, es, hp, hrec⟩
      · exact ⟨_, _, par, max, es, nx,
          findLeafLoop_leaf h pid key (d + 1) par max es nx hp, hl⟩
      · have hf2 : FindsKVIn R (unpinPg (pinBump h pid) pid false) key value d
            (internalLookup es key) := by
          refine FindsKVIn_frame R h _ key value ?_ d _ hrec
          intro q hq n0 hn
          exact Or.inl (by rw [getPage_unpinPg, getPage_pinBump]; exact hn)
        obtain ⟨h1, L, par2, max2, es2, nx2, he, hl2⟩ := ih _ _ hf2
        exact ⟨h1, L, par2, max2, es2, nx2,
          by rw [findLeafLoop_internal h pid key (d + 1) par max es hp]; exact he,
          hl2⟩

theorem getValueT_of_FindsKVIn (R : List Int) (h : THeap)
    (root key value : Int) (d : Nat)
    (hroot : ¬ root = INVALID_PAGE_ID)
    (hf : FindsKVIn R h key value d root) :
    ∃ h4, getValueT h root key (d + 1) = some (h4, some value) := by
  obtain ⟨h1, L, par, max, es, nx, he, hl⟩ :=
    findLeafLoop_finds R key value d h root hf
  refine ⟨unpinPg h1 L false, ?_⟩
  unfold getValueT
  rw [if_neg hroot, he]
  simp only []
  rw [hl]

theorem getValueT_none_of_GKF (h : THeap) (root key : Int) (fuel : Nat)
    (h4 : THeap) (r : Option Int)
    (hgkf : leafKeyFree h key)
    (he : getValueT h root key fuel = some (h4, r)) : r = none := by
  unfold getValueT at he
  by_cases hroot : root = INVALID_PAGE_ID
  · rw [if_pos hroot] at he
    have := Option.some.inj he
    exact (congrArg Prod.snd this).symm
  · rw [if_neg hroot] at he
    cases hfl : findLeafLoop h root key fuel with
    | none =>
        rw [hfl] at he
        simp at he
    | some res =>
        obtain ⟨h1, L, n⟩ := res
        obtain ⟨hgp, ⟨par, max, es, nx, hn⟩, -⟩ :=
          findLeafLoop_out key fuel h root h1 L n hfl
        subst hn
        rw [hfl] at he
        simp only [] at he
        have hfree : leafLookup es key = none :=
          (leafLookup_eq_none es key).mpr (hgkf L par max es nx hgp)
        rw [hfree] at he
        have := Option.some.inj he
        exact (congrArg Prod.snd this).symm

theorem freshOK_setPage (h : THeap) (p : Int) (n : BNode)
    (hf : freshOK h) (hp : p < h.nextPid) : freshOK (setPage h p n) := by
  intro q hq
  rw [nextPid_setPage] at hq
  rw [getPage_setPage_ne _ _ _ _ (by omega)]
  exact hf q hq

theorem freshOK_pinBump (h : THeap) (p : Int) (hf : freshOK h) :
    freshOK (pinBump h p) := by
  intro q hq
  rw [nextPid_pinBump] at hq
  rw [getPage_pinBump]
  exact hf q hq

theorem freshOK_unpinPg (h : THeap) (p : Int) (fl : Bool) (hf : freshOK h) :
    freshOK (unpinPg h p fl) := by
  intro q hq
  rw [nextPid_unpinPg] at hq
  rw [getPage_unpinPg]
  exact hf q hq

theorem freshOK_updateRoot (h : THeap) (root ir : Int) (hf : freshOK h) :
    freshOK (updateRootPageId h root ir) := by
  intro q hq
  rw [getPage_updateRoot]
  exact hf q hq

theorem freshOK_newPg (h : THeap) (n : BNode) (hf : freshOK h) :
    freshOK (newPg h n).1 := by
  intro q hq
  rw [nextPid_newPg] at hq
  rw [getPage_newPg_ne _ _ _ (by omega)]
  exact hf q (by omega)

/-! ### Routing, slot and subtree-pid lemmas -/

theorem routing_exists (es : List (Int × Int)) (key : Int)
    (hlen : 1 ≤ es.length) :
    ∃ i, i < es.length ∧ (i = 0 ∨ keyAtL es i ≤ key) ∧
      (i + 1 = es.length ∨ key < keyAtL es (i + 1)) := by
  have aux : ∀ (fuel j : Nat), es.length - j ≤ fuel → j < es.length →
      (j = 0 ∨ keyAtL es j ≤ key) →
      ∃ i, i < es.length ∧ (i = 0 ∨ keyAtL es i ≤ key) ∧
        (i + 1 = es.length ∨ key < keyAtL es (i + 1)) := by
    intro fuel
    induction fuel with
    | zero =>
        intro j h1 h2 h3
        omega
    | succ fuel ih =>
        intro j hf hj hP
        by_cases hend : j + 1 = es.length
        · exact ⟨j, hj, hP, Or.inl hend⟩
        · by_cases hk : key < keyAtL es (j + 1)
          · exact ⟨j, hj, hP, Or.inr hk⟩
          · exact ih (j + 1) (by omega) (by omega) (Or.inr (by omega))
  exact aux es.length 0 (by omega) hlen (Or.inl rfl)

theorem findIdx?_value_spec (v : Int) : ∀ (l : List (Int × Int)) (s i : Nat),
    i < l.length → valueAtL l i = v → (∀ m, m < i → ¬ valueAtL l m = v) →
    List.findIdx? (fun e => e.2 = v) l s = some (s + i) := by
  intro l
  induction l with
  | nil =>
      intro s i hi
      simp at hi
  | cons e t ih =>
      intro s i hi hv hfirst
      cases i with
      | zero =>
          have he : e.2 = v := hv
          rw [List.findIdx?_cons]
          simp [he]
      | succ i =>
          have he : ¬ e.2 = v := hfirst 0 (by omega)
          rw [List.findIdx?_cons]
          simp only [he, decide_False, Bool.false_eq_true, if_false]
          have := ih (s + 1) i (by simpa using hi) hv
            (fun m hm => hfirst (m + 1) (by omega))
          rw [this]
          congr 1
          omega

theorem valueIndexL_spec (es : List (Int × Int)) (v : Int) (i : Nat)
    (hi : i < es.length) (hv : valueAtL es i = v)
    (hfirst : ∀ m, m < i → ¬ valueAtL es m = v) :
    valueIndexL es v = (i : Int) := by
  unfold valueIndexL
  rw [findIdx?_value_spec v es 0 i hi hv hfirst]
  simp

theorem ST_alive (cfg : TConfig) (h : THeap) (d : Nat) (pid : Int)
    (lo hi : Option Int) (hst : ST cfg h d pid lo hi) :
    (getPage h pid).isSome ∧ 0 ≤ pid ∧ pid < h.nextPid := by
  cases hst with
  | leaf hp hs hb h0 h1 => exact ⟨by rw [hp]; rfl, h0, h1⟩
  | node hp hlen hin hsort hkids hpar h0 h1 => exact ⟨by rw [hp]; rfl, h0, h1⟩

theorem subPids_node (h : THeap) (d : Nat) (pid par : Int) (max : Nat)
    (es : List (Int × Int))
    (hp : getPage h pid = some (.internalN par max es)) :
    subPids h (d + 1) pid =
      pid :: (es.map (fun e => subPids h d e.2)).flatten := by
  conv_lhs => rw [subPids]
  rw [hp]

theorem subPids_self_mem (h : THeap) : ∀ (d : Nat) (pid : Int),
    pid ∈ subPids h d pid := by
  intro d pid
  cases d with
  | zero => simp [subPids]
  | succ d =>
      rw [subPids]
      cases hg : getPage h pid with
      | none => simp
      | some n =>
          cases n with
          | leafN par max es nx => simp
          | internalN par max es => simp

theorem subPids_child_block_mem (h : THeap) (d : Nat)
    (es : List (Int × Int)) (i : Nat) (hi : i < es.length) :
    subPids h d (valueAtL es i) ∈ es.map (fun e => subPids h d e.2) := by
  refine List.mem_map.mpr ⟨es.get ⟨i, hi⟩, List.get_mem es i hi, ?_⟩
  unfold valueAtL
  rw [List.getD_eq_getElem?_getD, List.getElem?_eq_getElem hi]
  rfl

theorem subPids_child_sub (h : THeap) (d : Nat) (pid par : Int) (max : Nat)
    (es : List (Int × Int)) (i : Nat)
    (hp : getPage h pid = some (.internalN par max es))
    (hi : i < es.length) :
    ∀ q ∈ subPids h d (valueAtL es i), q ∈ subPids h (d + 1) pid := by
  intro q hq
  rw [subPids_node h d pid par max es hp]
  exact List.mem_cons_of_mem _ (List.mem_flatten.mpr
    ⟨subPids h d (valueAtL es i), subPids_child_block_mem h d es i hi, hq⟩)


/-! ### Entry-array index algebra for the internal pages -/

theorem keyAtL_take (l : List (Int × Int)) (n m : Nat) (hm : m < n) :
    keyAtL (l.take n) m = keyAtL l m := by
  unfold keyAtL
  rw [List.getD_eq_getElem?_getD, List.getD_eq_getElem?_getD,
    List.getElem?_take, if_pos hm]

theorem valueAtL_take (l : List (Int × Int)) (n m : Nat) (hm : m < n) :
    valueAtL (l.take n) m = valueAtL l m := by
  unfold valueAtL
  rw [List.getD_eq_getElem?_getD, List.getD_eq_getElem?_getD,
    List.getElem?_take, if_pos hm]

theorem keyAtL_drop (l : List (Int × Int)) (n m : Nat) :
    keyAtL (l.drop n) m = keyAtL l (n + m) := by
  unfold keyAtL
  rw [List.getD_eq_getElem?_getD, List.getD_eq_getElem?_getD,
    List.getElem?_drop]

theorem valueAtL_drop (l : List (Int × Int)) (n m : Nat) :
    valueAtL (l.drop n) m = valueAtL l (n + m) := by
  unfold valueAtL
  rw [List.getD_eq_getElem?_getD, List.getD_eq_getElem?_getD,
    List.getElem?_drop]

theorem insertNodeAfter_eq (pes : List (Int × Int)) (O sep N : Int) (i : Nat)
    (hidx : valueIndexL pes O = (i : Int)) :
    insertNodeAfter pes O sep N =
      pes.take (i + 1) ++ (sep, N) :: pes.drop (i + 1) := by
  unfold insertNodeAfter
  rw [hidx]
  have : ((i : Int) + 1).toNat = i + 1 := by omega
  rw [this]

theorem length_insertAfterList (pes : List (Int × Int)) (e : Int × Int)
    (i : Nat) (hi : i + 1 ≤ pes.length) :
    (pes.take (i + 1) ++ e :: pes.drop (i + 1)).length = pes.length + 1 := by
  simp
  omega

theorem keyAtL_insertAfter_lt (pes : List (Int × Int)) (e : Int × Int)
    (i m : Nat) (hi : i + 1 ≤ pes.length) (hm : m < i + 1) :
    keyAtL (pes.take (i + 1) ++ e :: pes.drop (i + 1)) m = keyAtL pes m := by
  unfold keyAtL
  rw [List.getD_append _ _ _ m (by simp; omega)]
  congr 1
  rw [List.getD_eq_getElem?_getD, List.getD_eq_getElem?_getD,
    List.getElem?_take, if_pos hm]

theorem valueAtL_insertAfter_lt (pes : List (Int × Int)) (e : Int × Int)
    (i m : Nat) (hi : i + 1 ≤ pes.length) (hm : m < i + 1) :
    valueAtL (pes.take (i + 1) ++ e :: pes.drop (i + 1)) m = valueAtL pes m := by
  unfold valueAtL
  rw [List.getD_append _ _ _ m (by simp; omega)]
  congr 1
  rw [List.getD_eq_getElem?_getD, List.getD_eq_getElem?_getD,
    List.getElem?_take, if_pos hm]

theorem keyAtL_insertAfter_self (pes : List (Int × Int)) (e : Int × Int)
    (i : Nat) (hi : i + 1 ≤ pes.length) :
    keyAtL (pes.take (i + 1) ++ e :: pes.drop (i + 1)) (i + 1) = e.1 := by
  unfold keyAtL
  rw [List.getD_append_right _ _ _ _ (by simp)]
  have : i + 1 - (pes.take (i + 1)).length = 0 := by simp; omega
  rw [this]
  rfl

theorem valueAtL_insertAfter_self (pes : List (Int × Int)) (e : Int × Int)
    (i : Nat) (hi : i + 1 ≤ pes.length) :
    valueAtL (pes.take (i + 1) ++ e :: pes.drop (i + 1)) (i + 1) = e.2 := by
  unfold valueAtL
  rw [List.getD_append_right _ _ _ _ (by simp)]
  have : i + 1 - (pes.take (i + 1)).length = 0 := by simp; omega
  rw [this]
  rfl

theorem keyAtL_insertAfter_gt (pes : List (Int × Int)) (e : Int × Int)
    (i m : Nat) (hi : i + 1 ≤ pes.length) (hm : i + 1 < m) :
    keyAtL (pes.take (i + 1) ++ e :: pes.drop (i + 1)) m = keyAtL pes (m - 1) := by
  unfold keyAtL
  rw [List.getD_append_right _ _ _ _ (by simp; omega)]
  have h1 : (pes.take (i + 1)).length = i + 1 := by simp; omega
  rw [h1]
  have h2 : m - (i + 1) = (m - (i + 1) - 1) + 1 := by omega
  rw [h2]
  show ((pes.drop (i + 1)).getD (m - (i + 1) - 1) (0, 0)).1 = _
  rw [show ((pes.drop (i + 1)).getD (m - (i + 1) - 1) (0, 0)).1 =
    keyAtL (pes.drop (i + 1)) (m - (i + 1) - 1) from rfl, keyAtL_drop]
  congr 1
  omega

theorem valueAtL_insertAfter_gt (pes : List (Int × Int)) (e : Int × Int)
    (i m : Nat) (hi : i + 1 ≤ pes.length) (hm : i + 1 < m) :
    valueAtL (pes.take (i + 1) ++ e :: pes.drop (i + 1)) m =
      valueAtL pes (m - 1) := by
  unfold valueAtL
  rw [List.getD_append_right _ _ _ _ (by simp; omega)]
  have h1 : (pes.take (i + 1)).length = i + 1 := by simp; omega
  rw [h1]
  have h2 : m - (i + 1) = (m - (i + 1) - 1) + 1 := by omega
  rw [h2]
  show ((pes.drop (i + 1)).getD (m - (i + 1) - 1) (0, 0)).2 = _
  rw [show ((pes.drop (i + 1)).getD (m - (i + 1) - 1) (0, 0)).2 =
    valueAtL (pes.drop (i + 1)) (m - (i + 1) - 1) from rfl, valueAtL_drop]
  congr 1
  omega

theorem children_distinct (h : THeap) (d : Nat) (pid par : Int) (max : Nat)
    (es : List (Int × Int))
    (hp : getPage h pid = some (.internalN par max es))
    (hnd : (subPids h (d + 1) pid).Nodup) :
    ∀ i j, i < j → j < es.length → ¬ valueAtL es i = valueAtL es j := by
  intro i j hij hj heq
  rw [subPids_node h d pid par max es hp] at hnd
  have hfl : ((es.map (fun e => subPids h d e.2)).flatten).Nodup :=
    (List.nodup_cons.mp hnd).2
  have hpw := (List.nodup_flatten.mp hfl).2
  have hi : i < es.length := by omega
  have hget := List.pairwise_iff_get.mp hpw
    ⟨i, by simpa using hi⟩ ⟨j, by simpa using hj⟩ (by simpa using hij)
  have hgi : (es.map (fun e => subPids h d e.2)).get ⟨i, by simpa using hi⟩ =
      subPids h d (valueAtL es i) := by
    rw [List.get_eq_getElem, List.getElem_map]
    unfold valueAtL
    rw [List.getD_eq_getElem?_getD, List.getElem?_eq_getElem hi]
    rfl
  have hgj : (es.map (fun e => subPids h d e.2)).get ⟨j, by simpa using hj⟩ =
      subPids h d (valueAtL es j) := by
    rw [List.get_eq_getElem, List.getElem_map]
    unfold valueAtL
    rw [List.getD_eq_getElem?_getD, List.getElem?_eq_getElem hj]
    rfl
  rw [hgi, hgj] at hget
  exact hget (subPids_self_mem h d (valueAtL es i))
    (heq ▸ subPids_self_mem h d (valueAtL es i))

theorem internalLookup_two (k0 x s y k : Int) :
    internalLookup [(k0, x), (s, y)] k = if k < s then x else y := by
  unfold internalLookup
  rw [lookupLoop]
  have hlen : ([(k0, x), (s, y)] : List (Int × Int)).length = 2 := rfl
  rw [hlen]
  simp only [show (1 : Nat) < 2 from by omega, dite_true]
  have hmid : (2 - 1) / 2 + 1 = 1 := by norm_num
  rw [hmid]
  have hk1 : keyAtL [(k0, x), (s, y)] 1 = s := rfl
  rw [hk1]
  by_cases hks : k < s
  · rw [if_pos (by rw [cmpK_pos_iff]; exact hks)]
    rw [lookupLoop]
    simp [valueAtL, keyAtL, hks]
  · rw [if_neg (by rw [cmpK_pos_iff]; exact hks)]
    rw [lookupLoop]
    simp [valueAtL, keyAtL, hks]

/-! ### The descent reaches a leaf with a correct ancestor chain -/

theorem descend_spec (cfg : TConfig) (key rt : Int) :
    ∀ {d : Nat} {h : THeap} {pid : Int} {lo hi : Option Int},
    ST cfg h d pid lo hi →
    ∀ (AS : List Int), inB lo hi key →
    (subPids h d pid).Nodup →
    Anc key h pid lo hi rt AS →
    (∀ q ∈ subPids h d pid, ¬ q ∈ AS) →
    ∀ (fuel : Nat) (g h1 : THeap) (L : Int) (n : BNode),
      pagesEq h g →
      findLeafLoop g pid key fuel = some (h1, L, n) →
      ∃ loL hiL AS2 par es nx,
        n = .leafN par cfg.leafMax es nx ∧
        getPage h L = some n ∧
        es.Pairwise (fun a b => a.1 < b.1) ∧
        (∀ e ∈ es, inB loL hiL e.1) ∧
        inB loL hiL key ∧
        Anc key h L loL hiL rt AS2 := by
  intro d h pid lo hi hst
  induction hst with
  | @leaf d pid lo hi par es nx hp hs hb hp0 hp1 =>
      intro AS hin hnd hanc hdisj fuel g h1 L n hpe hfl
      cases fuel with
      | zero => simp [findLeafLoop] at hfl
      | succ fuel =>
          rw [findLeafLoop_leaf g pid key fuel par cfg.leafMax es nx
            (by rw [getPage_congr h g hpe]; exact hp)] at hfl
          have h3 := Option.some.inj hfl
          have hL : pid = L := congrArg Prod.fst (congrArg Prod.snd h3)
          have hn : BNode.leafN par cfg.leafMax es nx = n :=
            congrArg Prod.snd (congrArg Prod.snd h3)
          subst hL
          subst hn
          exact ⟨lo, hi, AS, par, es, nx, rfl, hp, hs, hb, hin, hanc⟩
  | @node d pid lo hi par es hp hlen hks hsort hkids hpar hp0 hp1 ih =>
      intro AS hin hnd hanc hdisj fuel g h1 L n hpe hfl
      cases fuel with
      | zero => simp [findLeafLoop] at hfl
      | succ fuel =>
          rw [findLeafLoop_internal g pid key fuel par cfg.internalMax es
            (by rw [getPage_congr h g hpe]; exact hp)] at hfl
          obtain ⟨i, hi2, hlo, hhi⟩ := routing_exists es key (by omega)
          have hroute : internalLookup es key = valueAtL es i :=
            internalLookup_at_slot es key i hsort hi2 hlo hhi
          rw [hroute] at hfl
          have hndsub : ((es.map (fun e => subPids h d e.2)).flatten).Nodup := by
            rw [subPids_node h d pid par cfg.internalMax es hp] at hnd
            exact (List.nodup_cons.mp hnd).2
          have hheadnmem : ¬ pid ∈ (es.map (fun e => subPids h d e.2)).flatten := by
            rw [subPids_node h d pid par cfg.internalMax es hp] at hnd
            exact (List.nodup_cons.mp hnd).1
          have hndC : (subPids h d (valueAtL es i)).Nodup :=
            (List.nodup_flatten.mp hndsub).1 _ (subPids_child_block_mem h d es i hi2)
          have hinC : inB (childLo es lo i) (childHi es hi i) key := by
            constructor
            · unfold childLo
              by_cases h0 : i = 0
              · rw [if_pos h0]
                exact hin.1
              · rw [if_neg h0]
                rcases hlo with h0' | h0'
                · exact absurd h0' h0
                · exact h0'
            · unfold childHi
              by_cases h0 : i + 1 = es.length
              · rw [if_pos h0]
                exact hin.2
              · rw [if_neg h0]
                rcases hhi with h0' | h0'
                · exact absurd h0' h0
                · exact h0'
          have hmem_of_val : ∀ v ∈ es.map (fun e => e.2), ∃ j, j < es.length ∧
              valueAtL es j = v := by
            intro v hv
            obtain ⟨e, he, hev⟩ := List.mem_map.mp hv
            obtain ⟨j, hj, hje⟩ := List.mem_iff_getElem.mp he
            refine ⟨j, hj, ?_⟩
            unfold valueAtL
            rw [List.getD_eq_getElem?_getD, List.getElem?_eq_getElem hj, hje]
            exact hev
          have hval_in_sub : ∀ j, j < es.length →
              valueAtL es j ∈ subPids h (d + 1) pid :=
            fun j hj => subPids_child_sub h d pid par cfg.internalMax es j hp hj
              _ (subPids_self_mem h d _)
          have hval_in_flat : ∀ j, j < es.length →
              valueAtL es j ∈ (es.map (fun e => subPids h d e.2)).flatten :=
            fun j hj => List.mem_flatten.mpr
              ⟨_, subPids_child_block_mem h d es j hj, subPids_self_mem h d _⟩
          have hancC : Anc key h (valueAtL es i) (childLo es lo i)
              (childHi es hi i) rt (pid :: AS) := by
            refine Anc.step (hpar i hi2) hp ⟨i, hi2, rfl, ?_, rfl, rfl, hsort, hks⟩
              hin ?_ hp0 hp1 hanc
            · refine valueIndexL_spec es (valueAtL es i) i hi2 rfl ?_
              intro m hm
              exact children_distinct h d pid par cfg.internalMax es hp hnd m i hm hi2
            · intro v hv
              obtain ⟨j, hj, hjv⟩ := hmem_of_val v hv
              obtain ⟨ha1, ha2, ha3⟩ := ST_alive cfg h d (valueAtL es j) _ _ (hkids j hj)
              refine ⟨by rw [← hjv]; exact ha1, by omega, by omega, ?_⟩
              intro hmem
              rcases List.mem_cons.mp hmem with hvp | hvA
              · exact hheadnmem (by rw [← hjv, ← hvp] at *; exact hval_in_flat j hj)
              · exact hdisj v (by rw [← hjv]; exact hval_in_sub j hj) hvA
          have hdisjC : ∀ q ∈ subPids h d (valueAtL es i), ¬ q ∈ (pid :: AS) := by
            intro q hq hqm
            rcases List.mem_cons.mp hqm with hqp | hqA
            · refine hheadnmem ?_
              rw [← hqp] at *
              exact List.mem_flatten.mpr ⟨_, subPids_child_block_mem h d es i hi2, hq⟩
            · exact hdisj q (subPids_child_sub h d pid par cfg.internalMax es i hp hi2 q hq) hqA
          refine ih i hi2 (pid :: AS) hinC hndC hancC hdisjC fuel
            (unpinPg (pinBump g pid) pid false) h1 L n ?_ hfl
          constructor
          · rw [pages_unpinPg, pages_pinBump]
            exact hpe.1
          · rw [nextPid_unpinPg, nextPid_pinBump]
            exact hpe.2

/-! ### Climbing the ancestor chain reconstructs the route -/

theorem anc_mem_bounds (key : Int) (h : THeap) :
    ∀ {pid lo hi rt AS}, Anc key h pid lo hi rt AS →
      ∀ a ∈ AS, 0 ≤ a ∧ a < h.nextPid := by
  intro pid lo hi rt AS hanc
  induction hanc with
  | top hp => simp
  | step hp hpp hslot hin hkids h0 h1 hrec ih =>
      intro a ha
      rcases List.mem_cons.mp ha with hap | haA
      · exact ⟨by omega, by omega⟩
      · exact ih a haA

theorem anc_rt (key : Int) (h : THeap) :
    ∀ {pid lo hi rt AS}, Anc key h pid lo hi rt AS →
      (AS = [] ∧ rt = pid) ∨ rt ∈ AS := by
  intro pid lo hi rt AS hanc
  induction hanc with
  | top hp => exact Or.inl ⟨rfl, rfl⟩
  | step hp hpp hslot hin hkids h0 h1 hrec ih =>
      rcases ih with ⟨he, hr⟩ | hr
      · subst he
        subst hr
        exact Or.inr (List.mem_cons_self _ _)
      · exact Or.inr (List.mem_cons_of_mem _ hr)

theorem slot_routes (pes : List (Int × Int)) (pid key : Int)
    (lo hi plo phi : Option Int)
    (hslot : SlotAt pes pid lo hi plo phi)
    (hin : inB lo hi key) :
    internalLookup pes key = pid := by
  obtain ⟨i, hi2, hvi, hidx, hloeq, hhieq, hsort, hks⟩ := hslot
  have hlo : i = 0 ∨ keyAtL pes i ≤ key := by
    by_cases h0 : i = 0
    · exact Or.inl h0
    · refine Or.inr ?_
      have := hin.1
      rw [hloeq] at this
      unfold childLo at this
      rw [if_neg h0] at this
      exact this
  have hhi : i + 1 = pes.length ∨ key < keyAtL pes (i + 1) := by
    by_cases h0 : i + 1 = pes.length
    · exact Or.inl h0
    · refine Or.inr ?_
      have := hin.2
      rw [hhieq] at this
      unfold childHi at this
      rw [if_neg h0] at this
      exact this
  rw [internalLookup_at_slot pes key i hsort hi2 hlo hhi]
  exact hvi

theorem anc_route (R : List Int) (key value : Int) (h : THeap) :
    ∀ {pid lo hi rt AS}, Anc key h pid lo hi rt AS →
    (∀ a ∈ AS, a ∈ R) →
    ∀ d0, inB lo hi key → FindsKVIn R h key value d0 pid →
    ∃ D, FindsKVIn R h key value D rt := by
  intro pid lo hi rt AS hanc
  induction hanc with
  | top hp =>
      intro hsub d0 hinB hf
      exact ⟨d0, hf⟩
  | step hp hpp hslot hin hkids h0 h1 hrec ih =>
      intro hsub d0 hinB hf
      refine ih (fun a ha => hsub a (List.mem_cons_of_mem _ ha)) (d0 + 1) hin ?_
      refine ⟨hsub _ (List.mem_cons_self _ _), Or.inr ⟨_, _, _, hpp, ?_⟩⟩
      rw [slot_routes _ _ key _ _ _ _ hslot hinB]
      exact hf

/-! ### Re-parenting and parent-entry routing lemmas -/

theorem setParent_setParent (n : BNode) (a b : Int) :
    (n.setParent a).setParent b = n.setParent b := by
  cases n <;> rfl

theorem parentPageId_setParent (n : BNode) (p : Int) :
    (n.setParent p).parentPageId = p := by
  cases n <;> rfl

theorem adoptAll_frame : ∀ (pids : List Int) (h : THeap) (par : Int)
    (h' : THeap), adoptAll h pids par = some h' →
    (∀ q n0, getPage h q = some n0 → getPage h' q = some n0 ∨
      ∃ p, getPage h' q = some (n0.setParent p)) ∧
    h'.nextPid = h.nextPid ∧
    (∀ q, ¬ q ∈ pids → getPage h' q = getPage h q) := by
  intro pids
  induction pids with
  | nil =>
      intro h par h' he
      have : h = h' := Option.some.inj he
      subst this
      exact ⟨fun q n0 hq => Or.inl hq, rfl, fun q hq => rfl⟩
  | cons p t ih =>
      intro h par h' he
      unfold adoptAll at he
      cases hg : getPage h p with
      | none =>
          unfold fetchPg at he
          rw [hg] at he
          simp at he
      | some n =>
          rw [fetchPg_some h p n hg] at he
          simp only [] at he
          obtain ⟨hfr, hnx, hout⟩ := ih _ _ _ he
          have hmid : ∀ q, getPage (unpinPg (setPage (pinBump h p) p
              (n.setParent par)) p true) q =
              if q = p then some (n.setParent par) else getPage h q := by
            intro q
            rw [getPage_unpinPg]
            by_cases hq : q = p
            · rw [if_pos hq, hq, getPage_setPage_self]
            · rw [if_neg hq, getPage_setPage_ne _ _ _ _ hq, getPage_pinBump]
          refine ⟨?_, ?_, ?_⟩
          · intro q n0 hq
            by_cases hqp : q = p
            · have hn0 : n0 = n := by
                rw [hqp, hg] at hq
                exact (Option.some.inj hq).symm
              subst hn0
              rcases hfr q (n0.setParent par) (by rw [hmid, if_pos hqp]) with
                hc | ⟨p2, hc⟩
              · exact Or.inr ⟨par, hc⟩
              · rw [setParent_setParent] at hc
                exact Or.inr ⟨p2, hc⟩
            · exact hfr q n0 (by rw [hmid, if_neg hqp]; exact hq)
          · rw [hnx, nextPid_unpinPg, nextPid_setPage, nextPid_pinBump]
          · intro q hq
            have hqp : ¬ q = p := fun hc => hq (hc ▸ List.mem_cons_self _ _)
            have hqt : ¬ q ∈ t := fun hc => hq (List.mem_cons_of_mem _ hc)
            rw [hout q hqt, hmid, if_neg hqp]

theorem sorted_insertAfter (pes : List (Int × Int)) (e : Int × Int) (i : Nat)
    (hsort : ∀ m n, 1 ≤ m → m < n → n < pes.length → keyAtL pes m < keyAtL pes n)
    (hi : i < pes.length)
    (hlsep : i = 0 ∨ keyAtL pes i < e.1)
    (hrsep : i + 1 = pes.length ∨ e.1 < keyAtL pes (i + 1)) :
    ∀ m n, 1 ≤ m → m < n →
      n < (pes.take (i + 1) ++ e :: pes.drop (i + 1)).length →
      keyAtL (pes.take (i + 1) ++ e :: pes.drop (i + 1)) m <
      keyAtL (pes.take (i + 1) ++ e :: pes.drop (i + 1)) n := by
  have hlen : (pes.take (i + 1) ++ e :: pes.drop (i + 1)).length =
      pes.length + 1 := length_insertAfterList pes e i (by omega)
  have hsep_lt : ∀ m, 1 ≤ m → m ≤ i → keyAtL pes m < e.1 := by
    intro m h1 h2
    rcases hlsep with h0 | h0
    · omega
    · by_cases hmi : m = i
      · rw [hmi]
        exact h0
      · exact lt_trans (hsort m i h1 (by omega) hi) h0
  have hsep_gt : ∀ n, i + 1 ≤ n → n < pes.length → e.1 < keyAtL pes n := by
    intro n h1 h2
    rcases hrsep with h0 | h0
    · omega
    · by_cases hni : n = i + 1
      · rw [hni]
        exact h0
      · exact lt_trans h0 (hsort (i + 1) n (by omega) (by omega) h2)
  intro m n h1 hmn hn
  rw [hlen] at hn
  by_cases hm_le : m ≤ i
  · rw [keyAtL_insertAfter_lt pes e i m (by omega) (by omega)]
    by_cases hn_le : n ≤ i
    · rw [keyAtL_insertAfter_lt pes e i n (by omega) (by omega)]
      exact hsort m n h1 hmn (by omega)
    · by_cases hn_eq : n = i + 1
      · rw [hn_eq, keyAtL_insertAfter_self pes e i (by omega)]
        exact hsep_lt m h1 hm_le
      · rw [keyAtL_insertAfter_gt pes e i n (by omega) (by omega)]
        exact hsort m (n - 1) h1 (by omega) (by omega)
  · by_cases hm_eq : m = i + 1
    · rw [hm_eq, keyAtL_insertAfter_self pes e i (by omega)]
      rw [keyAtL_insertAfter_gt pes e i n (by omega) (by omega)]
      exact hsep_gt (n - 1) (by omega) (by omega)
    · rw [keyAtL_insertAfter_gt pes e i m (by omega) (by omega),
        keyAtL_insertAfter_gt pes e i n (by omega) (by omega)]
      exact hsort (m - 1) (n - 1) (by omega) (by omega) (by omega)

theorem route_insertAfter (pes : List (Int × Int)) (O sep N key : Int)
    (i : Nat)
    (hsort : ∀ m n, 1 ≤ m → m < n → n < pes.length → keyAtL pes m < keyAtL pes n)
    (hi2 : i < pes.length)
    (hvi : valueAtL pes i = O)
    (hlo_i : i = 0 ∨ keyAtL pes i ≤ key)
    (hhi_i : i + 1 = pes.length ∨ key < keyAtL pes (i + 1))
    (hlsep : i = 0 ∨ keyAtL pes i < sep)
    (hrsep : i + 1 = pes.length ∨ sep < keyAtL pes (i + 1)) :
    ∃ j, j < (pes.take (i + 1) ++ (sep, N) :: pes.drop (i + 1)).length ∧
      valueAtL (pes.take (i + 1) ++ (sep, N) :: pes.drop (i + 1)) j =
        (if key < sep then O else N) ∧
      (j = 0 ∨ keyAtL (pes.take (i + 1) ++ (sep, N) :: pes.drop (i + 1)) j ≤ key) ∧
      (j + 1 = (pes.take (i + 1) ++ (sep, N) :: pes.drop (i + 1)).length ∨
        key < keyAtL (pes.take (i + 1) ++ (sep, N) :: pes.drop (i + 1)) (j + 1)) ∧
      internalLookup (pes.take (i + 1) ++ (sep, N) :: pes.drop (i + 1)) key =
        (if key < sep then O else N) := by
  have hlen : (pes.take (i + 1) ++ (sep, N) :: pes.drop (i + 1)).length =
      pes.length + 1 := length_insertAfterList pes (sep, N) i (by omega)
  have hsort1 := sorted_insertAfter pes (sep, N) i hsort hi2 hlsep hrsep
  by_cases hks : key < sep
  · refine ⟨i, by omega, ?_, ?_, ?_, ?_⟩
    · rw [valueAtL_insertAfter_lt pes (sep, N) i i (by omega) (by omega), hvi,
        if_pos hks]
    · rcases hlo_i with h0 | h0
      · exact Or.inl h0
      · exact Or.inr (by
          rw [keyAtL_insertAfter_lt pes (sep, N) i i (by omega) (by omega)]
          exact h0)
    · refine Or.inr ?_
      rw [keyAtL_insertAfter_self pes (sep, N) i (by omega)]
      exact hks
    · rw [internalLookup_at_slot _ key i hsort1 (by omega) ?_ ?_]
      · rw [valueAtL_insertAfter_lt pes (sep, N) i i (by omega) (by omega), hvi,
          if_pos hks]
      · rcases hlo_i with h0 | h0
        · exact Or.inl h0
        · exact Or.inr (by
            rw [keyAtL_insertAfter_lt pes (sep, N) i i (by omega) (by omega)]
            exact h0)
      · refine Or.inr ?_
        rw [keyAtL_insertAfter_self pes (sep, N) i (by omega)]
        exact hks
  · refine ⟨i + 1, by omega, ?_, ?_, ?_, ?_⟩
    · rw [valueAtL_insertAfter_self pes (sep, N) i (by omega), if_neg hks]
    · refine Or.inr ?_
      rw [keyAtL_insertAfter_self pes (sep, N) i (by omega)]
      omega
    · rcases hhi_i with h0 | h0
      · exact Or.inl (by omega)
      · refine Or.inr ?_
        rw [keyAtL_insertAfter_gt pes (sep, N) i (i + 2) (by omega) (by omega)]
        have : i + 2 - 1 = i + 1 := by omega
        rw [this]
        exact h0
    · rw [internalLookup_at_slot _ key (i + 1) hsort1 (by omega) ?_ ?_]
      · rw [valueAtL_insertAfter_self pes (sep, N) i (by omega), if_neg hks]
      · refine Or.inr ?_
        rw [keyAtL_insertAfter_self pes (sep, N) i (by omega)]
        omega
      · rcases hhi_i with h0 | h0
        · exact Or.inl (by omega)
        · refine Or.inr ?_
          rw [keyAtL_insertAfter_gt pes (sep, N) i (i + 2) (by omega) (by omega)]
          have : i + 2 - 1 = i + 1 := by omega
          rw [this]
          exact h0

theorem sorted_take (l : List (Int × Int)) (t : Nat)
    (hsort : ∀ m n, 1 ≤ m → m < n → n < l.length → keyAtL l m < keyAtL l n) :
    ∀ m n, 1 ≤ m → m < n → n < (l.take t).length →
      keyAtL (l.take t) m < keyAtL (l.take t) n := by
  intro m n h1 hmn hn
  have hlt : (l.take t).length ≤ t := by simp
  have hll : (l.take t).length ≤ l.length := by simp
  rw [keyAtL_take l t m (by omega), keyAtL_take l t n (by omega)]
  exact hsort m n h1 hmn (by omega)

theorem sorted_drop (l : List (Int × Int)) (t : Nat)
    (hsort : ∀ m n, 1 ≤ m → m < n → n < l.length → keyAtL l m < keyAtL l n) :
    ∀ m n, 1 ≤ m → m < n → n < (l.drop t).length →
      keyAtL (l.drop t) m < keyAtL (l.drop t) n := by
  intro m n h1 hmn hn
  have hll : (l.drop t).length = l.length - t := by simp
  rw [keyAtL_drop, keyAtL_drop]
  exact hsort (t + m) (t + n) (by omega) (by omega) (by omega)

theorem route_take (pes1 : List (Int × Int)) (half j : Nat) (key C : Int)
    (hsort1 : ∀ m n, 1 ≤ m → m < n → n < pes1.length →
      keyAtL pes1 m < keyAtL pes1 n)
    (hhalf1 : 1 ≤ half) (hhalflt : half < pes1.length)
    (hj : j < pes1.length) (hvj : valueAtL pes1 j = C)
    (hjlo : j = 0 ∨ keyAtL pes1 j ≤ key)
    (hjhi : j + 1 = pes1.length ∨ key < keyAtL pes1 (j + 1))
    (hklt : key < keyAtL pes1 half) :
    internalLookup (pes1.take half) key = C := by
  have hjh : j < half := by
    by_contra hge
    push_neg at hge
    have hj1 : 1 ≤ j := by omega
    have hle : keyAtL pes1 half ≤ keyAtL pes1 j := by
      by_cases he : half = j
      · rw [he]
      · exact le_of_lt (hsort1 half j hhalf1 (by omega) hj)
    rcases hjlo with h0 | h0
    · omega
    · omega
  have hlent : (pes1.take half).length = half := by simp; omega
  rw [internalLookup_at_slot _ key j (sorted_take pes1 half hsort1)
    (by omega) ?_ ?_]
  · rw [valueAtL_take pes1 half j hjh]
    exact hvj
  · rcases hjlo with h0 | h0
    · exact Or.inl h0
    · exact Or.inr (by rw [keyAtL_take pes1 half j hjh]; exact h0)
  · by_cases hend : j + 1 = half
    · exact Or.inl (by omega)
    · refine Or.inr ?_
      rw [keyAtL_take pes1 half (j + 1) (by omega)]
      rcases hjhi with h0 | h0
      · omega
      · exact h0

theorem route_drop (pes1 : List (Int × Int)) (half j : Nat) (key C : Int)
    (hsort1 : ∀ m n, 1 ≤ m → m < n → n < pes1.length →
      keyAtL pes1 m < keyAtL pes1 n)
    (hhalf1 : 1 ≤ half) (hhalflt : half < pes1.length)
    (hj : j < pes1.length) (hvj : valueAtL pes1 j = C)
    (hjlo : j = 0 ∨ keyAtL pes1 j ≤ key)
    (hjhi : j + 1 = pes1.length ∨ key < keyAtL pes1 (j + 1))
    (hkge : keyAtL pes1 half ≤ key) :
    internalLookup (pes1.drop half) key = C := by
  have hjh : half ≤ j := by
    by_contra hlt
    push_neg at hlt
    have : key < keyAtL pes1 half := by
      rcases hjhi with h0 | h0
      · omega
      · by_cases he : j + 1 = half
        · rw [← he]
          exact h0
        · exact lt_trans h0 (hsort1 (j + 1) half (by omega) (by omega) hhalflt)
    omega
  have hlend : (pes1.drop half).length = pes1.length - half := by simp
  rw [internalLookup_at_slot _ key (j - half) (sorted_drop pes1 half hsort1)
    (by omega) ?_ ?_]
  · rw [valueAtL_drop]
    have : half + (j - half) = j := by omega
    rw [this]
    exact hvj
  · by_cases h0 : j - half = 0
    · exact Or.inl h0
    · refine Or.inr ?_
      rw [keyAtL_drop]
      have : half + (j - half) = j := by omega
      rw [this]
      rcases hjlo with hj0 | hj0
      · omega
      · exact hj0
  · by_cases hend : j - half + 1 = (pes1.drop half).length
    · exact Or.inl hend
    · refine Or.inr ?_
      rw [keyAtL_drop]
      have : half + (j - half + 1) = j + 1 := by omega
      rw [this]
      rcases hjhi with h0 | h0
      · omega
      · exact h0


/-! ### The InsertIntoParent climb preserves the route to the key -/

theorem mem_values_insertAfter (pes : List (Int × Int)) (e : Int × Int)
    (i : Nat) (v : Int)
    (hv : v ∈ (pes.take (i + 1) ++ e :: pes.drop (i + 1)).map (fun x => x.2)) :
    v = e.2 ∨ v ∈ pes.map (fun x => x.2) := by
  rw [List.map_append, List.map_cons] at hv
  rcases List.mem_append.mp hv with h | h
  · obtain ⟨x, hx, hxe⟩ := List.mem_map.mp h
    exact Or.inr (List.mem_map.mpr ⟨x, List.take_subset _ _ hx, hxe⟩)
  · rcases List.mem_cons.mp h with h | h
    · exact Or.inl h
    · obtain ⟨x, hx, hxe⟩ := List.mem_map.mp h
      exact Or.inr (List.mem_map.mpr ⟨x, List.drop_subset _ _ hx, hxe⟩)

theorem insertIntoParent_spec (cfg : TConfig) (key value : Int) :
    ∀ (fuel : Nat) (g : THeap) (rt O N sep : Int) (lo hi : Option Int)
      (AS R : List Int) (d0 : Nat) (g' : THeap) (root' : Int),
    Anc key g O lo hi rt AS →
    0 ≤ rt →
    keyStrictIn lo hi sep →
    inB lo hi key →
    FindsKVIn R g key value d0 (if key < sep then O else N) →
    freshOK g →
    (getPage g N).isSome →
    0 ≤ N → N < g.nextPid → ¬ N ∈ AS → ¬ N = O →
    0 ≤ O → O < g.nextPid →
    (∀ a ∈ AS, ¬ a ∈ R) →
    (∀ q ∈ R, q < g.nextPid) →
    insertIntoParent cfg g rt O sep N fuel = some (g', root') →
    ∃ R2 D, FindsKVIn R2 g' key value D root' ∧ 0 ≤ root' := by
  intro fuel
  induction fuel with
  | zero =>
      intro g rt O N sep lo hi AS R d0 g' root' hanc hrt0 hsep hinB hbase hfOK
        hNal hN0 hN1 hNAS hNO hO0 hO1 hASR hRb he
      simp [insertIntoParent] at he
  | succ fuel ih =>
      intro g rt O N sep lo hi AS R d0 g' root' hanc hrt0 hsep hinB hbase hfOK
        hNal hN0 hN1 hNAS hNO hO0 hO1 hASR hRb he
      cases hanc with
      | top hptop =>
          obtain ⟨oldN, hgO, hOP⟩ : ∃ n, getPage g rt = some n ∧
              n.parentPageId = INVALID_PAGE_ID := by
            unfold parentOf at hptop
            cases hg : getPage g rt with
            | none =>
                rw [hg] at hptop
                simp at hptop
            | some n =>
                rw [hg] at hptop
                exact ⟨n, rfl, by simpa using hptop⟩
          obtain ⟨nn, hnn⟩ := Option.isSome_iff_exists.mp hNal
          rw [insertIntoParent_root_eq cfg g rt rt sep N fuel oldN nn hgO hOP
            (by omega) (by omega) (fun hc => hNO hc.symm) hnn] at he
          have h3 := Option.some.inj he
          have hg'e : unpinPg (updateRootPageId (setPage (setPage
              (newPg g (.internalN INVALID_PAGE_ID cfg.internalMax
                [(0, rt), (sep, N)])).1
              N (nn.setParent g.nextPid)) rt (oldN.setParent g.nextPid))
              g.nextPid 0) g.nextPid true = g' := congrArg Prod.fst h3
          have hroot'e : g.nextPid = root' := congrArg Prod.snd h3
          subst hg'e
          subst hroot'e
          set H5 := unpinPg (updateRootPageId (setPage (setPage
              (newPg g (.internalN INVALID_PAGE_ID cfg.internalMax
                [(0, rt), (sep, N)])).1
              N (nn.setParent g.nextPid)) rt (oldN.setParent g.nextPid))
              g.nextPid 0) g.nextPid true with hH5def
          have hbase5 : FindsKVIn R H5 key value d0
              (if key < sep then rt else N) := by
            refine FindsKVIn_frame R g H5 key value ?_ d0 _ hbase
            intro q hq n0 hn
            rw [hH5def, getPage_unpinPg, getPage_updateRoot]
            by_cases hqO : q = rt
            · subst hqO
              have hn0 : n0 = oldN := by
                rw [hgO] at hn
                exact (Option.some.inj hn).symm
              subst hn0
              exact Or.inr ⟨g.nextPid, by rw [getPage_setPage_self]⟩
            · by_cases hqN : q = N
              · subst hqN
                have hn0 : n0 = nn := by
                  rw [hnn] at hn
                  exact (Option.some.inj hn).symm
                subst hn0
                exact Or.inr ⟨g.nextPid, by
                  rw [getPage_setPage_ne _ _ _ _ (fun hc => hNO hc),
                    getPage_setPage_self]⟩
              · refine Or.inl ?_
                rw [getPage_setPage_ne _ _ _ _ hqO,
                  getPage_setPage_ne _ _ _ _ hqN,
                  getPage_newPg_ne _ _ _ (by have := hRb q hq; omega)]
                exact hn
          have hpage : getPage H5 g.nextPid =
              some (.internalN INVALID_PAGE_ID cfg.internalMax
                [(0, rt), (sep, N)]) := by
            rw [hH5def, getPage_unpinPg, getPage_updateRoot,
              getPage_setPage_ne _ _ _ _ (by omega),
              getPage_setPage_ne _ _ _ _ (by omega),
              getPage_newPg_self]
          refine ⟨g.nextPid :: R, d0 + 1,
            ⟨List.mem_cons_self _ _, Or.inr ⟨_, _, _, hpage, ?_⟩⟩,
            by omega⟩
          rw [internalLookup_two 0 rt sep N key]
          exact FindsKVIn_sub R _ _ key value
            (fun q hq => List.mem_cons_of_mem _ hq) d0 _ hbase5
      | step hp hpp hslot hin hkids hP0 hP1 hrec =>
          rename_i P ppar pmax pes plo phi AS'
          obtain ⟨oldN, hgO, hOPar⟩ : ∃ n, getPage g O = some n ∧
              n.parentPageId = P := by
            unfold parentOf at hp
            cases hg : getPage g O with
            | none =>
                rw [hg] at hp
                simp at hp
            | some n =>
                rw [hg] at hp
                exact ⟨n, rfl, by simpa using hp⟩
          have hndP : ¬ P ∈ AS' ∧ (P :: AS').Nodup := by
            have := anc_nodup key g hrec
            exact ⟨(List.nodup_cons.mp this).1, this⟩
          have hNP : ¬ N = P := fun hc => hNAS (hc ▸ List.mem_cons_self _ _)
          obtain ⟨nn, hnn⟩ := Option.isSome_iff_exists.mp hNal
          have hPR : ¬ P ∈ R := hASR P (List.mem_cons_self _ _)
          obtain ⟨i, hi2, hvi, hidx, hloeq, hhieq, hsortP, hksP⟩ := hslot
          have hlo_i : i = 0 ∨ keyAtL pes i ≤ key := by
            by_cases h0 : i = 0
            · exact Or.inl h0
            · refine Or.inr ?_
              have := hinB.1
              rw [hloeq] at this
              unfold childLo at this
              rw [if_neg h0] at this
              exact this
          have hhi_i : i + 1 = pes.length ∨ key < keyAtL pes (i + 1) := by
            by_cases h0 : i + 1 = pes.length
            · exact Or.inl h0
            · refine Or.inr ?_
              have := hinB.2
              rw [hhieq] at this
              unfold childHi at this
              rw [if_neg h0] at this
              exact this
          have hlsep : i = 0 ∨ keyAtL pes i < sep := by
            by_cases h0 : i = 0
            · exact Or.inl h0
            · refine Or.inr ?_
              refine hsep.1 _ ?_
              rw [hloeq]
              unfold childLo
              rw [if_neg h0]
          have hrsep : i + 1 = pes.length ∨ sep < keyAtL pes (i + 1) := by
            by_cases h0 : i + 1 = pes.length
            · exact Or.inl h0
            · refine Or.inr ?_
              refine hsep.2 _ ?_
              rw [hhieq]
              unfold childHi
              rw [if_neg h0]
          obtain ⟨j, hj, hvj, hjlo, hjhi, hlook⟩ :=
            route_insertAfter pes O sep N key i hsortP hi2 hvi hlo_i hhi_i
              hlsep hrsep
          have hsort1 := sorted_insertAfter pes (sep, N) i hsortP hi2 hlsep hrsep
          have hlen1 : (pes.take (i + 1) ++ (sep, N) :: pes.drop (i + 1)).length
              = pes.length + 1 := length_insertAfterList pes (sep, N) i (by omega)
          have hkeys1 : ∀ m, 1 ≤ m →
              m < (pes.take (i + 1) ++ (sep, N) :: pes.drop (i + 1)).length →
              keyStrictIn plo phi
                (keyAtL (pes.take (i + 1) ++ (sep, N) :: pes.drop (i + 1)) m) := by
            intro m h1m hm
            rw [hlen1] at hm
            have hsepin : keyStrictIn plo phi sep := by
              constructor
              · intro l hl
                by_cases h0 : i = 0
                · refine hsep.1 l ?_
                  rw [hloeq]
                  unfold childLo
                  rw [if_pos h0, hl]
                · have h1 : keyAtL pes i < sep := by
                    rcases hlsep with hc | hc
                    · exact absurd hc h0
                    · exact hc
                  have h2 := (hksP i (by omega) hi2).1 l hl
                  omega
              · intro u hu
                by_cases h0 : i + 1 = pes.length
                · refine hsep.2 u ?_
                  rw [hhieq]
                  unfold childHi
                  rw [if_pos h0, hu]
                · have h1 : sep < keyAtL pes (i + 1) := by
                    rcases hrsep with hc | hc
                    · exact absurd hc h0
                    · exact hc
                  have h2 := (hksP (i + 1) (by omega) (by omega)).2 u hu
                  omega
            by_cases hmle : m ≤ i
            · rw [keyAtL_insertAfter_lt pes (sep, N) i m (by omega) (by omega)]
              exact hksP m h1m (by omega)
            · by_cases hmeq : m = i + 1
              · rw [hmeq, keyAtL_insertAfter_self pes (sep, N) i (by omega)]
                exact hsepin
              · rw [keyAtL_insertAfter_gt pes (sep, N) i m (by omega) (by omega)]
                exact hksP (m - 1) (by omega) (by omega)
          rw [insertIntoParent] at he
          rw [hgO] at he
          simp only [] at he
          rw [hOPar] at he
          rw [if_neg (show ¬ P = INVALID_PAGE_ID by
            unfold INVALID_PAGE_ID
            omega)] at he
          rw [fetchPg_some g P _ hpp] at he
          simp only [] at he
          rw [insertNodeAfter_eq pes O sep N i hidx] at he
          rw [getPage_setPage_ne _ _ _ _ hNP, getPage_pinBump, hnn] at he
          simp only [] at he
          by_cases hsplit :
              (pes.take (i + 1) ++ (sep, N) :: pes.drop (i + 1)).length > pmax
          · rw [if_pos hsplit] at he
            set g3 := setPage (setPage (pinBump g P) P
                (.internalN ppar pmax (pes.take (i + 1) ++ (sep, N) ::
                  pes.drop (i + 1)))) N (nn.setParent P) with hg3def
            have hPneN : ¬ P = N := fun hc => hNP hc.symm
            have hpage3 : getPage g3 P = some (.internalN ppar pmax
                (pes.take (i + 1) ++ (sep, N) :: pes.drop (i + 1))) := by
              rw [hg3def, getPage_setPage_ne _ _ _ _ hPneN,
                getPage_setPage_self]
            have hnx3 : g3.nextPid = g.nextPid := by
              rw [hg3def, nextPid_setPage, nextPid_setPage, nextPid_pinBump]
            have hhalfge : 1 ≤
                (pes.take (i + 1) ++ (sep, N) :: pes.drop (i + 1)).length / 2 := by
              rw [hlen1]
              omega
            have hhalflt :
                (pes.take (i + 1) ++ (sep, N) :: pes.drop (i + 1)).length / 2 <
                (pes.take (i + 1) ++ (sep, N) :: pes.drop (i + 1)).length := by
              rw [hlen1]
              omega
            unfold splitInternal at he
            rw [hpage3] at he
            simp only [] at he
            rw [if_neg (by omega)] at he
            rw [newPg_snd, hnx3] at he
            cases hadopt : adoptAll
                (newPg g3 (.internalN INVALID_PAGE_ID cfg.internalMax [])).1
                ((((pes.take (i + 1) ++ (sep, N) :: pes.drop (i + 1)).drop ((pes.take (i + 1) ++ (sep, N) :: pes.drop (i + 1)).length / 2))).map (fun x => x.2)) g.nextPid with
            | none =>
                rw [hadopt] at he
                simp at he
            | some h2s =>
            rw [hadopt] at he
            simp only [] at he
            have hXneP : ¬ g.nextPid = P := by omega
            have hpage_spid : getPage (setPage (setPage h2s g.nextPid (.internalN INVALID_PAGE_ID cfg.internalMax ((pes.take (i + 1) ++ (sep, N) :: pes.drop (i + 1)).drop ((pes.take (i + 1) ++ (sep, N) :: pes.drop (i + 1)).length / 2)))) P (.internalN ppar pmax ((pes.take (i + 1) ++ (sep, N) :: pes.drop (i + 1)).take ((pes.take (i + 1) ++ (sep, N) :: pes.drop (i + 1)).length / 2)))) g.nextPid =
                some (.internalN INVALID_PAGE_ID cfg.internalMax ((pes.take (i + 1) ++ (sep, N) :: pes.drop (i + 1)).drop ((pes.take (i + 1) ++ (sep, N) :: pes.drop (i + 1)).length / 2))) := by
              rw [getPage_setPage_ne _ _ _ _ hXneP, getPage_setPage_self]
            rw [hpage_spid] at he
            simp only [] at he
            cases hrec2 : insertIntoParent cfg (setPage (setPage h2s g.nextPid (.internalN INVALID_PAGE_ID cfg.internalMax ((pes.take (i + 1) ++ (sep, N) :: pes.drop (i + 1)).drop ((pes.take (i + 1) ++ (sep, N) :: pes.drop (i + 1)).length / 2)))) P (.internalN ppar pmax ((pes.take (i + 1) ++ (sep, N) :: pes.drop (i + 1)).take ((pes.take (i + 1) ++ (sep, N) :: pes.drop (i + 1)).length / 2)))) rt P
                (keyAtL ((pes.take (i + 1) ++ (sep, N) :: pes.drop (i + 1)).drop ((pes.take (i + 1) ++ (sep, N) :: pes.drop (i + 1)).length / 2)) 0) g.nextPid fuel with
            | none =>
                rw [hrec2] at he
                simp at he
            | some pr =>
            obtain ⟨h5s, root1⟩ := pr
            rw [hrec2] at he
            simp only [] at he
            have h3e := Option.some.inj he
            have hg'e : unpinPg h5s P true = g' := congrArg Prod.fst h3e
            have hroot'e : root1 = root' := congrArg Prod.snd h3e
            subst hg'e
            subst hroot'e
            obtain ⟨hadoptFrame, hadoptNx, hadoptOut⟩ :=
              adoptAll_frame _ _ _ _ hadopt
            have hmoved : ∀ v ∈ (((pes.take (i + 1) ++ (sep, N) :: pes.drop (i + 1)).drop ((pes.take (i + 1) ++ (sep, N) :: pes.drop (i + 1)).length / 2))).map (fun x => x.2),
                (getPage g v).isSome ∧ v < g.nextPid ∧ ¬ v ∈ P :: AS' := by
              intro v hv
              obtain ⟨x, hx, hxv⟩ := List.mem_map.mp hv
              have hvmem : v ∈ (pes.take (i + 1) ++ (sep, N) :: pes.drop (i + 1)).map (fun e => e.2) :=
                List.mem_map.mpr ⟨x, List.drop_subset _ _ hx, hxv⟩
              rcases mem_values_insertAfter pes (sep, N) i v hvmem with hvN | hvp
              · rw [hvN]
                exact ⟨hNal, hN1, hNAS⟩
              · obtain ⟨ha, hb, hc, hd⟩ := hkids v hvp
                exact ⟨ha, hc, hd⟩
            have hnx1s : (newPg g3 (BNode.internalN INVALID_PAGE_ID
                cfg.internalMax [])).1.nextPid = g.nextPid + 1 := by
              rw [nextPid_newPg, hnx3]
            have hnx4 : (setPage (setPage h2s g.nextPid (.internalN INVALID_PAGE_ID cfg.internalMax ((pes.take (i + 1) ++ (sep, N) :: pes.drop (i + 1)).drop ((pes.take (i + 1) ++ (sep, N) :: pes.drop (i + 1)).length / 2)))) P (.internalN ppar pmax ((pes.take (i + 1) ++ (sep, N) :: pes.drop (i + 1)).take ((pes.take (i + 1) ++ (sep, N) :: pes.drop (i + 1)).length / 2)))).nextPid = g.nextPid + 1 := by
              rw [nextPid_setPage, nextPid_setPage, hadoptNx, hnx1s]
            have hframe4 : ∀ q n0, ¬ q = P → ¬ q = g.nextPid →
                getPage g q = some n0 →
                getPage (setPage (setPage h2s g.nextPid (.internalN INVALID_PAGE_ID cfg.internalMax ((pes.take (i + 1) ++ (sep, N) :: pes.drop (i + 1)).drop ((pes.take (i + 1) ++ (sep, N) :: pes.drop (i + 1)).length / 2)))) P (.internalN ppar pmax ((pes.take (i + 1) ++ (sep, N) :: pes.drop (i + 1)).take ((pes.take (i + 1) ++ (sep, N) :: pes.drop (i + 1)).length / 2)))) q = some n0 ∨
                  ∃ p2, getPage (setPage (setPage h2s g.nextPid (.internalN INVALID_PAGE_ID cfg.internalMax ((pes.take (i + 1) ++ (sep, N) :: pes.drop (i + 1)).drop ((pes.take (i + 1) ++ (sep, N) :: pes.drop (i + 1)).length / 2)))) P (.internalN ppar pmax ((pes.take (i + 1) ++ (sep, N) :: pes.drop (i + 1)).take ((pes.take (i + 1) ++ (sep, N) :: pes.drop (i + 1)).length / 2)))) q = some (n0.setParent p2) := by
              intro q n0 hqP hqX hn
              have hstage1 : getPage g3 q = some n0 ∨
                  getPage g3 q = some (n0.setParent P) := by
                by_cases hqN : q = N
                · subst hqN
                  have hn0 : n0 = nn := by
                    rw [hnn] at hn
                    exact (Option.some.inj hn).symm
                  subst hn0
                  exact Or.inr (by rw [hg3def, getPage_setPage_self])
                · refine Or.inl ?_
                  rw [hg3def, getPage_setPage_ne _ _ _ _ hqN,
                    getPage_setPage_ne _ _ _ _ hqP, getPage_pinBump]
                  exact hn
              have hstage2 : getPage (newPg g3 (BNode.internalN
                  INVALID_PAGE_ID cfg.internalMax [])).1 q = some n0 ∨
                  getPage (newPg g3 (BNode.internalN INVALID_PAGE_ID
                    cfg.internalMax [])).1 q = some (n0.setParent P) := by
                rw [getPage_newPg_ne _ _ _ (by rw [hnx3]; exact hqX)]
                exact hstage1
              have hstage3 : getPage h2s q = some n0 ∨
                  ∃ p2, getPage h2s q = some (n0.setParent p2) := by
                rcases hstage2 with hs | hs
                · exact hadoptFrame q n0 hs
                · rcases hadoptFrame q _ hs with hc | ⟨p2, hc⟩
                  · exact Or.inr ⟨P, hc⟩
                  · rw [setParent_setParent] at hc
                    exact Or.inr ⟨p2, hc⟩
              rw [getPage_setPage_ne _ _ _ _ hqP,
                getPage_setPage_ne _ _ _ _ hqX]
              exact hstage3
            have hpageP4 : getPage (setPage (setPage h2s g.nextPid (.internalN INVALID_PAGE_ID cfg.internalMax ((pes.take (i + 1) ++ (sep, N) :: pes.drop (i + 1)).drop ((pes.take (i + 1) ++ (sep, N) :: pes.drop (i + 1)).length / 2)))) P (.internalN ppar pmax ((pes.take (i + 1) ++ (sep, N) :: pes.drop (i + 1)).take ((pes.take (i + 1) ++ (sep, N) :: pes.drop (i + 1)).length / 2)))) P =
                some (.internalN ppar pmax ((pes.take (i + 1) ++ (sep, N) :: pes.drop (i + 1)).take ((pes.take (i + 1) ++ (sep, N) :: pes.drop (i + 1)).length / 2))) := getPage_setPage_self _ _ _
            have hsep2eq : keyAtL ((pes.take (i + 1) ++ (sep, N) :: pes.drop (i + 1)).drop ((pes.take (i + 1) ++ (sep, N) :: pes.drop (i + 1)).length / 2)) 0 = keyAtL (pes.take (i + 1) ++ (sep, N) :: pes.drop (i + 1)) ((pes.take (i + 1) ++ (sep, N) :: pes.drop (i + 1)).length / 2) := by
              rw [keyAtL_drop]
              congr 1
            have hbase4 : FindsKVIn R (setPage (setPage h2s g.nextPid (.internalN INVALID_PAGE_ID cfg.internalMax ((pes.take (i + 1) ++ (sep, N) :: pes.drop (i + 1)).drop ((pes.take (i + 1) ++ (sep, N) :: pes.drop (i + 1)).length / 2)))) P (.internalN ppar pmax ((pes.take (i + 1) ++ (sep, N) :: pes.drop (i + 1)).take ((pes.take (i + 1) ++ (sep, N) :: pes.drop (i + 1)).length / 2)))) key value d0
                (if key < sep then O else N) := by
              refine FindsKVIn_frame R g (setPage (setPage h2s g.nextPid (.internalN INVALID_PAGE_ID cfg.internalMax ((pes.take (i + 1) ++ (sep, N) :: pes.drop (i + 1)).drop ((pes.take (i + 1) ++ (sep, N) :: pes.drop (i + 1)).length / 2)))) P (.internalN ppar pmax ((pes.take (i + 1) ++ (sep, N) :: pes.drop (i + 1)).take ((pes.take (i + 1) ++ (sep, N) :: pes.drop (i + 1)).length / 2)))) key value ?_ d0 _ hbase
              intro q hq n0 hn
              exact hframe4 q n0 (fun hc => hPR (hc ▸ hq))
                (by have := hRb q hq; omega) hn
            have hbaseNew : FindsKVIn (P :: g.nextPid :: R) (setPage (setPage h2s g.nextPid (.internalN INVALID_PAGE_ID cfg.internalMax ((pes.take (i + 1) ++ (sep, N) :: pes.drop (i + 1)).drop ((pes.take (i + 1) ++ (sep, N) :: pes.drop (i + 1)).length / 2)))) P (.internalN ppar pmax ((pes.take (i + 1) ++ (sep, N) :: pes.drop (i + 1)).take ((pes.take (i + 1) ++ (sep, N) :: pes.drop (i + 1)).length / 2)))) key value
                (d0 + 1) (if key < keyAtL ((pes.take (i + 1) ++ (sep, N) :: pes.drop (i + 1)).drop ((pes.take (i + 1) ++ (sep, N) :: pes.drop (i + 1)).length / 2)) 0 then P else g.nextPid) := by
              rw [hsep2eq]
              by_cases hklt : key < keyAtL (pes.take (i + 1) ++ (sep, N) :: pes.drop (i + 1)) ((pes.take (i + 1) ++ (sep, N) :: pes.drop (i + 1)).length / 2)
              · rw [if_pos hklt]
                refine ⟨List.mem_cons_self _ _, Or.inr ⟨_, _, _, hpageP4, ?_⟩⟩
                rw [route_take (pes.take (i + 1) ++ (sep, N) :: pes.drop (i + 1)) ((pes.take (i + 1) ++ (sep, N) :: pes.drop (i + 1)).length / 2) j key _ hsort1 hhalfge hhalflt
                  hj hvj hjlo hjhi hklt]
                exact FindsKVIn_sub R _ (setPage (setPage h2s g.nextPid (.internalN INVALID_PAGE_ID cfg.internalMax ((pes.take (i + 1) ++ (sep, N) :: pes.drop (i + 1)).drop ((pes.take (i + 1) ++ (sep, N) :: pes.drop (i + 1)).length / 2)))) P (.internalN ppar pmax ((pes.take (i + 1) ++ (sep, N) :: pes.drop (i + 1)).take ((pes.take (i + 1) ++ (sep, N) :: pes.drop (i + 1)).length / 2)))) key value
                  (fun q hq => List.mem_cons_of_mem _
                    (List.mem_cons_of_mem _ hq)) d0 _ hbase4
              · rw [if_neg hklt]
                refine ⟨List.mem_cons_of_mem _ (List.mem_cons_self _ _),
                  Or.inr ⟨_, _, _, hpage_spid, ?_⟩⟩
                rw [route_drop (pes.take (i + 1) ++ (sep, N) :: pes.drop (i + 1)) ((pes.take (i + 1) ++ (sep, N) :: pes.drop (i + 1)).length / 2) j key _ hsort1 hhalfge hhalflt
                  hj hvj hjlo hjhi (by omega)]
                exact FindsKVIn_sub R _ (setPage (setPage h2s g.nextPid (.internalN INVALID_PAGE_ID cfg.internalMax ((pes.take (i + 1) ++ (sep, N) :: pes.drop (i + 1)).drop ((pes.take (i + 1) ++ (sep, N) :: pes.drop (i + 1)).length / 2)))) P (.internalN ppar pmax ((pes.take (i + 1) ++ (sep, N) :: pes.drop (i + 1)).take ((pes.take (i + 1) ++ (sep, N) :: pes.drop (i + 1)).length / 2)))) key value
                  (fun q hq => List.mem_cons_of_mem _
                    (List.mem_cons_of_mem _ hq)) d0 _ hbase4
            have halive4 : ∀ q, (getPage g q).isSome →
                (getPage (setPage (setPage h2s g.nextPid (.internalN INVALID_PAGE_ID cfg.internalMax ((pes.take (i + 1) ++ (sep, N) :: pes.drop (i + 1)).drop ((pes.take (i + 1) ++ (sep, N) :: pes.drop (i + 1)).length / 2)))) P (.internalN ppar pmax ((pes.take (i + 1) ++ (sep, N) :: pes.drop (i + 1)).take ((pes.take (i + 1) ++ (sep, N) :: pes.drop (i + 1)).length / 2)))) q).isSome := by
              intro q hq
              by_cases hqP : q = P
              · rw [hqP, hpageP4]
                rfl
              · by_cases hqX : q = g.nextPid
                · rw [hqX, hpage_spid]
                  rfl
                · obtain ⟨n0, hn0⟩ := Option.isSome_iff_exists.mp hq
                  rcases hframe4 q n0 hqP hqX hn0 with hc | ⟨p2, hc⟩ <;>
                    rw [hc] <;> rfl
            have hanc4 : Anc key (setPage (setPage h2s g.nextPid (.internalN INVALID_PAGE_ID cfg.internalMax ((pes.take (i + 1) ++ (sep, N) :: pes.drop (i + 1)).drop ((pes.take (i + 1) ++ (sep, N) :: pes.drop (i + 1)).length / 2)))) P (.internalN ppar pmax ((pes.take (i + 1) ++ (sep, N) :: pes.drop (i + 1)).take ((pes.take (i + 1) ++ (sep, N) :: pes.drop (i + 1)).length / 2)))) P plo phi rt AS' := by
              refine Anc_frame key g (setPage (setPage h2s g.nextPid (.internalN INVALID_PAGE_ID cfg.internalMax ((pes.take (i + 1) ++ (sep, N) :: pes.drop (i + 1)).drop ((pes.take (i + 1) ++ (sep, N) :: pes.drop (i + 1)).length / 2)))) P (.internalN ppar pmax ((pes.take (i + 1) ++ (sep, N) :: pes.drop (i + 1)).take ((pes.take (i + 1) ++ (sep, N) :: pes.drop (i + 1)).length / 2)))) halive4 (by omega) hrec ?_ ?_
              · intro a ha
                have haP : ¬ a = P := fun hc => hndP.1 (hc ▸ ha)
                have haX : ¬ a = g.nextPid := by
                  have := anc_mem_bounds key g hrec a ha
                  omega
                have haN : ¬ a = N :=
                  fun hc => hNAS (hc ▸ List.mem_cons_of_mem _ ha)
                have hamoved : ¬ a ∈ (((pes.take (i + 1) ++ (sep, N) :: pes.drop (i + 1)).drop ((pes.take (i + 1) ++ (sep, N) :: pes.drop (i + 1)).length / 2))).map (fun x => x.2) := by
                  intro hc
                  exact (hmoved a hc).2.2 (List.mem_cons_of_mem _ ha)
                rw [getPage_setPage_ne _ _ _ _ haP,
                  getPage_setPage_ne _ _ _ _ haX,
                  hadoptOut a hamoved,
                  getPage_newPg_ne _ _ _ (by rw [hnx3]; exact haX),
                  hg3def, getPage_setPage_ne _ _ _ _ haN,
                  getPage_setPage_ne _ _ _ _ haP, getPage_pinBump]
              · unfold parentOf
                rw [hpageP4, hpp]
                rfl
            have hsep2in : keyStrictIn plo phi (keyAtL ((pes.take (i + 1) ++ (sep, N) :: pes.drop (i + 1)).drop ((pes.take (i + 1) ++ (sep, N) :: pes.drop (i + 1)).length / 2)) 0) := by
              rw [hsep2eq]
              exact hkeys1 ((pes.take (i + 1) ++ (sep, N) :: pes.drop (i + 1)).length / 2) hhalfge (by omega)
            have hfresh4 : freshOK (setPage (setPage h2s g.nextPid (.internalN INVALID_PAGE_ID cfg.internalMax ((pes.take (i + 1) ++ (sep, N) :: pes.drop (i + 1)).drop ((pes.take (i + 1) ++ (sep, N) :: pes.drop (i + 1)).length / 2)))) P (.internalN ppar pmax ((pes.take (i + 1) ++ (sep, N) :: pes.drop (i + 1)).take ((pes.take (i + 1) ++ (sep, N) :: pes.drop (i + 1)).length / 2)))) := by
              intro q hq
              rw [hnx4] at hq
              have hqP : ¬ q = P := by omega
              have hqX : ¬ q = g.nextPid := by omega
              have hqmoved : ¬ q ∈ (((pes.take (i + 1) ++ (sep, N) :: pes.drop (i + 1)).drop ((pes.take (i + 1) ++ (sep, N) :: pes.drop (i + 1)).length / 2))).map (fun x => x.2) := by
                intro hc
                have := (hmoved q hc).2.1
                omega
              rw [getPage_setPage_ne _ _ _ _ hqP,
                getPage_setPage_ne _ _ _ _ hqX,
                hadoptOut q hqmoved,
                getPage_newPg_ne _ _ _ (by rw [hnx3]; exact hqX),
                hg3def, getPage_setPage_ne _ _ _ _ (show ¬ q = N by omega),
                getPage_setPage_ne _ _ _ _ hqP, getPage_pinBump]
              exact hfOK q (by omega)
            obtain ⟨R2, D, hf5, hr50⟩ := ih (setPage (setPage h2s g.nextPid (.internalN INVALID_PAGE_ID cfg.internalMax ((pes.take (i + 1) ++ (sep, N) :: pes.drop (i + 1)).drop ((pes.take (i + 1) ++ (sep, N) :: pes.drop (i + 1)).length / 2)))) P (.internalN ppar pmax ((pes.take (i + 1) ++ (sep, N) :: pes.drop (i + 1)).take ((pes.take (i + 1) ++ (sep, N) :: pes.drop (i + 1)).length / 2)))) rt P g.nextPid (keyAtL ((pes.take (i + 1) ++ (sep, N) :: pes.drop (i + 1)).drop ((pes.take (i + 1) ++ (sep, N) :: pes.drop (i + 1)).length / 2)) 0)
              plo phi AS' (P :: g.nextPid :: R) (d0 + 1) h5s root1
              hanc4 hrt0 hsep2in hin hbaseNew hfresh4
              (by rw [hpage_spid]; rfl)
              (by omega) (by omega)
              (fun hc => by have := anc_mem_bounds key g hrec _ hc; omega)
              hXneP hP0 (by omega)
              (fun a ha => by
                intro hc
                rcases List.mem_cons.mp hc with hc1 | hc1
                · exact hndP.1 (hc1 ▸ ha)
                · rcases List.mem_cons.mp hc1 with hc2 | hc2
                  · have := anc_mem_bounds key g hrec a ha
                    omega
                  · exact hASR a (List.mem_cons_of_mem _ ha) hc2)
              (fun q hq => by
                rcases List.mem_cons.mp hq with hc | hc
                · omega
                · rcases List.mem_cons.mp hc with hc2 | hc2
                  · omega
                  · have := hRb q hc2
                    omega)
              hrec2
            refine ⟨R2, D, ?_, hr50⟩
            refine FindsKVIn_frame R2 h5s _ key value ?_ D root1 hf5
            intro q hq n0 hn
            exact Or.inl (by rw [getPage_unpinPg]; exact hn)
          · rw [if_neg hsplit] at he
            have h3e := Option.some.inj he
            have hg'e : unpinPg (setPage (setPage (pinBump g P) P
                (.internalN ppar pmax (pes.take (i + 1) ++ (sep, N) ::
                  pes.drop (i + 1)))) N (nn.setParent P)) P true = g' :=
              congrArg Prod.fst h3e
            have hroot'e : rt = root' := congrArg Prod.snd h3e
            subst hg'e
            subst hroot'e
            set H := unpinPg (setPage (setPage (pinBump g P) P
                (.internalN ppar pmax (pes.take (i + 1) ++ (sep, N) ::
                  pes.drop (i + 1)))) N (nn.setParent P)) P true with hHdef
            have hPneN : ¬ P = N := fun hc => hNP hc.symm
            have hpageP : getPage H P = some (.internalN ppar pmax
                (pes.take (i + 1) ++ (sep, N) :: pes.drop (i + 1))) := by
              rw [hHdef, getPage_unpinPg, getPage_setPage_ne _ _ _ _ hPneN,
                getPage_setPage_self]
            have hbaseH : FindsKVIn R H key value d0
                (if key < sep then O else N) := by
              refine FindsKVIn_frame R g H key value ?_ d0 _ hbase
              intro q hq n0 hn
              rw [hHdef, getPage_unpinPg]
              by_cases hqN : q = N
              · subst hqN
                have hn0 : n0 = nn := by
                  rw [hnn] at hn
                  exact (Option.some.inj hn).symm
                subst hn0
                exact Or.inr ⟨P, by rw [getPage_setPage_self]⟩
              · refine Or.inl ?_
                rw [getPage_setPage_ne _ _ _ _ hqN,
                  getPage_setPage_ne _ _ _ _
                    (by intro hc; rw [hc] at hq; exact hPR hq),
                  getPage_pinBump]
                exact hn
            have hstep : FindsKVIn (P :: R) H key value (d0 + 1) P := by
              refine ⟨List.mem_cons_self _ _, Or.inr ⟨_, _, _, hpageP, ?_⟩⟩
              rw [hlook]
              exact FindsKVIn_sub R _ H key value
                (fun q hq => List.mem_cons_of_mem _ hq) d0 _ hbaseH
            have halive : ∀ q, (getPage g q).isSome → (getPage H q).isSome := by
              intro q hq
              rw [hHdef, getPage_unpinPg]
              by_cases hqN : q = N
              · subst hqN
                rw [getPage_setPage_self]
                rfl
              · rw [getPage_setPage_ne _ _ _ _ hqN]
                by_cases hqP : q = P
                · subst hqP
                  rw [getPage_setPage_self]
                  rfl
                · rw [getPage_setPage_ne _ _ _ _ hqP, getPage_pinBump]
                  exact hq
            have hancH : Anc key H P plo phi rt AS' := by
              refine Anc_frame key g H halive
                (by rw [hHdef, nextPid_unpinPg, nextPid_setPage,
                  nextPid_setPage, nextPid_pinBump]) hrec ?_ ?_
              · intro a ha
                have haN : ¬ a = N :=
                  fun hc => hNAS (hc ▸ List.mem_cons_of_mem _ ha)
                have haP : ¬ a = P := by
                  intro hc
                  exact hndP.1 (hc ▸ ha)
                rw [hHdef, getPage_unpinPg, getPage_setPage_ne _ _ _ _ haN,
                  getPage_setPage_ne _ _ _ _ haP, getPage_pinBump]
              · unfold parentOf
                rw [hpageP, hpp]
                rfl
            obtain ⟨D, hD⟩ := anc_route (AS' ++ P :: R) key value H hancH
              (fun a ha => List.mem_append_left _ ha) (d0 + 1) hin
              (FindsKVIn_sub (P :: R) (AS' ++ P :: R) H key value
                (fun q hq => List.mem_append_right _ hq) (d0 + 1) P hstep)
            exact ⟨AS' ++ P :: R, D, hD, hrt0⟩


/-! ### The climb never touches leaf entries -/

theorem getD_mem_of_lt (l : List (Int × Int)) (n : Nat) (h : n < l.length) :
    l.getD n (0, 0) ∈ l := by
  rw [List.getD_eq_getElem?_getD, List.getElem?_eq_getElem h]
  exact List.getElem_mem h

theorem anc_pid_bounds (key : Int) (h : THeap) :
    ∀ {pid lo hi rt AS}, Anc key h pid lo hi rt AS →
    0 ≤ rt → rt < h.nextPid → 0 ≤ pid ∧ pid < h.nextPid := by
  intro pid lo hi rt AS hanc
  induction hanc with
  | top hp =>
      intro h0 h1
      exact ⟨h0, h1⟩
  | step hp hpp hslot hin hkids h0 h1 hrec ih =>
      intro hr0 hr1
      obtain ⟨i, hi2, hvi, -⟩ := hslot
      have hm := hvi ▸ valueAtL_mem _ i hi2
      obtain ⟨-, ha, hb, -⟩ := hkids _ hm
      exact ⟨ha, hb⟩

theorem leafPreserve_refl (h : THeap) : leafPreserve h h :=
  fun p par max es nx hp => ⟨par, nx, hp⟩

theorem leafPreserve_trans (h1 h2 h3 : THeap)
    (ha : leafPreserve h1 h2) (hb : leafPreserve h2 h3) :
    leafPreserve h1 h3 := by
  intro p par max es nx hp
  obtain ⟨par1, nx1, hp1⟩ := hb p par max es nx hp
  exact ha p par1 max es nx1 hp1

theorem leafPreserve_pagesId (h h' : THeap)
    (hpg : ∀ q, getPage h' q = getPage h q) : leafPreserve h h' := by
  intro p par max es nx hp
  rw [hpg] at hp
  exact ⟨par, nx, hp⟩

theorem leafPreserve_setPage_internal (h : THeap) (p par2 : Int) (max2 : Nat)
    (es2 : List (Int × Int)) :
    leafPreserve h (setPage h p (.internalN par2 max2 es2)) := by
  intro q par max es nx hp
  by_cases hq : q = p
  · rw [hq, getPage_setPage_self] at hp
    cases hp
  · rw [getPage_setPage_ne _ _ _ _ hq] at hp
    exact ⟨par, nx, hp⟩

theorem leafPreserve_setParent (h : THeap) (p x : Int) (n : BNode)
    (hn : getPage h p = some n) :
    leafPreserve h (setPage h p (n.setParent x)) := by
  intro q par max es nx hp
  by_cases hq : q = p
  · rw [hq, getPage_setPage_self] at hp
    cases n with
    | leafN par1 max1 es1 nx1 =>
        have h2 : BNode.leafN x max1 es1 nx1 = BNode.leafN par max es nx :=
          Option.some.inj hp
        injection h2 with hpa hpb hpc hpd
        exact ⟨par1, nx1, by rw [hq, hn, hpb, hpc]⟩
    | internalN par1 max1 es1 =>
        cases Option.some.inj hp
  · rw [getPage_setPage_ne _ _ _ _ hq] at hp
    exact ⟨par, nx, hp⟩

theorem leafPreserve_newPg_internal (h : THeap) (par2 : Int) (max2 : Nat)
    (es2 : List (Int × Int)) :
    leafPreserve h (newPg h (.internalN par2 max2 es2)).1 := by
  intro q par max es nx hp
  by_cases hq : q = h.nextPid
  · rw [hq, getPage_newPg_self] at hp
    cases Option.some.inj hp
  · rw [getPage_newPg_ne _ _ _ hq] at hp
    exact ⟨par, nx, hp⟩

theorem adoptAll_leafPreserve : ∀ (pids : List Int) (h : THeap) (par : Int)
    (h' : THeap), adoptAll h pids par = some h' → leafPreserve h h' := by
  intro pids
  induction pids with
  | nil =>
      intro h par h' he
      have : h = h' := Option.some.inj he
      subst this
      exact leafPreserve_refl h
  | cons p t ih =>
      intro h par h' he
      unfold adoptAll at he
      cases hg : getPage h p with
      | none =>
          unfold fetchPg at he
          rw [hg] at he
          simp at he
      | some n =>
          rw [fetchPg_some h p n hg] at he
          simp only [] at he
          have hA : leafPreserve h
              (unpinPg (setPage (pinBump h p) p (n.setParent par)) p true) := by
            have h1 : leafPreserve h (setPage (pinBump h p) p
                (n.setParent par)) :=
              leafPreserve_trans h (pinBump h p) _
                (leafPreserve_pagesId _ _ (fun q => getPage_pinBump _ _ _))
                (leafPreserve_setParent (pinBump h p) p par n hg)
            exact leafPreserve_trans h _ _ h1
              (leafPreserve_pagesId _ _ (fun q => getPage_unpinPg _ _ _ _))
          exact leafPreserve_trans h _ h' hA (ih _ _ _ he)

theorem splitInternal_leafPreserve (cfg : TConfig) (h h' : THeap)
    (pid npid : Int)
    (he : splitInternal cfg h pid = some (h', npid)) : leafPreserve h h' := by
  unfold splitInternal at he
  cases hg : getPage h pid with
  | none =>
      rw [hg] at he
      simp at he
  | some n =>
      rw [hg] at he
      cases n with
      | leafN par max es nx => simp at he
      | internalN par max es =>
          simp only [] at he
          rw [newPg_snd] at he
          by_cases hhalf : es.length / 2 = 0
          · rw [if_pos hhalf] at he
            have hh' : (newPg h (.internalN INVALID_PAGE_ID
                cfg.internalMax [])).1 = h' := congrArg Prod.fst
              (Option.some.inj he)
            rw [← hh']
            exact leafPreserve_newPg_internal h _ _ _
          · rw [if_neg hhalf] at he
            cases hadopt : adoptAll (newPg h (.internalN INVALID_PAGE_ID
                cfg.internalMax [])).1 ((es.drop (es.length / 2)).map
                  (fun x => x.2)) h.nextPid with
            | none =>
                rw [hadopt] at he
                simp at he
            | some h2 =>
                rw [hadopt] at he
                simp only [] at he
                have hh' : setPage (setPage h2 h.nextPid (.internalN
                    INVALID_PAGE_ID cfg.internalMax (es.drop (es.length / 2))))
                    pid (.internalN par max (es.take (es.length / 2))) = h' :=
                  congrArg Prod.fst (Option.some.inj he)
                rw [← hh']
                have h1 : leafPreserve h h2 :=
                  leafPreserve_trans h _ h2
                    (leafPreserve_newPg_internal h _ _ _)
                    (adoptAll_leafPreserve _ _ _ _ hadopt)
                have h2p : leafPreserve h (setPage h2 h.nextPid (.internalN
                    INVALID_PAGE_ID cfg.internalMax
                    (es.drop (es.length / 2)))) :=
                  leafPreserve_trans h h2 _ h1
                    (leafPreserve_setPage_internal h2 _ _ _ _)
                exact leafPreserve_trans h _ _ h2p
                  (leafPreserve_setPage_internal _ _ _ _ _)

theorem insertIntoParent_leafPreserve (cfg : TConfig) :
    ∀ (fuel : Nat) (g : THeap) (root O sep N : Int) (g' : THeap) (root' : Int),
    insertIntoParent cfg g root O sep N fuel = some (g', root') →
    leafPreserve g g' := by
  intro fuel
  induction fuel with
  | zero =>
      intro g root O sep N g' root' he
      simp [insertIntoParent] at he
  | succ fuel ih =>
      intro g root O sep N g' root' he
      rw [insertIntoParent] at he
      cases hgO : getPage g O with
      | none =>
          rw [hgO] at he
          simp at he
      | some oldN =>
          rw [hgO] at he
          simp only [] at he
          by_cases hpar : oldN.parentPageId = INVALID_PAGE_ID
          · rw [if_pos hpar] at he
            rw [newPg_snd] at he
            cases hgN : getPage (newPg g (.internalN INVALID_PAGE_ID
                cfg.internalMax [(0, O), (sep, N)])).1 N with
            | none =>
                rw [hgN] at he
                simp at he
            | some nn =>
                rw [hgN] at he
                simp only [] at he
                cases hgO2 : getPage (setPage (newPg g (.internalN
                    INVALID_PAGE_ID cfg.internalMax [(0, O), (sep, N)])).1 N
                    (nn.setParent g.nextPid)) O with
                | none =>
                    rw [hgO2] at he
                    simp at he
                | some on2 =>
                    rw [hgO2] at he
                    simp only [] at he
                    have hg' : unpinPg (updateRootPageId (setPage (setPage
                        (newPg g (.internalN INVALID_PAGE_ID cfg.internalMax
                          [(0, O), (sep, N)])).1 N (nn.setParent g.nextPid)) O
                        (on2.setParent g.nextPid)) g.nextPid 0) g.nextPid true
                        = g' := congrArg Prod.fst (Option.some.inj he)
                    rw [← hg']
                    have h1 : leafPreserve g (setPage (newPg g (.internalN
                        INVALID_PAGE_ID cfg.internalMax [(0, O), (sep, N)])).1
                        N (nn.setParent g.nextPid)) :=
                      leafPreserve_trans g _ _
                        (leafPreserve_newPg_internal g _ _ _)
                        (leafPreserve_setParent _ N _ nn hgN)
                    have h2 : leafPreserve g (setPage (setPage (newPg g
                        (.internalN INVALID_PAGE_ID cfg.internalMax
                          [(0, O), (sep, N)])).1 N (nn.setParent g.nextPid)) O
                        (on2.setParent g.nextPid)) :=
                      leafPreserve_trans g _ _ h1
                        (leafPreserve_setParent _ O _ on2 hgO2)
                    exact leafPreserve_trans g _ _ h2
                      (leafPreserve_pagesId _ _ (fun q => by
                        rw [getPage_unpinPg, getPage_updateRoot]))
          · rw [if_neg hpar] at he
            cases hgP : getPage g oldN.parentPageId with
            | none =>
                unfold fetchPg at he
                rw [hgP] at he
                simp at he
            | some pn =>
                rw [fetchPg_some g _ _ hgP] at he
                cases pn with
                | leafN a b c dd =>
                    simp at he
                | internalN ppar pmax pes =>
                    simp only [] at he
                    cases hgN : getPage (setPage (pinBump g oldN.parentPageId)
                        oldN.parentPageId (.internalN ppar pmax
                          (insertNodeAfter pes O sep N))) N with
                    | none =>
                        rw [hgN] at he
                        simp at he
                    | some nn =>
                        rw [hgN] at he
                        simp only [] at he
                        have hlp3 : leafPreserve g (setPage (setPage (pinBump g
                            oldN.parentPageId) oldN.parentPageId (.internalN
                            ppar pmax (insertNodeAfter pes O sep N))) N
                            (nn.setParent oldN.parentPageId)) := by
                          have ha : leafPreserve g (setPage (pinBump g
                              oldN.parentPageId) oldN.parentPageId (.internalN
                              ppar pmax (insertNodeAfter pes O sep N))) :=
                            leafPreserve_trans g _ _
                              (leafPreserve_pagesId _ _
                                (fun q => getPage_pinBump _ _ _))
                              (leafPreserve_setPage_internal _ _ _ _ _)
                          exact leafPreserve_trans g _ _ ha
                            (leafPreserve_setParent _ N _ nn hgN)
                        by_cases hbig :
                            (insertNodeAfter pes O sep N).length > pmax
                        · rw [if_pos hbig] at he
                          cases hsp : splitInternal cfg (setPage (setPage
                              (pinBump g oldN.parentPageId) oldN.parentPageId
                              (.internalN ppar pmax (insertNodeAfter pes O sep
                                N))) N (nn.setParent oldN.parentPageId))
                              oldN.parentPageId with
                          | none =>
                              rw [hsp] at he
                              simp at he
                          | some pr =>
                              obtain ⟨h4, spid⟩ := pr
                              rw [hsp] at he
                              simp only [] at he
                              cases hg4 : getPage h4 spid with
                              | none =>
                                  rw [hg4] at he
                                  simp at he
                              | some n4 =>
                                  rw [hg4] at he
                                  cases n4 with
                                  | leafN a b c dd =>
                                      simp at he
                                  | internalN a b ses =>
                                      simp only [] at he
                                      cases hrec2 : insertIntoParent cfg h4
                                          root oldN.parentPageId
                                          (keyAtL ses 0) spid fuel with
                                      | none =>
                                          rw [hrec2] at he
                                          simp at he
                                      | some pr2 =>
                                          obtain ⟨h5, root1⟩ := pr2
                                          rw [hrec2] at he
                                          simp only [] at he
                                          have hg' : unpinPg h5
                                              oldN.parentPageId true = g' :=
                                            congrArg Prod.fst
                                              (Option.some.inj he)
                                          rw [← hg']
                                          have hA : leafPreserve g h4 :=
                                            leafPreserve_trans g _ h4 hlp3
                                              (splitInternal_leafPreserve cfg
                                                _ h4 _ spid hsp)
                                          have hB : leafPreserve g h5 :=
                                            leafPreserve_trans g h4 h5 hA
                                              (ih h4 root oldN.parentPageId
                                                (keyAtL ses 0) spid h5 root1
                                                hrec2)
                                          exact leafPreserve_trans g h5 _ hB
                                            (leafPreserve_pagesId _ _ (fun q =>
                                              getPage_unpinPg _ _ _ _))
                        · rw [if_neg hbig] at he
                          have hg' : unpinPg (setPage (setPage (pinBump g
                              oldN.parentPageId) oldN.parentPageId (.internalN
                              ppar pmax (insertNodeAfter pes O sep N))) N
                              (nn.setParent oldN.parentPageId))
                              oldN.parentPageId true = g' :=
                            congrArg Prod.fst (Option.some.inj he)
                          rw [← hg']
                          exact leafPreserve_trans g _ _ hlp3
                            (leafPreserve_pagesId _ _ (fun q =>
                              getPage_unpinPg _ _ _ _))

theorem leafKeyOnlyAt_of_leafPreserve (h h' : THeap) (key T : Int)
    (hlp : leafPreserve h h') (hk : leafKeyOnlyAt h key T) :
    leafKeyOnlyAt h' key T := by
  constructor
  · intro p par max es nx hp hpT e hes
    obtain ⟨par1, nx1, hp1⟩ := hlp p par max es nx hp
    exact hk.1 p par1 max es nx1 hp1 hpT e hes
  · intro par max es nx hp
    obtain ⟨par1, nx1, hp1⟩ := hlp T par max es nx hp
    exact hk.2 par1 max es nx1 hp1

/-! ### A successful insert routes the new pair from the returned root -/

theorem insert_spec (cfg : TConfig) (h : THeap) (root key value : Int)
    (d fuel : Nat) (h2 : THeap) (root2 : Int)
    (hLM : 2 ≤ cfg.leafMax)
    (hnp0 : 0 ≤ h.nextPid)
    (hfOK : freshOK h)
    (hTree : root = INVALID_PAGE_ID ∨
      (ST cfg h d root none none ∧ parentOf h root = some INVALID_PAGE_ID ∧
        (subPids h d root).Nodup))
    (he : insertT cfg h root key value fuel = some (h2, root2, true)) :
    (∃ R2 D, FindsKVIn R2 h2 key value D root2) ∧ 0 ≤ root2 ∧
    (leafKeyFree h key → ∃ T, leafKeyOnlyAt h2 key T) := by
  rcases hTree with hroot | ⟨hst, hprt, hnd⟩
  · unfold insertT at he
    rw [if_pos hroot] at he
    unfold startNewTree at he
    simp only [] at he
    rw [newPg_snd] at he
    have h3e := Option.some.inj he
    have hh2 : updateRootPageId (unpinPg (newPg h (.leafN INVALID_PAGE_ID
        cfg.leafMax [(key, value)] INVALID_PAGE_ID)).1 h.nextPid true)
        h.nextPid 0 = h2 := congrArg Prod.fst h3e
    have hr2 : h.nextPid = root2 :=
      congrArg Prod.fst (congrArg Prod.snd h3e)
    subst hh2
    subst hr2
    have hpage : getPage (updateRootPageId (unpinPg (newPg h (.leafN
        INVALID_PAGE_ID cfg.leafMax [(key, value)] INVALID_PAGE_ID)).1
        h.nextPid true) h.nextPid 0) h.nextPid =
        some (.leafN INVALID_PAGE_ID cfg.leafMax [(key, value)]
          INVALID_PAGE_ID) := by
      rw [getPage_updateRoot, getPage_unpinPg, getPage_newPg_self]
    refine ⟨?_, hnp0, ?_⟩
    · exact ⟨[h.nextPid], 0, List.mem_cons_self _ _, _, _, _, _, hpage,
        by simp [leafLookup]⟩
    · intro hGKF
      refine ⟨h.nextPid, ?_, ?_⟩
      · intro p par max es nx hp hpT e hes
        rw [getPage_updateRoot, getPage_unpinPg,
          getPage_newPg_ne _ _ _ hpT] at hp
        exact hGKF p par max es nx hp e hes
      · intro par max es nx hp
        rw [hpage] at hp
        have h4 := Option.some.inj hp
        injection h4 with ha hb hc hd
        rw [← hc]
        simp
  · have hroot' : ¬ root = INVALID_PAGE_ID := by
      have := ST_alive cfg h d root none none hst
      unfold INVALID_PAGE_ID
      omega
    have hrb := ST_alive cfg h d root none none hst
    unfold insertT at he
    rw [if_neg hroot'] at he
    unfold insertIntoLeaf at he
    cases hfl : findLeafLoop h root key fuel with
    | none =>
        rw [hfl] at he
        simp at he
    | some res =>
        obtain ⟨h1, L, n⟩ := res
        obtain ⟨loL, hiL, AS2, par, es, nx, hneq, hgL, hsorted, hbound, hinL,
          hancL⟩ := descend_spec cfg key root hst [] ⟨trivial, trivial⟩ hnd
            (Anc.top hprt) (by simp) fuel h h1 L n ⟨rfl, rfl⟩ hfl
        subst hneq
        obtain ⟨-, -, hpg1, hnx1, hhr1⟩ :=
          findLeafLoop_out key fuel h root h1 L _ hfl
        have hgetEq : ∀ q, getPage h1 q = getPage h q := by
          intro q
          unfold getPage
          rw [hpg1]
        obtain ⟨hL0, hL1⟩ := anc_pid_bounds key h hancL hrb.2.1 hrb.2.2
        rw [hfl] at he
        simp only [] at he
        by_cases hdup : (leafLookup es key).isSome
        · rw [if_pos hdup] at he
          have := congrArg (fun x => x.2.2) (Option.some.inj he)
          simp at this
        · rw [if_neg hdup] at he
          have hfree : leafLookup es key = none :=
            Option.not_isSome_iff_eq_none.mp hdup
          have hfreeKeys : ∀ e ∈ es, ¬ e.1 = key :=
            (leafLookup_eq_none es key).mp hfree
          have hs1 : (leafInsert es key value).Pairwise
              (fun a b => a.1 < b.1) :=
            leafInsert_pairwise es key value hsorted hfreeKeys
          have hmem1 : (key, value) ∈ leafInsert es key value :=
            (leafInsert_mem es key value _).mpr (Or.inl rfl)
          have hlookup1 : leafLookup (leafInsert es key value) key =
              some value :=
            leafLookup_of_mem_pairwise _ key value hs1 hmem1
          have hinEs1 : ∀ e ∈ leafInsert es key value, inB loL hiL e.1 := by
            intro e hes
            rcases (leafInsert_mem es key value e).mp hes with hc | hc
            · rw [hc]
              exact hinL
            · exact hbound e hc
          have hcnt : ((leafInsert es key value).filter
              (fun e => e.1 = key)).length = 1 :=
            filter_leafInsert es key value hfreeKeys
          by_cases hsplit : (leafInsert es key value).length = cfg.leafMax
          · rw [if_pos hsplit] at he
            have hpageL0 : getPage (setPage h1 L (.leafN par cfg.leafMax (leafInsert es key value) nx)) L =
                some (.leafN par cfg.leafMax (leafInsert es key value) nx) :=
              getPage_setPage_self _ _ _
            rw [splitLeaf_eq cfg (setPage h1 L (.leafN par cfg.leafMax (leafInsert es key value) nx)) L par cfg.leafMax (leafInsert es key value) nx hpageL0] at he
            have hnxS : ((setPage h1 L (.leafN par cfg.leafMax (leafInsert es key value) nx))).nextPid = h.nextPid := by
              rw [nextPid_setPage, hnx1]
            rw [hnxS] at he
            simp only [] at he
            have hLnAS2 : ¬ L ∈ AS2 :=
              (List.nodup_cons.mp (anc_nodup key h hancL)).1
            have hpageN : getPage (setPage (setPage (newPg (setPage h1 L (.leafN par cfg.leafMax (leafInsert es key value) nx)) (.leafN INVALID_PAGE_ID cfg.leafMax [] INVALID_PAGE_ID)).1 h.nextPid (.leafN INVALID_PAGE_ID cfg.leafMax ((leafInsert es key value).drop ((leafInsert es key value).length / 2)) nx)) L (.leafN par cfg.leafMax ((leafInsert es key value).take ((leafInsert es key value).length / 2)) h.nextPid)) h.nextPid =
                some (.leafN INVALID_PAGE_ID cfg.leafMax
                  ((leafInsert es key value).drop ((leafInsert es key value).length / 2)) nx) := by
              rw [getPage_setPage_ne _ _ _ _ (show ¬ h.nextPid = L by omega),
                getPage_setPage_self]
            rw [hpageN] at he
            simp only [] at he
            cases hclimb : insertIntoParent cfg (setPage (setPage (newPg (setPage h1 L (.leafN par cfg.leafMax (leafInsert es key value) nx)) (.leafN INVALID_PAGE_ID cfg.leafMax [] INVALID_PAGE_ID)).1 h.nextPid (.leafN INVALID_PAGE_ID cfg.leafMax ((leafInsert es key value).drop ((leafInsert es key value).length / 2)) nx)) L (.leafN par cfg.leafMax ((leafInsert es key value).take ((leafInsert es key value).length / 2)) h.nextPid)) root L
                (keyAtL ((leafInsert es key value).drop ((leafInsert es key value).length / 2)) 0) h.nextPid fuel with
            | none =>
                rw [hclimb] at he
                simp at he
            | some pr =>
            obtain ⟨h4, root1⟩ := pr
            rw [hclimb] at he
            simp only [] at he
            have h3e := Option.some.inj he
            have hh2 : unpinPg h4 L true = h2 := congrArg Prod.fst h3e
            have hr2 : root1 = root2 :=
              congrArg Prod.fst (congrArg Prod.snd h3e)
            subst hh2
            subst hr2
            have hnx3 : ((setPage (setPage (newPg (setPage h1 L (.leafN par cfg.leafMax (leafInsert es key value) nx)) (.leafN INVALID_PAGE_ID cfg.leafMax [] INVALID_PAGE_ID)).1 h.nextPid (.leafN INVALID_PAGE_ID cfg.leafMax ((leafInsert es key value).drop ((leafInsert es key value).length / 2)) nx)) L (.leafN par cfg.leafMax ((leafInsert es key value).take ((leafInsert es key value).length / 2)) h.nextPid))).nextPid = h.nextPid + 1 := by
              rw [nextPid_setPage, nextPid_setPage, nextPid_newPg,
                nextPid_setPage, hnx1]
            have hhalfge : 1 ≤ ((leafInsert es key value).length / 2) := by
              rw [hsplit]
              omega
            have hhalflt : ((leafInsert es key value).length / 2) < (leafInsert es key value).length := by
              omega
            have hsep2eq : keyAtL ((leafInsert es key value).drop ((leafInsert es key value).length / 2)) 0 = keyAtL (leafInsert es key value) ((leafInsert es key value).length / 2) := by
              rw [keyAtL_drop]
              congr 1
            have hpage3L : getPage (setPage (setPage (newPg (setPage h1 L (.leafN par cfg.leafMax (leafInsert es key value) nx)) (.leafN INVALID_PAGE_ID cfg.leafMax [] INVALID_PAGE_ID)).1 h.nextPid (.leafN INVALID_PAGE_ID cfg.leafMax ((leafInsert es key value).drop ((leafInsert es key value).length / 2)) nx)) L (.leafN par cfg.leafMax ((leafInsert es key value).take ((leafInsert es key value).length / 2)) h.nextPid)) L = some (.leafN par cfg.leafMax
                ((leafInsert es key value).take ((leafInsert es key value).length / 2)) h.nextPid) := getPage_setPage_self _ _ _
            have halive3 : ∀ q, (getPage h q).isSome →
                (getPage (setPage (setPage (newPg (setPage h1 L (.leafN par cfg.leafMax (leafInsert es key value) nx)) (.leafN INVALID_PAGE_ID cfg.leafMax [] INVALID_PAGE_ID)).1 h.nextPid (.leafN INVALID_PAGE_ID cfg.leafMax ((leafInsert es key value).drop ((leafInsert es key value).length / 2)) nx)) L (.leafN par cfg.leafMax ((leafInsert es key value).take ((leafInsert es key value).length / 2)) h.nextPid)) q).isSome := by
              intro q hq
              by_cases hqL : q = L
              · rw [hqL, hpage3L]
                rfl
              · by_cases hqX : q = h.nextPid
                · rw [hqX, hpageN]
                  rfl
                · rw [getPage_setPage_ne _ _ _ _ hqL,
                    getPage_setPage_ne _ _ _ _ hqX,
                    getPage_newPg_ne _ _ _ (by rw [nextPid_setPage, hnx1]; exact hqX),
                    getPage_setPage_ne _ _ _ _ hqL, hgetEq]
                  exact hq
            have hanc3 : Anc key (setPage (setPage (newPg (setPage h1 L (.leafN par cfg.leafMax (leafInsert es key value) nx)) (.leafN INVALID_PAGE_ID cfg.leafMax [] INVALID_PAGE_ID)).1 h.nextPid (.leafN INVALID_PAGE_ID cfg.leafMax ((leafInsert es key value).drop ((leafInsert es key value).length / 2)) nx)) L (.leafN par cfg.leafMax ((leafInsert es key value).take ((leafInsert es key value).length / 2)) h.nextPid)) L loL hiL root AS2 := by
              refine Anc_frame key h (setPage (setPage (newPg (setPage h1 L (.leafN par cfg.leafMax (leafInsert es key value) nx)) (.leafN INVALID_PAGE_ID cfg.leafMax [] INVALID_PAGE_ID)).1 h.nextPid (.leafN INVALID_PAGE_ID cfg.leafMax ((leafInsert es key value).drop ((leafInsert es key value).length / 2)) nx)) L (.leafN par cfg.leafMax ((leafInsert es key value).take ((leafInsert es key value).length / 2)) h.nextPid)) halive3 (by omega) hancL ?_ ?_
              · intro a ha
                have haL : ¬ a = L := fun hc => hLnAS2 (hc ▸ ha)
                have haX : ¬ a = h.nextPid := by
                  have := anc_mem_bounds key h hancL a ha
                  omega
                rw [getPage_setPage_ne _ _ _ _ haL,
                  getPage_setPage_ne _ _ _ _ haX,
                  getPage_newPg_ne _ _ _ (by rw [nextPid_setPage, hnx1]; exact haX),
                  getPage_setPage_ne _ _ _ _ haL, hgetEq]
              · unfold parentOf
                rw [hpage3L, hgL]
                rfl
            have hsepStrict : keyStrictIn loL hiL
                (keyAtL ((leafInsert es key value).drop ((leafInsert es key value).length / 2)) 0) := by
              constructor
              · intro l hl
                have hk0mem : (leafInsert es key value).getD 0 (0, 0) ∈ (leafInsert es key value) :=
                  getD_mem_of_lt _ 0 (by omega)
                have hk0in := (hinEs1 _ hk0mem).1
                rw [hl] at hk0in
                simp only [okLo] at hk0in
                have hlt : ((leafInsert es key value).getD 0 (0, 0)).1 <
                    ((leafInsert es key value).getD ((leafInsert es key value).length / 2) (0, 0)).1 :=
                  pairwise_key_lt_of_pos (leafInsert es key value) 0 ((leafInsert es key value).length / 2) hs1 (by omega) (by omega)
                rw [hsep2eq]
                unfold keyAtL
                omega
              · intro u hu
                have hsmem : (leafInsert es key value).getD ((leafInsert es key value).length / 2) (0, 0) ∈ (leafInsert es key value) :=
                  getD_mem_of_lt _ _ (by omega)
                have hsin := (hinEs1 _ hsmem).2
                rw [hu] at hsin
                simp only [okHi] at hsin
                rw [hsep2eq]
                unfold keyAtL
                omega
            have hbase3 : FindsKVIn [L, h.nextPid] (setPage (setPage (newPg (setPage h1 L (.leafN par cfg.leafMax (leafInsert es key value) nx)) (.leafN INVALID_PAGE_ID cfg.leafMax [] INVALID_PAGE_ID)).1 h.nextPid (.leafN INVALID_PAGE_ID cfg.leafMax ((leafInsert es key value).drop ((leafInsert es key value).length / 2)) nx)) L (.leafN par cfg.leafMax ((leafInsert es key value).take ((leafInsert es key value).length / 2)) h.nextPid)) key value 0
                (if key < keyAtL ((leafInsert es key value).drop ((leafInsert es key value).length / 2)) 0 then L
                 else h.nextPid) := by
              rw [hsep2eq]
              by_cases hklt : key < keyAtL (leafInsert es key value) ((leafInsert es key value).length / 2)
              · rw [if_pos hklt]
                refine ⟨List.mem_cons_self _ _, _, _, _, _, hpage3L, ?_⟩
                refine leafLookup_of_mem_pairwise _ key value
                  (List.Pairwise.sublist (List.take_sublist _ _) hs1) ?_
                refine mem_take_of_lt_sep (leafInsert es key value) ((leafInsert es key value).length / 2) key value hs1
                  (by omega) ?_ hmem1
                unfold keyAtL at hklt
                exact hklt
              · rw [if_neg hklt]
                refine ⟨List.mem_cons_of_mem _ (List.mem_cons_self _ _),
                  _, _, _, _, hpageN, ?_⟩
                refine leafLookup_of_mem_pairwise _ key value
                  (List.Pairwise.sublist (List.drop_sublist _ _) hs1) ?_
                refine mem_drop_of_ge_sep (leafInsert es key value) ((leafInsert es key value).length / 2) key value hs1
                  (by omega) ?_ hmem1
                unfold keyAtL at hklt
                omega
            have hfOK3 : freshOK (setPage (setPage (newPg (setPage h1 L (.leafN par cfg.leafMax (leafInsert es key value) nx)) (.leafN INVALID_PAGE_ID cfg.leafMax [] INVALID_PAGE_ID)).1 h.nextPid (.leafN INVALID_PAGE_ID cfg.leafMax ((leafInsert es key value).drop ((leafInsert es key value).length / 2)) nx)) L (.leafN par cfg.leafMax ((leafInsert es key value).take ((leafInsert es key value).length / 2)) h.nextPid)) := by
              intro q hq
              rw [hnx3] at hq
              rw [getPage_setPage_ne _ _ _ _ (show ¬ q = L by omega),
                getPage_setPage_ne _ _ _ _ (show ¬ q = h.nextPid by omega),
                getPage_newPg_ne _ _ _ (by rw [nextPid_setPage, hnx1]; omega),
                getPage_setPage_ne _ _ _ _ (show ¬ q = L by omega), hgetEq]
              exact hfOK q (by omega)
            obtain ⟨R2, D, hf4, hr40⟩ := insertIntoParent_spec cfg key value fuel
              (setPage (setPage (newPg (setPage h1 L (.leafN par cfg.leafMax (leafInsert es key value) nx)) (.leafN INVALID_PAGE_ID cfg.leafMax [] INVALID_PAGE_ID)).1 h.nextPid (.leafN INVALID_PAGE_ID cfg.leafMax ((leafInsert es key value).drop ((leafInsert es key value).length / 2)) nx)) L (.leafN par cfg.leafMax ((leafInsert es key value).take ((leafInsert es key value).length / 2)) h.nextPid)) root L h.nextPid (keyAtL ((leafInsert es key value).drop ((leafInsert es key value).length / 2)) 0) loL hiL AS2
              [L, h.nextPid] 0 h4 root1 hanc3 hrb.2.1 hsepStrict hinL hbase3
              hfOK3
              (by rw [hpageN]; rfl)
              (by omega) (by omega)
              (fun hc => by have := anc_mem_bounds key h hancL _ hc; omega)
              (by omega) hL0 (by omega)
              (fun a ha hc => by
                rcases List.mem_cons.mp hc with hc1 | hc1
                · exact hLnAS2 (hc1 ▸ ha)
                · rcases List.mem_cons.mp hc1 with hc2 | hc2
                  · have := anc_mem_bounds key h hancL a ha
                    omega
                  · simp at hc2)
              (fun q hq => by
                rcases List.mem_cons.mp hq with hc | hc
                · omega
                · rcases List.mem_cons.mp hc with hc2 | hc2
                  · omega
                  · simp at hc2)
              hclimb
            refine ⟨?_, hr40, ?_⟩
            · refine ⟨R2, D, ?_⟩
              refine FindsKVIn_frame R2 h4 _ key value ?_ D root1 hf4
              intro q hq n0 hn
              exact Or.inl (by rw [getPage_unpinPg]; exact hn)
            · intro hGKF
              have h5 : (leafInsert es key value).filter (fun e => e.1 = key) =
                  ((leafInsert es key value).take ((leafInsert es key value).length / 2) ++ (leafInsert es key value).drop ((leafInsert es key value).length / 2)).filter
                    (fun e => e.1 = key) := by
                rw [List.take_append_drop]
              have h6 := congrArg List.length h5
              rw [List.filter_append, List.length_append, hcnt] at h6
              have hKOA3 : ∃ T, leafKeyOnlyAt (setPage (setPage (newPg (setPage h1 L (.leafN par cfg.leafMax (leafInsert es key value) nx)) (.leafN INVALID_PAGE_ID cfg.leafMax [] INVALID_PAGE_ID)).1 h.nextPid (.leafN INVALID_PAGE_ID cfg.leafMax ((leafInsert es key value).drop ((leafInsert es key value).length / 2)) nx)) L (.leafN par cfg.leafMax ((leafInsert es key value).take ((leafInsert es key value).length / 2)) h.nextPid)) key T := by
                by_cases hTk : (((leafInsert es key value).take ((leafInsert es key value).length / 2)).filter
                    (fun e => e.1 = key)).length = 0
                · have htake0 : ∀ e ∈ (leafInsert es key value).take ((leafInsert es key value).length / 2), ¬ e.1 = key := by
                    intro e hesq
                    have hnil := List.length_eq_zero.mp hTk
                    have := List.filter_eq_nil_iff.mp hnil e hesq
                    simpa using this
                  refine ⟨h.nextPid, ?_, ?_⟩
                  · intro p par' max' es' nx' hp hpT e hes
                    by_cases hpL : p = L
                    · rw [hpL, hpage3L] at hp
                      have h7 := Option.some.inj hp
                      injection h7 with ha hb hc hd
                      rw [← hc] at hes
                      exact htake0 e hes
                    · rw [getPage_setPage_ne _ _ _ _ hpL,
                        getPage_setPage_ne _ _ _ _ hpT,
                        getPage_newPg_ne _ _ _
                          (by rw [nextPid_setPage, hnx1]; exact hpT),
                        getPage_setPage_ne _ _ _ _ hpL, hgetEq] at hp
                      exact hGKF p par' max' es' nx' hp e hes
                  · intro par' max' es' nx' hp
                    rw [hpageN] at hp
                    have h7 := Option.some.inj hp
                    injection h7 with ha hb hc hd
                    rw [← hc]
                    omega
                · have hdrop0 : (((leafInsert es key value).drop ((leafInsert es key value).length / 2)).filter
                      (fun e => e.1 = key)).length = 0 := by omega
                  have hdropfree : ∀ e ∈ (leafInsert es key value).drop ((leafInsert es key value).length / 2), ¬ e.1 = key := by
                    intro e hesq
                    have hnil := List.length_eq_zero.mp hdrop0
                    have := List.filter_eq_nil_iff.mp hnil e hesq
                    simpa using this
                  refine ⟨L, ?_, ?_⟩
                  · intro p par' max' es' nx' hp hpT e hes
                    by_cases hpX : p = h.nextPid
                    · rw [hpX, hpageN] at hp
                      have h7 := Option.some.inj hp
                      injection h7 with ha hb hc hd
                      rw [← hc] at hes
                      exact hdropfree e hes
                    · rw [getPage_setPage_ne _ _ _ _ hpT,
                        getPage_setPage_ne _ _ _ _ hpX,
                        getPage_newPg_ne _ _ _
                          (by rw [nextPid_setPage, hnx1]; exact hpX),
                        getPage_setPage_ne _ _ _ _ hpT, hgetEq] at hp
                      exact hGKF p par' max' es' nx' hp e hes
                  · intro par' max' es' nx' hp
                    rw [hpage3L] at hp
                    have h7 := Option.some.inj hp
                    injection h7 with ha hb hc hd
                    rw [← hc]
                    omega
              obtain ⟨T, hT⟩ := hKOA3
              have hlp4 := insertIntoParent_leafPreserve cfg fuel (setPage (setPage (newPg (setPage h1 L (.leafN par cfg.leafMax (leafInsert es key value) nx)) (.leafN INVALID_PAGE_ID cfg.leafMax [] INVALID_PAGE_ID)).1 h.nextPid (.leafN INVALID_PAGE_ID cfg.leafMax ((leafInsert es key value).drop ((leafInsert es key value).length / 2)) nx)) L (.leafN par cfg.leafMax ((leafInsert es key value).take ((leafInsert es key value).length / 2)) h.nextPid)) root L
                (keyAtL ((leafInsert es key value).drop ((leafInsert es key value).length / 2)) 0) h.nextPid h4 root1 hclimb
              have hlp2 : leafPreserve (setPage (setPage (newPg (setPage h1 L (.leafN par cfg.leafMax (leafInsert es key value) nx)) (.leafN INVALID_PAGE_ID cfg.leafMax [] INVALID_PAGE_ID)).1 h.nextPid (.leafN INVALID_PAGE_ID cfg.leafMax ((leafInsert es key value).drop ((leafInsert es key value).length / 2)) nx)) L (.leafN par cfg.leafMax ((leafInsert es key value).take ((leafInsert es key value).length / 2)) h.nextPid)) (unpinPg h4 L true) :=
                leafPreserve_trans (setPage (setPage (newPg (setPage h1 L (.leafN par cfg.leafMax (leafInsert es key value) nx)) (.leafN INVALID_PAGE_ID cfg.leafMax [] INVALID_PAGE_ID)).1 h.nextPid (.leafN INVALID_PAGE_ID cfg.leafMax ((leafInsert es key value).drop ((leafInsert es key value).length / 2)) nx)) L (.leafN par cfg.leafMax ((leafInsert es key value).take ((leafInsert es key value).length / 2)) h.nextPid)) h4 _ hlp4
                  (leafPreserve_pagesId _ _ (fun q => getPage_unpinPg _ _ _ _))
              exact ⟨T, leafKeyOnlyAt_of_leafPreserve (setPage (setPage (newPg (setPage h1 L (.leafN par cfg.leafMax (leafInsert es key value) nx)) (.leafN INVALID_PAGE_ID cfg.leafMax [] INVALID_PAGE_ID)).1 h.nextPid (.leafN INVALID_PAGE_ID cfg.leafMax ((leafInsert es key value).drop ((leafInsert es key value).length / 2)) nx)) L (.leafN par cfg.leafMax ((leafInsert es key value).take ((leafInsert es key value).length / 2)) h.nextPid)) _ key T hlp2 hT⟩
          · rw [if_neg hsplit] at he
            have h3e := Option.some.inj he
            have hh2 : unpinPg (setPage h1 L (.leafN par cfg.leafMax
                (leafInsert es key value) nx)) L true = h2 :=
              congrArg Prod.fst h3e
            have hr2 : root = root2 :=
              congrArg Prod.fst (congrArg Prod.snd h3e)
            subst hh2
            subst hr2
            have hLnAS2 : ¬ L ∈ AS2 :=
              (List.nodup_cons.mp (anc_nodup key h hancL)).1
            have hpageL : getPage (unpinPg (setPage h1 L (.leafN par
                cfg.leafMax (leafInsert es key value) nx)) L true) L =
                some (.leafN par cfg.leafMax (leafInsert es key value) nx) := by
              rw [getPage_unpinPg, getPage_setPage_self]
            have hbase : FindsKVIn (L :: AS2) (unpinPg (setPage h1 L (.leafN
                par cfg.leafMax (leafInsert es key value) nx)) L true)
                key value 0 L :=
              ⟨List.mem_cons_self _ _, _, _, _, _, hpageL, hlookup1⟩
            have hancH2 : Anc key (unpinPg (setPage h1 L (.leafN par
                cfg.leafMax (leafInsert es key value) nx)) L true)
                L loL hiL root AS2 := by
              refine Anc_frame key h _ ?_ (by
                rw [nextPid_unpinPg, nextPid_setPage, hnx1]) hancL ?_ ?_
              · intro q hq
                rw [getPage_unpinPg]
                by_cases hqL : q = L
                · rw [hqL, getPage_setPage_self]
                  rfl
                · rw [getPage_setPage_ne _ _ _ _ hqL, hgetEq]
                  exact hq
              · intro a ha
                have haL : ¬ a = L := fun hc => hLnAS2 (hc ▸ ha)
                rw [getPage_unpinPg, getPage_setPage_ne _ _ _ _ haL, hgetEq]
              · unfold parentOf
                rw [hpageL, hgL]
                rfl
            obtain ⟨D, hD⟩ := anc_route (L :: AS2) key value _ hancH2
              (fun a ha => List.mem_cons_of_mem _ ha) 0 hinL hbase
            refine ⟨⟨L :: AS2, D, hD⟩, hrb.2.1, ?_⟩
            intro hGKF
            refine ⟨L, ?_, ?_⟩
            · intro p par' max' es' nx' hp hpT e hes
              rw [getPage_unpinPg, getPage_setPage_ne _ _ _ _ hpT,
                hgetEq] at hp
              exact hGKF p par' max' es' nx' hp e hes
            · intro par' max' es' nx' hp
              rw [hpageL] at hp
              have h4 := Option.some.inj hp
              injection h4 with ha hb hc hd
              rw [← hc]
              omega

/-! ### Key-freedom is preserved by the delete helpers -/

theorem GKF_pagesId (h h' : THeap) (key : Int)
    (hpg : ∀ q, getPage h' q = getPage h q)
    (hk : leafKeyFree h key) : leafKeyFree h' key := by
  intro p par max es nx hp
  rw [hpg] at hp
  exact hk p par max es nx hp

theorem GKF_setPage_internal (h : THeap) (key p a : Int) (b : Nat)
    (c : List (Int × Int)) (hk : leafKeyFree h key) :
    leafKeyFree (setPage h p (.internalN a b c)) key := by
  intro q par max es nx hp
  by_cases hq : q = p
  · rw [hq, getPage_setPage_self] at hp
    cases hp
  · rw [getPage_setPage_ne _ _ _ _ hq] at hp
    exact hk q par max es nx hp

theorem GKF_setPage_leaf (h : THeap) (key p a : Int) (b : Nat)
    (es2 : List (Int × Int)) (c : Int) (hk : leafKeyFree h key)
    (hes : ∀ e ∈ es2, ¬ e.1 = key) :
    leafKeyFree (setPage h p (.leafN a b es2 c)) key := by
  intro q par max es nx hp
  by_cases hq : q = p
  · rw [hq, getPage_setPage_self] at hp
    have h2 := Option.some.inj hp
    injection h2 with ha hb hc hd
    rw [← hc]
    exact hes
  · rw [getPage_setPage_ne _ _ _ _ hq] at hp
    exact hk q par max es nx hp

theorem GKF_setParent (h : THeap) (key p x : Int) (n : BNode)
    (hn : getPage h p = some n) (hk : leafKeyFree h key) :
    leafKeyFree (setPage h p (n.setParent x)) key := by
  intro q par max es nx hp
  by_cases hq : q = p
  · rw [hq, getPage_setPage_self] at hp
    cases n with
    | leafN par1 max1 es1 nx1 =>
        have h2 : BNode.leafN x max1 es1 nx1 = BNode.leafN par max es nx :=
          Option.some.inj hp
        injection h2 with ha hb hc hd
        rw [← hc]
        exact hk p par1 max1 es1 nx1 (hq ▸ hn)
    | internalN par1 max1 es1 =>
        cases Option.some.inj hp
  · rw [getPage_setPage_ne _ _ _ _ hq] at hp
    exact hk q par max es nx hp

theorem GKF_read (h : THeap) (key p par : Int) (max : Nat)
    (es : List (Int × Int)) (nx : Int) (hk : leafKeyFree h key)
    (hp : getPage h p = some (.leafN par max es nx)) :
    ∀ e ∈ es, ¬ e.1 = key := hk p par max es nx hp

theorem GKF_adoptAll (key : Int) : ∀ (pids : List Int) (h : THeap) (par : Int)
    (h' : THeap), adoptAll h pids par = some h' →
    leafKeyFree h key → leafKeyFree h' key := by
  intro pids
  induction pids with
  | nil =>
      intro h par h' he hk
      have : h = h' := Option.some.inj he
      exact this ▸ hk
  | cons p t ih =>
      intro h par h' he hk
      unfold adoptAll at he
      cases hg : getPage h p with
      | none =>
          unfold fetchPg at he
          rw [hg] at he
          simp at he
      | some n =>
          rw [fetchPg_some h p n hg] at he
          simp only [] at he
          refine ih _ _ _ he ?_
          have hstep1 : leafKeyFree (pinBump h p) key :=
            GKF_pagesId _ _ key (fun q => getPage_pinBump _ _ _) hk
          have hstep2 : leafKeyFree (setPage (pinBump h p) p
              (n.setParent par)) key :=
            GKF_setParent _ key p par n
              (by rw [getPage_pinBump]; exact hg) hstep1
          exact GKF_pagesId _ _ key
            (fun q => getPage_unpinPg _ _ _ _) hstep2

theorem GKF_adjustRoot (h : THeap) (key root pid : Int) (changed : Bool)
    (h1 : THeap) (root1 : Int)
    (he : adjustRoot h root pid = some (changed, h1, root1))
    (hk : leafKeyFree h key) : leafKeyFree h1 key := by
  unfold adjustRoot at he
  cases hg : getPage h pid with
  | none =>
      rw [hg] at he
      simp at he
  | some n =>
      rw [hg] at he
      cases n with
      | leafN a b c dd =>
          simp only [] at he
          have : h = h1 :=
            congrArg (fun x => x.2.1) (Option.some.inj he)
          exact this ▸ hk
      | internalN a b es =>
          simp only [] at he
          by_cases hlen : es.length = 1
          · rw [if_pos hlen] at he
            cases hg2 : getPage h (valueAtL es 0) with
            | none =>
                unfold fetchPg at he
                rw [hg2] at he
                simp at he
            | some nn =>
                rw [fetchPg_some h _ _ hg2] at he
                simp only [] at he
                have hh1 : unpinPg (updateRootPageId (setPage (pinBump h
                    (valueAtL es 0)) (valueAtL es 0)
                    (nn.setParent INVALID_PAGE_ID)) (valueAtL es 0) 0)
                    (valueAtL es 0) true = h1 :=
                  congrArg (fun x => x.2.1) (Option.some.inj he)
                rw [← hh1]
                have hstep1 : leafKeyFree (pinBump h (valueAtL es 0)) key :=
                  GKF_pagesId _ _ key (fun q => getPage_pinBump _ _ _) hk
                have hstep2 : leafKeyFree (setPage (pinBump h (valueAtL es 0))
                    (valueAtL es 0) (nn.setParent INVALID_PAGE_ID)) key :=
                  GKF_setParent _ key _ _ nn
                    (by rw [getPage_pinBump]; exact hg2) hstep1
                exact GKF_pagesId _ _ key (fun q => by
                  rw [getPage_unpinPg, getPage_updateRoot]) hstep2
          · rw [if_neg hlen] at he
            have : h = h1 :=
              congrArg (fun x => x.2.1) (Option.some.inj he)
            exact this ▸ hk

theorem findLeftSibling_pages (h : THeap) (pid : Int) (h1 : THeap)
    (s : Option Int) (he : findLeftSibling h pid = some (h1, s)) :
    ∀ q, getPage h1 q = getPage h q := by
  unfold findLeftSibling at he
  cases hg : getPage h pid with
  | none =>
      rw [hg] at he
      simp at he
  | some n =>
      rw [hg] at he
      simp only [] at he
      by_cases hpar : n.parentPageId = INVALID_PAGE_ID
      · rw [if_pos hpar] at he
        have : h = h1 := congrArg Prod.fst (Option.some.inj he)
        rw [← this]
        intro q
        rfl
      · rw [if_neg hpar] at he
        cases hg2 : getPage h n.parentPageId with
        | none =>
            unfold fetchPg at he
            rw [hg2] at he
            simp at he
        | some pn =>
            rw [fetchPg_some h _ _ hg2] at he
            cases pn with
            | leafN a b c dd => simp at he
            | internalN a b pes =>
                simp only [] at he
                by_cases hidx : valueIndexL pes pid = 0
                · rw [if_pos hidx] at he
                  have : pinBump h n.parentPageId = h1 :=
                    congrArg Prod.fst (Option.some.inj he)
                  rw [← this]
                  intro q
                  exact getPage_pinBump _ _ _
                · rw [if_neg hidx] at he
                  by_cases hneg : valueIndexL pes pid < 0
                  · rw [if_pos hneg] at he
                    simp at he
                  · rw [if_neg hneg] at he
                    cases hg3 : getPage (pinBump h n.parentPageId)
                        (valueAtL pes ((valueIndexL pes pid).toNat - 1)) with
                    | none =>
                        unfold fetchPg at he
                        rw [hg3] at he
                        simp at he
                    | some sn =>
                        rw [fetchPg_some _ _ _ hg3] at he
                        simp only [] at he
                        have : unpinPg (pinBump (pinBump h n.parentPageId)
                            (valueAtL pes ((valueIndexL pes pid).toNat - 1)))
                            n.parentPageId false = h1 :=
                          congrArg Prod.fst (Option.some.inj he)
                        rw [← this]
                        intro q
                        rw [getPage_unpinPg, getPage_pinBump, getPage_pinBump]


theorem findRightSiblingLeaf_pages (h : THeap) (pid : Int) (h1 : THeap)
    (s : Option Int) (he : findRightSiblingLeaf h pid = some (h1, s)) :
    ∀ q, getPage h1 q = getPage h q := by
  unfold findRightSiblingLeaf at he
  cases hg : getPage h pid with
  | none =>
      rw [hg] at he
      simp at he
  | some n =>
      rw [hg] at he
      cases n with
      | internalN a b c => simp at he
      | leafN a b c nx =>
          simp only [] at he
          by_cases hnx : nx = INVALID_PAGE_ID
          · rw [if_pos hnx] at he
            have : h = h1 := congrArg Prod.fst (Option.some.inj he)
            rw [← this]
            intro q
            rfl
          · rw [if_neg hnx] at he
            cases hg2 : getPage h nx with
            | none =>
                unfold fetchPg at he
                rw [hg2] at he
                simp at he
            | some sn =>
                rw [fetchPg_some h _ _ hg2] at he
                simp only [] at he
                have : pinBump h nx = h1 :=
                  congrArg Prod.fst (Option.some.inj he)
                rw [← this]
                intro q
                exact getPage_pinBump _ _ _

theorem findRightSiblingInternal_pages (h : THeap) (pid : Int) (h1 : THeap)
    (s : Option Int) (he : findRightSiblingInternal h pid = some (h1, s)) :
    ∀ q, getPage h1 q = getPage h q := by
  unfold findRightSiblingInternal at he
  cases hg : getPage h pid with
  | none =>
      rw [hg] at he
      simp at he
  | some n =>
      rw [hg] at he
      cases n with
      | leafN a b c dd => simp at he
      | internalN par b nes =>
          simp only [] at he
          by_cases hpar : par = INVALID_PAGE_ID
          · rw [if_pos hpar] at he
            have : h = h1 := congrArg Prod.fst (Option.some.inj he)
            rw [← this]
            intro q
            rfl
          · rw [if_neg hpar] at he
            cases hg2 : getPage h par with
            | none =>
                unfold fetchPg at he
                rw [hg2] at he
                simp at he
            | some pn =>
                rw [fetchPg_some h _ _ hg2] at he
                cases pn with
                | leafN a2 b2 c2 d2 => simp at he
                | internalN a2 b2 pes =>
                    simp only [] at he
                    by_cases hidx : valueIndexL pes pid = (nes.length : Int) - 1
                    · rw [if_pos hidx] at he
                      have : pinBump h par = h1 :=
                        congrArg Prod.fst (Option.some.inj he)
                      rw [← this]
                      intro q
                      exact getPage_pinBump _ _ _
                    · rw [if_neg hidx] at he
                      by_cases hneg : valueIndexL pes pid < 0
                      · rw [if_pos hneg] at he
                        simp at he
                      · rw [if_neg hneg] at he
                        cases hg3 : getPage (pinBump h par)
                            (valueAtL pes ((valueIndexL pes pid).toNat + 1)) with
                        | none =>
                            unfold fetchPg at he
                            rw [hg3] at he
                            simp at he
                        | some sn =>
                            rw [fetchPg_some _ _ _ hg3] at he
                            simp only [] at he
                            have : unpinPg (pinBump (pinBump h par)
                                (valueAtL pes ((valueIndexL pes pid).toNat + 1)))
                                par false = h1 :=
                              congrArg Prod.fst (Option.some.inj he)
                            rw [← this]
                            intro q
                            rw [getPage_unpinPg, getPage_pinBump,
                              getPage_pinBump]

theorem GKF_redistributeLeaf (h : THeap) (key nodePid sibPid parentPid : Int)
    (dire : Nat) (h3 : THeap)
    (he : redistributeLeaf h nodePid sibPid parentPid dire = some h3)
    (hk : leafKeyFree h key) : leafKeyFree h3 key := by
  unfold redistributeLeaf at he
  cases hgn : getPage h nodePid with
  | none =>
      rw [hgn] at he
      simp at he
  | some n =>
      rw [hgn] at he
      cases hgs : getPage h sibPid with
      | none =>
          rw [hgs] at he
          cases n <;> simp at he
      | some sn =>
          rw [hgs] at he
          cases hgp : getPage h parentPid with
          | none =>
              rw [hgp] at he
              cases n <;> cases sn <;> simp at he
          | some pn =>
              rw [hgp] at he
              cases n with
              | internalN a b c => simp at he
              | leafN npar nmax nes nnx =>
                cases sn with
                | internalN a b c => simp at he
                | leafN spar smax ses snx =>
                  cases pn with
                  | leafN a b c dd => simp at he
                  | internalN ppar pmax pes =>
                    simp only [] at he
                    have hnfree : ∀ e ∈ nes, ¬ e.1 = key :=
                      GKF_read h key nodePid npar nmax nes nnx hk hgn
                    have hsfree : ∀ e ∈ ses, ¬ e.1 = key :=
                      GKF_read h key sibPid spar smax ses snx hk hgs
                    by_cases hdire : dire = 0
                    · rw [if_pos hdire] at he
                      cases hlast : ses.getLast? with
                      | none =>
                          rw [hlast] at he
                          simp at he
                      | some e =>
                          rw [hlast] at he
                          simp only [] at he
                          by_cases hidx : valueIndexL pes nodePid < 0
                          · rw [if_pos hidx] at he
                            simp at he
                          · rw [if_neg hidx] at he
                            have hh3 := Option.some.inj he
                            rw [← hh3]
                            have hemem : e ∈ ses :=
                              List.mem_of_mem_getLast? hlast
                            have hs1 : leafKeyFree (setPage h sibPid
                                (.leafN spar smax ses.dropLast snx)) key :=
                              GKF_setPage_leaf h key sibPid spar smax _ snx hk
                                (fun e2 he2 => hsfree e2
                                  (List.dropLast_subset _ he2))
                            have hs2 : leafKeyFree (setPage (setPage h sibPid
                                (.leafN spar smax ses.dropLast snx)) nodePid
                                (.leafN npar nmax (e :: nes) nnx)) key :=
                              GKF_setPage_leaf _ key nodePid npar nmax _ nnx hs1
                                (by
                                  intro e2 he2
                                  rcases List.mem_cons.mp he2 with hc | hc
                                  · exact hc ▸ hsfree e hemem
                                  · exact hnfree e2 hc)
                            exact GKF_setPage_internal _ key parentPid ppar
                              pmax _ hs2
                    · rw [if_neg hdire] at he
                      cases hses : ses with
                      | nil =>
                          rw [hses] at he
                          simp at he
                      | cons e st =>
                          rw [hses] at he
                          simp only [] at he
                          by_cases hidx : valueIndexL pes sibPid < 0
                          · rw [if_pos hidx] at he
                            simp at he
                          · rw [if_neg hidx] at he
                            have hh3 := Option.some.inj he
                            rw [← hh3]
                            have hsfree2 : ∀ e2 ∈ e :: st, ¬ e2.1 = key :=
                              hses ▸ hsfree
                            have hs1 : leafKeyFree (setPage h sibPid
                                (.leafN spar smax st snx)) key :=
                              GKF_setPage_leaf h key sibPid spar smax _ snx hk
                                (fun e2 he2 => hsfree2 e2
                                  (List.mem_cons_of_mem _ he2))
                            have hs2 : leafKeyFree (setPage (setPage h sibPid
                                (.leafN spar smax st snx)) nodePid
                                (.leafN npar nmax (nes ++ [e]) nnx)) key :=
                              GKF_setPage_leaf _ key nodePid npar nmax _ nnx hs1
                                (by
                                  intro e2 he2
                                  rcases List.mem_append.mp he2 with hc | hc
                                  · exact hnfree e2 hc
                                  · rw [List.mem_singleton.mp hc]
                                    exact hsfree2 e (List.mem_cons_self _ _))
                            exact GKF_setPage_internal _ key parentPid ppar
                              pmax _ hs2


theorem GKF_redistributeInternal (h : THeap)
    (key nodePid sibPid parentPid middleKey : Int) (dire : Nat) (h3 : THeap)
    (he : redistributeInternal h nodePid sibPid parentPid middleKey dire =
      some h3)
    (hk : leafKeyFree h key) : leafKeyFree h3 key := by
  unfold redistributeInternal at he
  cases hgs : getPage h sibPid with
  | none =>
      rw [hgs] at he
      simp at he
  | some sn =>
      rw [hgs] at he
      cases sn with
      | leafN a b c dd => simp at he
      | internalN spar smax ses =>
        simp only [] at he
        by_cases hdire : dire = 0
        · rw [if_pos hdire] at he
          cases hlast : ses.getLast? with
          | none =>
              rw [hlast] at he
              simp at he
          | some pair =>
              rw [hlast] at he
              simp only [] at he
              cases hgc : getPage h pair.2 with
              | none =>
                  unfold fetchPg at he
                  rw [hgc] at he
                  simp at he
              | some cn =>
                  rw [fetchPg_some h _ _ hgc] at he
                  simp only [] at he
                  have hk1 : leafKeyFree (unpinPg (setPage (pinBump h pair.2)
                      pair.2 (cn.setParent nodePid)) pair.2 true) key := by
                    have hs1 : leafKeyFree (pinBump h pair.2) key :=
                      GKF_pagesId _ _ key (fun q => getPage_pinBump _ _ _) hk
                    have hs2 : leafKeyFree (setPage (pinBump h pair.2) pair.2
                        (cn.setParent nodePid)) key :=
                      GKF_setParent _ key pair.2 nodePid cn
                        (by rw [getPage_pinBump]; exact hgc) hs1
                    exact GKF_pagesId _ _ key
                      (fun q => getPage_unpinPg _ _ _ _) hs2
                  cases hgn : getPage (unpinPg (setPage (pinBump h pair.2)
                      pair.2 (cn.setParent nodePid)) pair.2 true) nodePid with
                  | none =>
                      rw [hgn] at he
                      simp at he
                  | some nnode =>
                      rw [hgn] at he
                      cases nnode with
                      | leafN a b c dd => simp at he
                      | internalN npar nmax nes =>
                        simp only [] at he
                        cases hgp : getPage (setPage (setPage (unpinPg
                            (setPage (pinBump h pair.2) pair.2
                              (cn.setParent nodePid)) pair.2 true) nodePid
                            (.internalN npar nmax (setKeyAtIdx (pair :: nes)
                              1 middleKey))) sibPid (.internalN spar smax
                            ses.dropLast)) parentPid with
                        | none =>
                            rw [hgp] at he
                            simp at he
                        | some pnode =>
                            rw [hgp] at he
                            cases pnode with
                            | leafN a b c dd => simp at he
                            | internalN ppar pmax pes =>
                              simp only [] at he
                              by_cases hidx : valueIndexL pes nodePid < 0
                              · rw [if_pos hidx] at he
                                simp at he
                              · rw [if_neg hidx] at he
                                have hh3 := Option.some.inj he
                                rw [← hh3]
                                have hk2 : leafKeyFree (setPage (unpinPg
                                    (setPage (pinBump h pair.2) pair.2
                                      (cn.setParent nodePid)) pair.2 true)
                                    nodePid (.internalN npar nmax
                                      (setKeyAtIdx (pair :: nes) 1
                                        middleKey))) key :=
                                  GKF_setPage_internal _ key nodePid npar
                                    nmax _ hk1
                                have hk3 : leafKeyFree (setPage (setPage
                                    (unpinPg (setPage (pinBump h pair.2)
                                      pair.2 (cn.setParent nodePid)) pair.2
                                      true) nodePid (.internalN npar nmax
                                      (setKeyAtIdx (pair :: nes) 1
                                        middleKey))) sibPid (.internalN spar
                                      smax ses.dropLast)) key :=
                                  GKF_setPage_internal _ key sibPid spar
                                    smax _ hk2
                                exact GKF_setPage_internal _ key parentPid
                                  ppar pmax _ hk3
        · rw [if_neg hdire] at he
          cases hses : ses with
          | nil =>
              rw [hses] at he
              simp at he
          | cons e st =>
              rw [hses] at he
              simp only [] at he
              cases hgc : getPage h e.2 with
              | none =>
                  unfold fetchPg at he
                  rw [hgc] at he
                  simp at he
              | some cn =>
                  rw [fetchPg_some h _ _ hgc] at he
                  simp only [] at he
                  have hk1 : leafKeyFree (unpinPg (setPage (pinBump h e.2)
                      e.2 (cn.setParent nodePid)) e.2 true) key := by
                    have hs1 : leafKeyFree (pinBump h e.2) key :=
                      GKF_pagesId _ _ key (fun q => getPage_pinBump _ _ _) hk
                    have hs2 : leafKeyFree (setPage (pinBump h e.2) e.2
                        (cn.setParent nodePid)) key :=
                      GKF_setParent _ key e.2 nodePid cn
                        (by rw [getPage_pinBump]; exact hgc) hs1
                    exact GKF_pagesId _ _ key
                      (fun q => getPage_unpinPg _ _ _ _) hs2
                  cases hgn : getPage (unpinPg (setPage (pinBump h e.2) e.2
                      (cn.setParent nodePid)) e.2 true) nodePid with
                  | none =>
                      rw [hgn] at he
                      simp at he
                  | some nnode =>
                      rw [hgn] at he
                      cases nnode with
                      | leafN a b c dd => simp at he
                      | internalN npar nmax nes =>
                        simp only [] at he
                        cases hgp : getPage (setPage (setPage (unpinPg
                            (setPage (pinBump h e.2) e.2
                              (cn.setParent nodePid)) e.2 true) nodePid
                            (.internalN npar nmax (setKeyAtIdx (nes ++ [e])
                              nes.length middleKey))) sibPid (.internalN spar
                              smax st)) parentPid with
                        | none =>
                            rw [hgp] at he
                            simp at he
                        | some pnode =>
                            rw [hgp] at he
                            cases pnode with
                            | leafN a b c dd => simp at he
                            | internalN ppar pmax pes =>
                              simp only [] at he
                              by_cases hidx : valueIndexL pes sibPid < 0
                              · rw [if_pos hidx] at he
                                simp at he
                              · rw [if_neg hidx] at he
                                have hh3 := Option.some.inj he
                                rw [← hh3]
                                have hk2 := GKF_setPage_internal (unpinPg
                                  (setPage (pinBump h e.2) e.2
                                    (cn.setParent nodePid)) e.2 true) key
                                  nodePid npar nmax (setKeyAtIdx (nes ++ [e])
                                    nes.length middleKey) hk1
                                have hk3 := GKF_setPage_internal _ key sibPid
                                  spar smax st hk2
                                exact GKF_setPage_internal _ key parentPid
                                  ppar pmax _ hk3

/-! ### Key-freedom is preserved by the whole rebalancing cluster -/

theorem CoR_GKF (cfg : TConfig) (key : Int) : ∀ (fuel : Nat),
    (∀ (h : THeap) (root pid : Int) (h' : THeap) (root' : Int),
      leafKeyFree h key →
      coalesceOrRedistribute cfg h root pid fuel = some (h', root') →
      leafKeyFree h' key) ∧
    (∀ (h : THeap) (root l r p : Int) (h' : THeap) (root' : Int),
      leafKeyFree h key →
      coalesceLeaf cfg h root l r p fuel = some (h', root') →
      leafKeyFree h' key) ∧
    (∀ (h : THeap) (root l r p : Int) (h' : THeap) (root' : Int),
      leafKeyFree h key →
      coalesceInternal cfg h root l r p fuel = some (h', root') →
      leafKeyFree h' key) := by
  intro fuel
  induction fuel with
  | zero =>
      refine ⟨?_, ?_, ?_⟩
      · intro h root pid h' root' hk he
        simp [coalesceOrRedistribute] at he
      · intro h root l r p h' root' hk he
        simp [coalesceLeaf] at he
      · intro h root l r p h' root' hk he
        simp [coalesceInternal] at he
  | succ fuel ih =>
      obtain ⟨ihC, ihL, ihI⟩ := ih
      have hCL : ∀ (h : THeap) (root l r p : Int) (h' : THeap) (root' : Int),
          leafKeyFree h key →
          coalesceLeaf cfg h root l r p (fuel + 1) = some (h', root') →
          leafKeyFree h' key := by
        intro h root l r p h' root' hk he
        rw [coalesceLeaf] at he
        cases hgp : getPage h p with
        | none =>
            rw [hgp] at he
            simp at he
        | some pn =>
            rw [hgp] at he
            cases hgr : getPage h r with
            | none =>
                rw [hgr] at he
                cases pn <;> simp at he
            | some rn =>
                rw [hgr] at he
                cases hgl : getPage h l with
                | none =>
                    rw [hgl] at he
                    cases pn <;> cases rn <;> simp at he
                | some ln =>
                    rw [hgl] at he
                    cases pn with
                    | leafN a b c dd => simp at he
                    | internalN ppar pmax pes =>
                      cases rn with
                      | internalN a b c => simp at he
                      | leafN rpar rmax res rnx =>
                        cases ln with
                        | internalN a b c => simp at he
                        | leafN lpar lmax les lnx =>
                          simp only [] at he
                          by_cases hidx : valueIndexL pes r < 0
                          · rw [if_pos hidx] at he
                            simp at he
                          · rw [if_neg hidx] at he
                            have hlfree := GKF_read h key l lpar lmax les lnx hk hgl
                            have hrfree := GKF_read h key r rpar rmax res rnx hk hgr
                            have hk3 : leafKeyFree (setPage (setPage (setPage h l
                                (.leafN lpar lmax (les ++ res) rnx)) r
                                (.leafN rpar rmax [] rnx)) p
                                (.internalN ppar pmax (removeAtIdx pes
                                  (valueIndexL pes r).toNat))) key := by
                              have hs1 : leafKeyFree (setPage h l
                                  (.leafN lpar lmax (les ++ res) rnx)) key :=
                                GKF_setPage_leaf h key l lpar lmax _ rnx hk
                                  (by
                                    intro e he2
                                    rcases List.mem_append.mp he2 with hc | hc
                                    · exact hlfree e hc
                                    · exact hrfree e hc)
                              have hs2 : leafKeyFree (setPage (setPage h l
                                  (.leafN lpar lmax (les ++ res) rnx)) r
                                  (.leafN rpar rmax [] rnx)) key :=
                                GKF_setPage_leaf _ key r rpar rmax _ rnx hs1
                                  (by intro e he2; simp at he2)
                              exact GKF_setPage_internal _ key p ppar pmax _ hs2
                            by_cases hmin : (removeAtIdx pes
                                (valueIndexL pes r).toNat).length <
                                GetMinSize pmax
                            · rw [if_pos hmin] at he
                              exact ihC _ _ _ _ _ hk3 he
                            · rw [if_neg hmin] at he
                              injection he with he2
                              injection he2 with hh hr
                              rw [← hh]
                              exact hk3
      have hCI : ∀ (h : THeap) (root l r p : Int) (h' : THeap) (root' : Int),
          leafKeyFree h key →
          coalesceInternal cfg h root l r p (fuel + 1) = some (h', root') →
          leafKeyFree h' key := by
        intro h root l r p h' root' hk he
        rw [coalesceInternal] at he
        cases hgp : getPage h p with
        | none =>
            rw [hgp] at he
            simp at he
        | some pn =>
            rw [hgp] at he
            cases hgr : getPage h r with
            | none =>
                rw [hgr] at he
                cases pn <;> simp at he
            | some rn =>
                rw [hgr] at he
                cases pn with
                | leafN a b c dd => simp at he
                | internalN qa qb pes =>
                  cases rn with
                  | leafN a b c dd => simp at he
                  | internalN rpar rmax res =>
                    simp only [] at he
                    by_cases hidx : valueIndexL pes r < 0
                    · rw [if_pos hidx] at he
                      simp at he
                    · rw [if_neg hidx] at he
                      have hk1 : leafKeyFree (setPage h r (.internalN rpar rmax
                          (setKeyAtIdx res 0 (keyAtL pes
                            (valueIndexL pes r).toNat)))) key :=
                        GKF_setPage_internal _ key r rpar rmax _ hk
                      cases hadopt : adoptAll (setPage h r (.internalN rpar rmax
                          (setKeyAtIdx res 0 (keyAtL pes
                            (valueIndexL pes r).toNat))))
                          ((setKeyAtIdx res 0 (keyAtL pes
                            (valueIndexL pes r).toNat)).map (fun x => x.2))
                          r with
                      | none =>
                          rw [hadopt] at he
                          simp at he
                      | some h2 =>
                          rw [hadopt] at he
                          simp only [] at he
                          have hk2 : leafKeyFree h2 key :=
                            GKF_adoptAll key _ _ _ _ hadopt hk1
                          cases hgl : getPage h2 l with
                          | none =>
                              rw [hgl] at he
                              simp at he
                          | some ln =>
                              rw [hgl] at he
                              cases ln with
                              | leafN a b c dd => simp at he
                              | internalN lpar lmax les =>
                                simp only [] at he
                                cases hgp4 : getPage (setPage (setPage h2 l
                                    (.internalN lpar lmax (les ++ setKeyAtIdx
                                      res 0 (keyAtL pes (valueIndexL pes
                                        r).toNat)))) r (.internalN rpar rmax
                                    [])) p with
                                | none =>
                                    rw [hgp4] at he
                                    simp at he
                                | some pn4 =>
                                    rw [hgp4] at he
                                    cases pn4 with
                                    | leafN a b c dd => simp at he
                                    | internalN p2 pm2 pes2 =>
                                      simp only [] at he
                                      have hk4 : leafKeyFree (setPage (setPage
                                          (setPage h2 l (.internalN lpar lmax
                                            (les ++ setKeyAtIdx res 0 (keyAtL
                                              pes (valueIndexL pes
                                                r).toNat)))) r (.internalN
                                            rpar rmax [])) p (.internalN p2
                                            pm2 (removeAtIdx pes2
                                              (valueIndexL pes r).toNat)))
                                          key := by
                                        have hs1 := GKF_setPage_internal h2 key
                                          l lpar lmax (les ++ setKeyAtIdx res
                                            0 (keyAtL pes (valueIndexL pes
                                              r).toNat)) hk2
                                        have hs2 := GKF_setPage_internal _ key
                                          r rpar rmax ([] : List (Int × Int))
                                          hs1
                                        exact GKF_setPage_internal _ key p p2
                                          pm2 _ hs2
                                      by_cases hmin : (removeAtIdx pes2
                                          (valueIndexL pes r).toNat).length <
                                          GetMinSize pm2
                                      · rw [if_pos hmin] at he
                                        exact ihC _ _ _ _ _ hk4 he
                                      · rw [if_neg hmin] at he
                                        injection he with he2
                                        injection he2 with hh hr
                                        rw [← hh]
                                        exact hk4
      refine ⟨?_, hCL, hCI⟩
      intro h root pid h' root' hk he
      rw [coalesceOrRedistribute] at he
      cases hg : getPage h pid with
      | none =>
          rw [hg] at he
          simp at he
      | some node =>
          rw [hg] at he
          simp only [] at he
          by_cases hroot : node.parentPageId = INVALID_PAGE_ID
          · rw [if_pos hroot] at he
            cases har : adjustRoot h root pid with
            | none =>
                rw [har] at he
                simp at he
            | some tr =>
                obtain ⟨changed, h1, root1⟩ := tr
                rw [har] at he
                simp only [] at he
                have hk1 : leafKeyFree h1 key :=
                  GKF_adjustRoot h key root pid changed h1 root1 har hk
                by_cases hch : changed = true
                · rw [if_pos hch] at he
                  injection he with he2
                  injection he2 with hh hr
                  rw [← hh]
                  exact GKF_pagesId _ _ key
                    (fun q => getPage_unpinPg _ _ _ _) hk1
                · rw [if_neg hch] at he
                  injection he with he2
                  injection he2 with hh hr
                  rw [← hh]
                  exact hk1
          · rw [if_neg hroot] at he
            cases node with
            | leafN par lb lc lnx =>
              simp only [] at he
              by_cases hnx : lnx = -1
              · rw [if_pos hnx] at he
                cases hfs : findLeftSibling h pid with
                | none =>
                    rw [hfs] at he
                    simp at he
                | some pr =>
                    obtain ⟨h1, sb⟩ := pr
                    rw [hfs] at he
                    have hk1 : leafKeyFree h1 key :=
                      GKF_pagesId _ _ key (findLeftSibling_pages h pid h1 sb hfs) hk
                    cases sb with
                    | none =>
                        simp only [] at he
                        injection he with he2
                        injection he2 with hh hr
                        rw [← hh]
                        exact hk1
                    | some sibPid =>
                        simp only [] at he
                        cases hgp2 : getPage h1 par with
                        | none =>
                            unfold fetchPg at he
                            rw [hgp2] at he
                            simp at he
                        | some parn =>
                            rw [fetchPg_some h1 _ _ hgp2] at he
                            simp only [] at he
                            have hk2 : leafKeyFree (pinBump h1 par) key :=
                              GKF_pagesId _ _ key
                                (fun q => getPage_pinBump _ _ _) hk1
                            cases hgs2 : getPage (pinBump h1 par) sibPid with
                            | none =>
                                rw [hgs2] at he
                                simp at he
                            | some sibNode =>
                                rw [hgs2] at he
                                cases hgc2 : getPage (pinBump h1 par) pid with
                                | none =>
                                    rw [hgc2] at he
                                    simp at he
                                | some curNode =>
                                    rw [hgc2] at he
                                    simp only [] at he
                                    by_cases hsz : sibNode.size + curNode.size ≤
                                        cfg.leafMax
                                    · rw [if_pos hsz] at he
                                      cases hcl : coalesceLeaf cfg
                                          (pinBump h1 par) root sibPid pid par
                                          fuel with
                                      | none =>
                                          rw [hcl] at he
                                          simp at he
                                      | some pr3 =>
                                          obtain ⟨h3, root3⟩ := pr3
                                          rw [hcl] at he
                                          simp only [] at he
                                          have hk3 : leafKeyFree h3 key :=
                                            ihL _ _ _ _ _ _ _ hk2 hcl
                                          injection he with he2
                                          injection he2 with hh hr
                                          rw [← hh]
                                          exact GKF_pagesId _ _ key
                                            (fun q => getPage_unpinPg _ _ _ _)
                                            hk3
                                    · rw [if_neg hsz] at he
                                      cases hrd : redistributeLeaf
                                          (pinBump h1 par) pid sibPid par 0 with
                                      | none =>
                                          rw [hrd] at he
                                          simp at he
                                      | some h3 =>
                                          rw [hrd] at he
                                          simp only [] at he
                                          have hk3 : leafKeyFree h3 key :=
                                            GKF_redistributeLeaf _ key pid
                                              sibPid par 0 h3 hrd hk2
                                          injection he with he2
                                          injection he2 with hh hr
                                          rw [← hh]
                                          exact GKF_pagesId _ _ key
                                            (fun q => getPage_unpinPg _ _ _ _)
                                            hk3
              · rw [if_neg hnx] at he
                cases hfs : findRightSiblingLeaf h pid with
                | none =>
                    rw [hfs] at he
                    simp at he
                | some pr =>
                    obtain ⟨h1, sb⟩ := pr
                    rw [hfs] at he
                    have hk1 : leafKeyFree h1 key :=
                      GKF_pagesId _ _ key
                        (findRightSiblingLeaf_pages h pid h1 sb hfs) hk
                    cases sb with
                    | none =>
                        simp only [] at he
                        injection he with he2
                        injection he2 with hh hr
                        rw [← hh]
                        exact hk1
                    | some sibPid =>
                        simp only [] at he
                        cases hgs0 : getPage h1 sibPid with
                        | none =>
                            rw [hgs0] at he
                            simp at he
                        | some sibNode0 =>
                            rw [hgs0] at he
                            simp only [] at he
                            cases hgp2 : getPage h1 sibNode0.parentPageId with
                            | none =>
                                unfold fetchPg at he
                                rw [hgp2] at he
                                simp at he
                            | some parn =>
                                rw [fetchPg_some h1 _ _ hgp2] at he
                                simp only [] at he
                                have hk2 : leafKeyFree (pinBump h1
                                    sibNode0.parentPageId) key :=
                                  GKF_pagesId _ _ key
                                    (fun q => getPage_pinBump _ _ _) hk1
                                cases hgs2 : getPage (pinBump h1
                                    sibNode0.parentPageId) sibPid with
                                | none =>
                                    rw [hgs2] at he
                                    simp at he
                                | some sibNode =>
                                    rw [hgs2] at he
                                    cases hgc2 : getPage (pinBump h1
                                        sibNode0.parentPageId) pid with
                                    | none =>
                                        rw [hgc2] at he
                                        simp at he
                                    | some curNode =>
                                        rw [hgc2] at he
                                        simp only [] at he
                                        by_cases hsz : sibNode.size +
                                            curNode.size ≤ cfg.leafMax
                                        · rw [if_pos hsz] at he
                                          cases hcl : coalesceLeaf cfg
                                              (pinBump h1
                                                sibNode0.parentPageId) root
                                              pid sibPid
                                              sibNode0.parentPageId fuel with
                                          | none =>
                                              rw [hcl] at he
                                              simp at he
                                          | some pr3 =>
                                              obtain ⟨h3, root3⟩ := pr3
                                              rw [hcl] at he
                                              simp only [] at he
                                              have hk3 : leafKeyFree h3 key :=
                                                ihL _ _ _ _ _ _ _ hk2 hcl
                                              injection he with he2
                                              injection he2 with hh hr
                                              rw [← hh]
                                              exact GKF_pagesId _ _ key
                                                (fun q =>
                                                  getPage_unpinPg _ _ _ _) hk3
                                        · rw [if_neg hsz] at he
                                          cases hrd : redistributeLeaf
                                              (pinBump h1
                                                sibNode0.parentPageId) pid
                                              sibPid sibNode0.parentPageId
                                              1 with
                                          | none =>
                                              rw [hrd] at he
                                              simp at he
                                          | some h3 =>
                                              rw [hrd] at he
                                              simp only [] at he
                                              have hk3 : leafKeyFree h3 key :=
                                                GKF_redistributeLeaf _ key pid
                                                  sibPid
                                                  sibNode0.parentPageId 1 h3
                                                  hrd hk2
                                              injection he with he2
                                              injection he2 with hh hr
                                              rw [← hh]
                                              exact GKF_pagesId _ _ key
                                                (fun q =>
                                                  getPage_unpinPg _ _ _ _) hk3
            | internalN par ib ic =>
              simp only [] at he
              cases hgp2 : getPage h par with
              | none =>
                  unfold fetchPg at he
                  rw [hgp2] at he
                  simp at he
              | some parn =>
                  rw [fetchPg_some h _ _ hgp2] at he
                  cases parn with
                  | leafN a b c dd => simp at he
                  | internalN qa qb pes =>
                    simp only [] at he
                    have hk1 : leafKeyFree (pinBump h par) key :=
                      GKF_pagesId _ _ key (fun q => getPage_pinBump _ _ _) hk
                    by_cases hlast : valueIndexL pes pid = (pes.length : Int) - 1
                    · rw [if_pos hlast] at he
                      cases hfs : findLeftSibling (pinBump h par) pid with
                      | none =>
                          rw [hfs] at he
                          simp at he
                      | some pr =>
                          obtain ⟨h2, sb⟩ := pr
                          rw [hfs] at he
                          have hk2 : leafKeyFree h2 key :=
                            GKF_pagesId _ _ key
                              (findLeftSibling_pages _ pid h2 sb hfs) hk1
                          cases sb with
                          | none =>
                              simp only [] at he
                              injection he with he2
                              injection he2 with hh hr
                              rw [← hh]
                              exact hk2
                          | some sibPid =>
                              simp only [] at he
                              cases hgs2 : getPage h2 sibPid with
                              | none =>
                                  rw [hgs2] at he
                                  simp at he
                              | some sibNode =>
                                  rw [hgs2] at he
                                  cases hgc2 : getPage h2 pid with
                                  | none =>
                                      rw [hgc2] at he
                                      simp at he
                                  | some curNode =>
                                      rw [hgc2] at he
                                      simp only [] at he
                                      by_cases hsz : sibNode.size +
                                          curNode.size < cfg.internalMax
                                      · rw [if_pos hsz] at he
                                        exact ihI _ _ _ _ _ _ _ hk2 he
                                      · rw [if_neg hsz] at he
                                        cases hgp3 : getPage h2 par with
                                        | none =>
                                            rw [hgp3] at he
                                            simp at he
                                        | some pn3 =>
                                            rw [hgp3] at he
                                            cases pn3 with
                                            | leafN a b c dd => simp at he
                                            | internalN xa xb pes2 =>
                                              simp only [] at he
                                              by_cases hpi : valueIndexL pes2
                                                  pid < 0
                                              · rw [if_pos hpi] at he
                                                simp at he
                                              · rw [if_neg hpi] at he
                                                cases hrd :
                                                    redistributeInternal h2 pid
                                                    sibPid par (keyAtL pes2
                                                      (valueIndexL pes2
                                                        pid).toNat) 0 with
                                                | none =>
                                                    rw [hrd] at he
                                                    simp at he
                                                | some h3 =>
                                                    rw [hrd] at he
                                                    simp only [] at he
                                                    have hk3 : leafKeyFree h3
                                                        key :=
                                                      GKF_redistributeInternal
                                                        h2 key pid sibPid par
                                                        _ 0 h3 hrd hk2
                                                    cases hgp4 : getPage h3
                                                        par with
                                                    | none =>
                                                        rw [hgp4] at he
                                                        simp at he
                                                    | some pn4 =>
                                                        rw [hgp4] at he
                                                        cases pn4 with
                                                        | leafN a b c dd =>
                                                            cases hx : getPage h3 pid with
                                                            | none =>
                                                                rw [hx] at he
                                                                simp at he
                                                            | some y =>
                                                                rw [hx] at he
                                                                cases y <;>
                                                                  simp at he
                                                        | internalN p3 m3
                                                            pes3 =>
                                                          cases hgc4 :
                                                              getPage h3
                                                              pid with
                                                          | none =>
                                                              rw [hgc4] at he
                                                              simp at he
                                                          | some cur3 =>
                                                              rw [hgc4] at he
                                                              cases cur3 with
                                                              | leafN a b c
                                                                  dd =>
                                                                simp at he
                                                              | internalN ya
                                                                  yb ces3 =>
                                                                simp only []
                                                                  at he
                                                                injection he with he2
                                                                injection he2 with hh hr
                                                                rw [← hh]
                                                                exact
                                                                  GKF_setPage_internal
                                                                  _ key par p3
                                                                  m3 _ hk3
                    · rw [if_neg hlast] at he
                      cases hfs : findRightSiblingInternal (pinBump h par)
                          pid with
                      | none =>
                          rw [hfs] at he
                          simp at he
                      | some pr =>
                          obtain ⟨h2, sb⟩ := pr
                          rw [hfs] at he
                          have hk2 : leafKeyFree h2 key :=
                            GKF_pagesId _ _ key
                              (findRightSiblingInternal_pages _ pid h2 sb hfs)
                              hk1
                          cases sb with
                          | none =>
                              simp only [] at he
                              injection he with he2
                              injection he2 with hh hr
                              rw [← hh]
                              exact hk2
                          | some sibPid =>
                              simp only [] at he
                              cases hgs2 : getPage h2 sibPid with
                              | none =>
                                  rw [hgs2] at he
                                  simp at he
                              | some sibNode =>
                                  rw [hgs2] at he
                                  cases hgc2 : getPage h2 pid with
                                  | none =>
                                      rw [hgc2] at he
                                      simp at he
                                  | some curNode =>
                                      rw [hgc2] at he
                                      simp only [] at he
                                      by_cases hsz : sibNode.size +
                                          curNode.size < cfg.internalMax
                                      · rw [if_pos hsz] at he
                                        exact ihI _ _ _ _ _ _ _ hk2 he
                                      · rw [if_neg hsz] at he
                                        cases hgp3 : getPage h2 par with
                                        | none =>
                                            rw [hgp3] at he
                                            simp at he
                                        | some pn3 =>
                                            rw [hgp3] at he
                                            cases pn3 with
                                            | leafN a b c dd => simp at he
                                            | internalN xa xb pes2 =>
                                              simp only [] at he
                                              by_cases hpi : valueIndexL pes2
                                                  sibPid < 0
                                              · rw [if_pos hpi] at he
                                                simp at he
                                              · rw [if_neg hpi] at he
                                                cases hrd :
                                                    redistributeInternal h2 pid
                                                    sibPid par (keyAtL pes2
                                                      (valueIndexL pes2
                                                        sibPid).toNat) 1 with
                                                | none =>
                                                    rw [hrd] at he
                                                    simp at he
                                                | some h3 =>
                                                    rw [hrd] at he
                                                    simp only [] at he
                                                    have hk3 : leafKeyFree h3
                                                        key :=
                                                      GKF_redistributeInternal
                                                        h2 key pid sibPid par
                                                        _ 1 h3 hrd hk2
                                                    cases hgp4 : getPage h3
                                                        par with
                                                    | none =>
                                                        rw [hgp4] at he
                                                        simp at he
                                                    | some pn4 =>
                                                        rw [hgp4] at he
                                                        cases pn4 with
                                                        | leafN a b c dd =>
                                                            cases hx : getPage h3 sibPid with
                                                            | none =>
                                                                rw [hx] at he
                                                                simp at he
                                                            | some y =>
                                                                rw [hx] at he
                                                                cases y <;>
                                                                  simp at he
                                                        | internalN p3 m3
                                                            pes3 =>
                                                          cases hgc4 :
                                                              getPage h3
                                                              sibPid with
                                                          | none =>
                                                              rw [hgc4] at he
                                                              simp at he
                                                          | some sib3 =>
                                                              rw [hgc4] at he
                                                              cases sib3 with
                                                              | leafN a b c
                                                                  dd =>
                                                                simp at he
                                                              | internalN ya
                                                                  yb ses3 =>
                                                                simp only []
                                                                  at he
                                                                injection he with he2
                                                                injection he2 with hh hr
                                                                rw [← hh]
                                                                exact
                                                                  GKF_setPage_internal
                                                                  _ key par p3
                                                                  m3 _ hk3

/-! ### Remove erases the only copy; duplicate insert is a no-op -/

theorem remove_spec (cfg : TConfig) (h2 : THeap) (root2 key value T : Int)
    (R : List Int) (D fuel2 : Nat) (h3 : THeap) (root3 : Int)
    (hr0 : 0 ≤ root2)
    (hf : FindsKVIn R h2 key value D root2)
    (hKOA : leafKeyOnlyAt h2 key T)
    (he : removeT cfg h2 root2 key fuel2 = some (h3, root3)) :
    leafKeyFree h3 key := by
  unfold removeT at he
  rw [if_neg (show ¬ root2 = INVALID_PAGE_ID by
    unfold INVALID_PAGE_ID
    omega)] at he
  cases hfl : findLeafLoop h2 root2 key fuel2 with
  | none =>
      rw [hfl] at he
      simp at he
  | some res =>
      obtain ⟨h1x, L, n⟩ := res
      rw [hfl] at he
      obtain ⟨hgL, ⟨par, max, es, nx, hneq⟩, hpgx, -, -⟩ :=
        findLeafLoop_out key fuel2 h2 root2 h1x L n hfl
      subst hneq
      simp only [] at he
      obtain ⟨h1y, Ly, pary, maxy, esy, nxy, hey, hly⟩ :=
        findLeafLoop_finds R key value D h2 root2 hf
      have hM1 := findLeafLoop_fuel_mono key fuel2 (Nat.max fuel2 (D + 1))
        h2 root2 _ (Nat.le_max_left _ _) hfl
      have hM2 := findLeafLoop_fuel_mono key (D + 1) (Nat.max fuel2 (D + 1))
        h2 root2 _ (Nat.le_max_right _ _) hey
      rw [hM1] at hM2
      have hM3 := Option.some.inj hM2
      have hLy : L = Ly := congrArg Prod.fst (congrArg Prod.snd hM3)
      have hny : BNode.leafN par max es nx = BNode.leafN pary maxy esy nxy :=
        congrArg Prod.snd (congrArg Prod.snd hM3)
      injection hny with hp1 hp2 hp3 hp4
      have hlook : leafLookup es key = some value := by
        rw [hp3]
        exact hly
      have hkey_mem : (key, value) ∈ es := leafLookup_mem es key value hlook
      have hLT : L = T := by
        by_contra hne
        exact hKOA.1 L par max es nx hgL hne (key, value) hkey_mem rfl
      have hcnt : (es.filter (fun e => e.1 = key)).length ≤ 1 := by
        refine hKOA.2 par max es nx ?_
        rw [← hLT]
        exact hgL
      have hfree1 : ∀ e ∈ leafRemove es key, ¬ e.1 = key :=
        leafRemove_free es key hcnt
      have hGKF2 : leafKeyFree (setPage h1x L
          (.leafN par max (leafRemove es key) nx)) key := by
        intro p par' max' es' nx' hp
        by_cases hpL : p = L
        · rw [hpL, getPage_setPage_self] at hp
          have h4 := Option.some.inj hp
          injection h4 with ha hb hc hd
          rw [← hc]
          exact hfree1
        · rw [getPage_setPage_ne _ _ _ _ hpL] at hp
          have hpg : getPage h1x p = getPage h2 p := by
            unfold getPage
            rw [hpgx]
          rw [hpg] at hp
          refine hKOA.1 p par' max' es' nx' hp ?_
          rw [← hLT]
          exact hpL
      by_cases hmin : (leafRemove es key).length < GetMinSize max
      · rw [if_pos hmin] at he
        exact (CoR_GKF cfg key fuel2).1 _ _ _ _ _ hGKF2 he
      · rw [if_neg hmin] at he
        injection he with he2
        injection he2 with hh hr
        rw [← hh]
        exact hGKF2

theorem insert_dup_spec (cfg : TConfig) (h : THeap) (root key w : Int)
    (fuelG : Nat) (h1 : THeap)
    (hg : getValueT h root key fuelG = some (h1, some w)) :
    ∀ (value2 : Int) (fuel : Nat) (h2 : THeap) (root2 : Int) (ok : Bool),
      insertT cfg h root key value2 fuel = some (h2, root2, ok) →
      ok = false ∧ h2.pages = h.pages ∧ root2 = root := by
  unfold getValueT at hg
  by_cases hroot : root = INVALID_PAGE_ID
  · rw [if_pos hroot] at hg
    have := congrArg Prod.snd (Option.some.inj hg)
    cases this
  · rw [if_neg hroot] at hg
    cases hflg : findLeafLoop h root key fuelG with
    | none =>
        rw [hflg] at hg
        simp at hg
    | some res =>
        obtain ⟨h1', L, n⟩ := res
        rw [hflg] at hg
        obtain ⟨hgL, ⟨par, max, es, nx, hneq⟩, -, -, -⟩ :=
          findLeafLoop_out key fuelG h root h1' L n hflg
        subst hneq
        simp only [] at hg
        have hlook : leafLookup es key = some w :=
          congrArg Prod.snd (Option.some.inj hg)
        intro value2 fuel h2 root2 ok he
        unfold insertT at he
        rw [if_neg hroot] at he
        unfold insertIntoLeaf at he
        cases hfl2 : findLeafLoop h root key fuel with
        | none =>
            rw [hfl2] at he
            simp at he
        | some res2 =>
            obtain ⟨h1x, Lx, n2⟩ := res2
            rw [hfl2] at he
            obtain ⟨hgLx, ⟨par2, max2, es2, nx2, hneq2⟩, hpgx, -, -⟩ :=
              findLeafLoop_out key fuel h root h1x Lx n2 hfl2
            subst hneq2
            simp only [] at he
            have hM1 := findLeafLoop_fuel_mono key fuelG
              (Nat.max fuelG fuel) h root _ (Nat.le_max_left _ _) hflg
            have hM2 := findLeafLoop_fuel_mono key fuel
              (Nat.max fuelG fuel) h root _ (Nat.le_max_right _ _) hfl2
            rw [hM1] at hM2
            have hM3 := Option.some.inj hM2
            have hny : BNode.leafN par max es nx =
                BNode.leafN par2 max2 es2 nx2 :=
              congrArg Prod.snd (congrArg Prod.snd hM3)
            injection hny with hp1 hp2 hp3 hp4
            rw [if_pos (by rw [← hp3, hlook]; rfl)] at he
            have h4 := Option.some.inj he
            refine ⟨(congrArg (fun x => x.2.2) h4).symm, ?_,
              (congrArg (fun x => x.2.1) h4).symm⟩
            have hh2 : h1x = h2 := congrArg Prod.fst h4
            rw [← hh2]
            exact hpgx

/-! ## Claim theorems: buffer pool manager and LRU replacer -/

/-- C1.  The claim states that `unpin(page_id, dirty_flag)` sets `is_dirty`
to the disjunction of its previous value and `dirty_flag` (sticky dirty
bit).  The source instead assigns `is_dirty_ = is_dirty`, overwriting the
bit: in the run below page 1 is resident with `pin_count = 1` and
`is_dirty = true`, yet `unpin(1, false)` succeeds and leaves
`is_dirty = false` where the claim requires `true ∨ false = true`. -/
theorem C1_unpin_overwrites_dirty_bit :
    (bpmDemo3.frame 0).is_dirty = true ∧
    (bpmDemo3.frame 0).pin_count = 1 ∧
    bpmDemo3.isInPageTable 1 = true ∧
    (UnpinPageImpl bpmDemo3 1 false).2 = true ∧
    (bpmDemo4.frame 0).is_dirty = false := by decide

/-- C2.  The claim states the invariant "frame ∈ replacer ↔ resident ∧
pin_count = 0" is preserved by every public BPM operation.  The source's
`UnpinPageImpl` calls `replacer_->Unpin` unconditionally instead of only
when the pin count reaches zero: starting from an invariant-satisfying
pool, fetching page 1 twice and unpinning once yields a state whose frame 0
is in the replacer while its pin count is 1. -/
theorem C2_replacer_invariant_violated :
    ReplInv bpmDemo0 ∧
    ReplInv bpmDemo2 ∧
    (bpmDemo3.frame 0).pin_count = 1 ∧
    bpmDemo3.isInPageTable 1 = true ∧
    0 ∈ bpmDemo3.repl.frame_ids ∧
    ¬ ReplInv bpmDemo3 := by decide

/-- C4 (counterexample).  The claim asserts that after a fetch that evicts
a replacer victim, the returned frame's dirty flag is cleared.  In the
concrete pool `fetchDemoS` (non-resident page 2 fetched, free list empty,
dirty victim frame 0) the source leaves the dirty flag set: it equals
`true`, not `false`. -/
theorem C4_dirty_flag_not_cleared :
    fetchDemoS.ptLookup 2 = none ∧
    fetchDemoS.free_list = [] ∧
    (fetchDemoS.repl.Victim).1 = some 0 ∧
    (fetchDemoS.frame 0).is_dirty = true ∧
    FetchPageImpl fetchDemoS 2 = some (fetchDemoR, 0) ∧
    ¬ (fetchDemoR.frame 0).is_dirty = false := by decide

/-- C4 (amended).  Fetching a non-resident page when the free list is empty
and the replacer yields a victim whose page is resident and unpinned:
the victim's bytes are written back when dirty, the victim's page-table
mapping is removed, the frame's bytes become the disk contents of the
requested page, its pin count becomes 1 — and the dirty flag RETAINS the
victim's old value instead of being cleared (the only part of the original
claim the source violates). -/
theorem C4_fetch_evict_amended (s : BPMState) (pid : Int) (v : Nat)
    (hnr : s.ptLookup pid = none)
    (hfree : s.free_list = [])
    (hvic : (s.repl.Victim).1 = some v)
    (hvlen : v < s.pages.length)
    (hres : s.ptLookup (s.frame v).page_id = some v)
    (hpin : (s.frame v).pin_count = 0) :
    ∃ s', FetchPageImpl s pid = some (s', v) ∧
      ((s.frame v).is_dirty = true →
        plookup (s.frame v).page_id s'.disk.store = some (s.frame v).data) ∧
      s'.ptLookup (s.frame v).page_id = none ∧
      s'.ptLookup pid = some v ∧
      (s'.frame v).data = s.disk.ReadPage pid ∧
      (s'.frame v).page_id = pid ∧
      (s'.frame v).pin_count = 1 ∧
      (s'.frame v).is_dirty = (s.frame v).is_dirty := by
  have hq : ¬ (s.frame v).page_id = pid := by
    intro h
    rw [h, hnr] at hres
    exact Option.noConfusion hres
  have hvic2 : s.repl.Victim = (some v, (s.repl.Victim).2) := by
    rw [← hvic]
  unfold FetchPageImpl
  rw [hnr, hfree, hvic2]
  simp only [BPMState.frame] at hq hpin ⊢
  by_cases hd : (s.pages.getD v PageRec.fresh).is_dirty = true
  · simp only [hd, if_true, BPMState.setFrame, BPMState.ptLookup]
    refine ⟨_, rfl, ?_, ?_, ?_, ?_, ?_, ?_, ?_⟩
    · intro _
      exact plookup_pstore_self _ _ _
    · show plookup (s.pages.getD v PageRec.fresh).page_id
        (pstore pid v (perase (s.pages.getD v PageRec.fresh).page_id s.page_table)) = none
      rw [plookup_pstore_ne _ _ _ _ hq, plookup_perase_self]
    · exact plookup_pstore_self _ _ _
    · show (List.getD (s.pages.set v _) v PageRec.fresh).data = _
      rw [getD_set_self _ _ _ _ hvlen]
      exact ReadPage_WritePage_ne _ _ _ _ (fun h => hq h.symm)
    · show (List.getD (s.pages.set v _) v PageRec.fresh).page_id = pid
      rw [getD_set_self _ _ _ _ hvlen]
    · show (List.getD (s.pages.set v _) v PageRec.fresh).pin_count = 1
      rw [getD_set_self _ _ _ _ hvlen]
      show (s.pages.getD v PageRec.fresh).pin_count + 1 = 1
      rw [hpin]
      omega
    · show (List.getD (s.pages.set v _) v PageRec.fresh).is_dirty = _
      rw [getD_set_self _ _ _ _ hvlen]
  · simp only [hd, Bool.false_eq_true, if_false, BPMState.setFrame, BPMState.ptLookup]
    refine ⟨_, rfl, ?_, ?_, ?_, ?_, ?_, ?_, ?_⟩
    · intro h
      exact absurd h (fun h => h)
    · show plookup (s.pages.getD v PageRec.fresh).page_id
        (pstore pid v (perase (s.pages.getD v PageRec.fresh).page_id s.page_table)) = none
      rw [plookup_pstore_ne _ _ _ _ hq, plookup_perase_self]
    · exact plookup_pstore_self _ _ _
    · show (List.getD (s.pages.set v _) v PageRec.fresh).data = _
      rw [getD_set_self _ _ _ _ hvlen]
    · show (List.getD (s.pages.set v _) v PageRec.fresh).page_id = pid
      rw [getD_set_self _ _ _ _ hvlen]
    · show (List.getD (s.pages.set v _) v PageRec.fresh).pin_count = 1
      rw [getD_set_self _ _ _ _ hvlen]
      show (s.pages.getD v PageRec.fresh).pin_count + 1 = 1
      rw [hpin]
      omega
    · show (List.getD (s.pages.set v _) v PageRec.fresh).is_dirty = _
      rw [getD_set_self _ _ _ _ hvlen]

/-- Witness for C4 (amended): the amended theorem applied to the concrete
pool `fetchDemoS`. -/
theorem C4_fetch_evict_amended_witness :
    ∃ s', FetchPageImpl fetchDemoS 2 = some (s', 0) ∧
      (s'.frame 0).is_dirty = (fetchDemoS.frame 0).is_dirty := by
  obtain ⟨s', h1, _, _, _, _, _, _, h8⟩ :=
    C4_fetch_evict_amended fetchDemoS 2 0 (by decide) (by decide) (by decide)
      (by decide) (by decide) (by decide)
  exact ⟨s', h1, h8⟩

/-- C5.  The LRU replacer is an insertion-ordered set: `Victim` fails
exactly on the empty set and otherwise removes and returns the
least-recently-unpinned member (the back of the list, the front being the
most recently unpinned); `Pin` removes a member and ignores a non-member;
`Unpin` ignores a member, evicts the tail first when at capacity and
inserts at the front; and the spec's scenario S2 — unpin 1,2,3,4,5, victim
yields 1, pin 3, then victims yield 2, 4, 5. -/
theorem C5_lru_insertion_ordered_set (r : LRUReplacer) (f : Nat)
    (hwf : r.WF) :
    ((r.Victim).1 = none ↔ r.frame_ids = []) ∧
    (r.frame_ids ≠ [] →
      (r.Victim).1 = r.frame_ids.getLast? ∧
      (r.Victim).2.frame_ids = r.frame_ids.dropLast) ∧
    (f ∈ r.frame_ids → (r.Pin f).frame_ids = r.frame_ids.erase f) ∧
    (¬ f ∈ r.frame_ids → r.Pin f = r) ∧
    (f ∈ r.frame_ids → r.Unpin f = r) ∧
    (¬ f ∈ r.frame_ids → r.cur_pages < r.max_pages →
      (r.Unpin f).frame_ids = f :: r.frame_ids) ∧
    (¬ f ∈ r.frame_ids → r.cur_pages = r.max_pages →
      (r.Unpin f).frame_ids = f :: r.frame_ids.dropLast) ∧
    (lruDemoV1.1 = some 1 ∧ lruDemoV2.1 = some 2 ∧
     lruDemoV3.1 = some 4 ∧ lruDemoV4.1 = some 5) := by
  obtain ⟨hlen, -⟩ := hwf
  refine ⟨?_, ?_, ?_, ?_, ?_, ?_, ?_, by decide⟩
  · unfold LRUReplacer.Victim
    by_cases h0 : r.cur_pages = 0
    · have : r.frame_ids = [] := by
        rw [h0] at hlen
        exact (List.length_eq_zero.mp hlen.symm)
      simp [h0, this]
    · have hne : r.frame_ids ≠ [] := by
        intro h
        rw [h] at hlen
        simp at hlen
        exact h0 hlen
      obtain ⟨x, hx⟩ := List.getLast?_isSome.mpr hne |> Option.isSome_iff_exists.mp
      simp [h0, hx, hne]
  · intro hne
    have h0 : ¬ r.cur_pages = 0 := by
      intro h
      rw [h] at hlen
      exact hne (List.length_eq_zero.mp hlen.symm)
    obtain ⟨x, hx⟩ := List.getLast?_isSome.mpr hne |> Option.isSome_iff_exists.mp
    unfold LRUReplacer.Victim
    simp [h0, hx]
  · intro hmem
    unfold LRUReplacer.Pin
    simp [hmem]
  · intro hmem
    unfold LRUReplacer.Pin
    simp [hmem]
  · intro hmem
    unfold LRUReplacer.Unpin
    simp [hmem]
  · intro hmem hlt
    unfold LRUReplacer.Unpin
    simp [hmem, Nat.ne_of_lt hlt]
  · intro hmem hcap
    unfold LRUReplacer.Unpin
    by_cases hne : r.frame_ids = []
    · have : r.cur_pages = 0 := by rw [hlen, hne]; rfl
      simp [hmem, hcap, LRUReplacer.Victim, this, hne]
    · have h0 : ¬ r.cur_pages = 0 := by
        intro h
        rw [h] at hlen
        exact hne (List.length_eq_zero.mp hlen.symm)
      obtain ⟨x, hx⟩ := List.getLast?_isSome.mpr hne |> Option.isSome_iff_exists.mp
      have hmax0 : ¬ r.max_pages = 0 := by
        rw [← hcap]
        exact h0
      simp [hmem, hcap, LRUReplacer.Victim, h0, hmax0, hx]

/-- Witness for C5: the theorem applied to the concrete replacer `lruDemo`
with frame 3. -/
theorem C5_lru_insertion_ordered_set_witness :
    lruDemo.WF ∧
    ((lruDemo.Victim).1 = none ↔ lruDemo.frame_ids = []) ∧
    (lruDemoV1.1 = some 1 ∧ lruDemoV2.1 = some 2 ∧
     lruDemoV3.1 = some 4 ∧ lruDemoV4.1 = some 5) := by
  have h := C5_lru_insertion_ordered_set lruDemo 3 (by decide)
  exact ⟨by decide, h.1, h.2.2.2.2.2.2.2⟩

/-- C3.  The claim states every page fetched or allocated during a public
tree operation is unpinned exactly once before the operation returns, so
every touched page ends with pin count 0.  The source violates this on the
claim's own cited paths: `Remove` never unpins the leaf that
`FindLeafPage` returns pinned, and the duplicate-key path of
`InsertIntoLeaf` returns `false` without unpinning the leaf.  Starting
from an unpinned single-leaf tree, both operations complete and leave the
leaf with pin count 1. -/
theorem C3_tree_operations_leak_pins :
    pinOf c3Heap 1 = 0 ∧
    (c3RemoveRun.map fun s => pinOf s.1 1) = some 1 ∧
    (c3RemoveRun.map fun s => (getValueT s.1 s.2 1 50).map (·.2)) =
      some (some none) ∧
    (c3DupRun.map (·.2.2)) = some false ∧
    (c3DupRun.map fun s => pinOf s.1 1) = some 1 := by decide

/-- C9.  `AdjustRoot` on an internal root of size 1 promotes the single
child (page 2): the root id becomes 2, the child's `parent_page_id`
becomes INVALID, and the header record is updated — but the old root's
page is never freed: no deallocation happens anywhere in the remove path,
so page 1 is still allocated afterwards, contradicting the claim's "frees
the old root's page" (and the source's own contract that a `true` return
means the root page should be deleted). -/
theorem C9_adjust_root_never_frees_old_root :
    (c9Run.map (·.2)) = some 2 ∧
    (c9Run.map fun s => (getPage s.1 2).map (·.parentPageId)) =
      some (some INVALID_PAGE_ID) ∧
    (c9Run.map (·.1.headerRecs)) = some [(0, 2)] ∧
    (c9Run.map fun s => (getPage s.1 1).isSome) = some true := by decide

/-- C7.  `BPlusTreeInternalPage::Lookup` (binary search with `left = 1`,
`right = size`) on an internal node whose meaningful keys `k_1..k_{n-1}`
are strictly increasing returns the child `c_i` with
`k_i ≤ key < k_{i+1}`, treating `k_0 = -inf` and `k_n = +inf` (the `i = 0`
and `i = n-1` disjuncts). -/
theorem C7_internal_lookup_routes_key (es : List (Int × Int)) (key : Int)
    (hne : es ≠ [])
    (hs : ∀ i j, 1 ≤ i → i < j → j < es.length → keyAtL es i < keyAtL es j) :
    ∃ i, i < es.length ∧
      internalLookup es key = valueAtL es i ∧
      (i = 0 ∨ keyAtL es i ≤ key) ∧
      (i = es.length - 1 ∨ key < keyAtL es (i + 1)) := by
  have hn : 1 ≤ es.length := by
    cases es with
    | nil => exact absurd rfl hne
    | cons e t => simp
  obtain ⟨ha, hb, hc, hd⟩ := lookupLoop_spec es key hs es.length 1 es.length
    (by omega) (le_refl 1) hn (le_refl _)
    (fun m hm1 hm2 => by omega)
    (fun m hm1 hm2 => by omega)
  refine ⟨lookupLoop es key 1 es.length - 1, by omega, rfl, ?_, ?_⟩
  · by_cases h0 : lookupLoop es key 1 es.length - 1 = 0
    · exact Or.inl h0
    · exact Or.inr (hc _ (by omega) (by omega))
  · by_cases hend : lookupLoop es key 1 es.length = es.length
    · exact Or.inl (by omega)
    · refine Or.inr ?_
      have := hd (lookupLoop es key 1 es.length) (le_refl _) (by omega)
      have heq : lookupLoop es key 1 es.length - 1 + 1 =
          lookupLoop es key 1 es.length := by omega
      rw [heq]
      exact this

/-- Witness for C7: the theorem applied to a concrete three-child internal
node and key 7, which routes to the middle child. -/
theorem C7_internal_lookup_routes_key_witness :
    ∃ i, i < c7Es.length ∧
      internalLookup c7Es 7 = valueAtL c7Es i ∧
      (i = 0 ∨ keyAtL c7Es i ≤ 7) ∧
      (i = c7Es.length - 1 ∨ 7 < keyAtL c7Es (i + 1)) := by
  apply C7_internal_lookup_routes_key c7Es 7 (by decide)
  intro i j h1 h2 h3
  have hlen : c7Es.length = 3 := rfl
  rw [hlen] at h3
  have hij : i = 1 ∧ j = 2 := by omega
  obtain ⟨hi, hj⟩ := hij
  rw [hi, hj]
  decide

/-- C8.  When an insert fills a leaf to `size == max_size`, `Split`
allocates a new leaf `R` (the fresh page id), moves the upper half of the
entries to `R` (the floor/ceil partition: `L` keeps `n/2`, `R` receives
the remaining `n - n/2`), splices `R` into the sibling chain
(`R.next = L.next`, `L.next = R`), and — shown on the root-leaf case run
to completion — the separator promoted into the parent equals
`R.key_at(0)`, the first key of the moved upper half. -/
theorem C8_leaf_split_and_promoted_separator (cfg : TConfig) (h : THeap)
    (pid par : Int) (max : Nat) (es : List (Int × Int)) (nx key value : Int)
    (hp : getPage h pid = some (.leafN par max es nx))
    (hfresh : ¬ pid = h.nextPid) :
    (∃ h1, splitLeaf cfg h pid = some (h1, h.nextPid) ∧
      getPage h1 h.nextPid =
        some (.leafN INVALID_PAGE_ID cfg.leafMax (es.drop (es.length / 2)) nx) ∧
      getPage h1 pid =
        some (.leafN par max (es.take (es.length / 2)) h.nextPid) ∧
      (es.take (es.length / 2)).length = es.length / 2 ∧
      (es.drop (es.length / 2)).length = es.length - es.length / 2) ∧
    (par = INVALID_PAGE_ID → ¬ pid = h.nextPid + 1 →
     leafLookup es key = none →
     (leafInsert es key value).length = max →
     ∃ h2, insertIntoLeaf cfg h pid key value 2 = some (h2, h.nextPid + 1, true) ∧
      getPage h2 (h.nextPid + 1) =
        some (.internalN INVALID_PAGE_ID cfg.internalMax
          [(0, pid),
           (keyAtL ((leafInsert es key value).drop
              ((leafInsert es key value).length / 2)) 0, h.nextPid)]) ∧
      getPage h2 pid = some (.leafN (h.nextPid + 1) max
          ((leafInsert es key value).take
            ((leafInsert es key value).length / 2)) h.nextPid) ∧
      getPage h2 h.nextPid = some (.leafN (h.nextPid + 1) cfg.leafMax
          ((leafInsert es key value).drop
            ((leafInsert es key value).length / 2)) nx)) :=
  ⟨splitLeaf_spec cfg h pid par max es nx key value hp hfresh,
   fun hroot hf2 hdup hfill =>
     insertFillRootLeaf_spec cfg h pid max es nx key value
       (by rw [hp, hroot]) hfresh hf2 hdup hfill⟩

/-- Witness for C8: the theorem applied to the concrete root leaf
`c8Heap` with the filling insert (4, 40); the promoted separator is key 3
= `R.key_at(0)`. -/
theorem C8_leaf_split_and_promoted_separator_witness :
    ∃ h2, insertIntoLeaf treeCfg c8Heap 1 4 40 2 = some (h2, 3, true) ∧
      getPage h2 3 = some (.internalN INVALID_PAGE_ID 4
        [(0, 1), (3, 2)]) := by
  obtain ⟨-, hprom⟩ := C8_leaf_split_and_promoted_separator treeCfg c8Heap
    1 (-1) 4 [(1, 10), (2, 20), (3, 30)] (-1) 4 40 (by decide) (by decide)
  obtain ⟨h2, he, hr, -, -⟩ := hprom (by decide) (by decide) (by decide)
    (by decide)
  exact ⟨h2, he, hr⟩


/-- C10.  The iterator's destructor and its leaf-crossing advance always
unpin the held leaf with dirty flag `true` (the source passes `true`
unconditionally, although a scan never modifies the leaf bytes): the
destructor leaves the leaf's dirty flag set and its pin released, the
crossing advance does the same before pinning the next leaf, and — the
consequence at the BPM level — a dirty page chosen as the eviction victim
has its bytes written to disk by the evicting fetch. -/
theorem C10_read_iterator_marks_leaves_dirty (h : THeap) (it : TIter) (par : Int) (max : Nat)
    (es : List (Int × Int)) (nx : Int)
    (hleaf : getPage h it.pid = some (.leafN par max es nx))
    (hpin : 1 ≤ pinOf h it.pid) :
    dirtyOf (iterDestroy h it) it.pid = true ∧
    pinOf (iterDestroy h it) it.pid = pinOf h it.pid - 1 ∧
    (¬ nx = INVALID_PAGE_ID → ¬ it.index < (es.length : Int) - 1 →
     ¬ nx = it.pid →
     ∀ n2, getPage h nx = some n2 →
     ∃ h2, iterNext h it = some (h2, ⟨nx, 0⟩) ∧
       dirtyOf h2 it.pid = true ∧
       pinOf h2 it.pid = pinOf h it.pid - 1 ∧
       pinOf h2 nx = pinOf h nx + 1) ∧
    (∀ (s : BPMState) (pid2 : Int) (v : Nat),
       s.ptLookup pid2 = none → s.free_list = [] →
       (s.repl.Victim).1 = some v →
       (s.frame v).is_dirty = true →
       ∃ s', FetchPageImpl s pid2 = some (s', v) ∧
         plookup (s.frame v).page_id s'.disk.store =
           some (s.frame v).data) := by
  refine ⟨?_, ?_, ?_, ?_⟩
  · exact dirtyOf_unpinPg_self h it.pid true hpin
  · exact pinOf_unpinPg_self h it.pid true hpin
  · intro hnx hidx hne n2 hn2
    unfold iterNext
    rw [hleaf]
    simp only []
    rw [if_neg (fun hab => hnx hab.1), if_neg hidx]
    have hg : getPage (unpinPg h it.pid true) nx = some n2 := by
      rw [getPage_unpinPg]
      exact hn2
    rw [fetchPg_some _ _ _ hg]
    refine ⟨_, rfl, ?_, ?_, ?_⟩
    · rw [dirtyOf_pinBump]
      exact dirtyOf_unpinPg_self h it.pid true hpin
    · rw [pinOf_pinBump_ne _ _ _ (fun hh => hne hh.symm)]
      exact pinOf_unpinPg_self h it.pid true hpin
    · rw [pinOf_pinBump_self, pinOf_unpinPg_ne _ _ _ _ hne]
  · intro s pid2 v hnr hfree hvic hd
    have hvic2 : s.repl.Victim = (some v, (s.repl.Victim).2) := by
      rw [← hvic]
    unfold FetchPageImpl
    rw [hnr, hfree, hvic2]
    simp only [BPMState.frame] at hd ⊢
    simp only [hd, if_true, BPMState.setFrame]
    exact ⟨_, rfl, plookup_pstore_self _ _ _⟩

/-- Witness for C10: the theorem applied to the concrete chained leaves of
`c10Heap` with the iterator at leaf 4's last slot. -/
theorem C10_read_iterator_marks_leaves_dirty_witness :
    dirtyOf (iterDestroy c10Heap c10Iter) 4 = true ∧
    (∃ h2, iterNext c10Heap c10Iter = some (h2, ⟨5, 0⟩) ∧
      dirtyOf h2 4 = true ∧ pinOf h2 4 = 0 ∧ pinOf h2 5 = 1) := by
  obtain ⟨hd, -, hcross, -⟩ := C10_read_iterator_marks_leaves_dirty c10Heap
    c10Iter 3 4 [(1, 10), (2, 20)] 5 (by decide) (by decide)
  obtain ⟨h2, he, hd2, hp2, hp5⟩ := hcross (by decide) (by decide) (by decide)
    (.leafN 3 4 [(3, 30)] (-1)) (by decide)
  refine ⟨hd, h2, he, hd2, ?_, ?_⟩
  · show pinOf h2 c10Iter.pid = 0
    rw [hp2]
    decide
  · rw [hp5]
    decide


/-- **C6** — for every key and value over any well-formed tree (or the
empty tree): after a successful `Insert(key, value)`, `GetValue(key)`
succeeds and returns `value`; if no leaf held `key` beforehand, a
`Remove(key)` after the insert leaves every successful `GetValue(key)`
returning not-found; and an `Insert` of `key` while a `GetValue` finds it
present returns `false` with the page array (the tree's key-value
contents) unchanged and the root id unchanged. -/
theorem C6_insert_get_remove_roundtrip
    (cfg : TConfig) (h : THeap) (root key value : Int) (d : Nat)
    (hLM : 2 ≤ cfg.leafMax)
    (hnp0 : 0 ≤ h.nextPid)
    (hfOK : freshOK h)
    (hTree : root = INVALID_PAGE_ID ∨
      (ST cfg h d root none none ∧ parentOf h root = some INVALID_PAGE_ID ∧
        (subPids h d root).Nodup)) :
    (∀ fuel h2 root2,
      insertT cfg h root key value fuel = some (h2, root2, true) →
      ∃ fuelG h4, getValueT h2 root2 key fuelG = some (h4, some value)) ∧
    (leafKeyFree h key →
      ∀ fuel h2 root2,
      insertT cfg h root key value fuel = some (h2, root2, true) →
      ∀ fuel2 h3 root3, removeT cfg h2 root2 key fuel2 = some (h3, root3) →
      ∀ fuel3 h4 r, getValueT h3 root3 key fuel3 = some (h4, r) →
        r = none) ∧
    (∀ fuelG h1 w, getValueT h root key fuelG = some (h1, some w) →
      ∀ value2 fuel h2 root2 ok,
        insertT cfg h root key value2 fuel = some (h2, root2, ok) →
        ok = false ∧ h2.pages = h.pages ∧ root2 = root) := by
  refine ⟨?_, ?_, ?_⟩
  · intro fuel h2 root2 he
    obtain ⟨⟨R2, D, hf⟩, hr0, -⟩ := insert_spec cfg h root key value d fuel
      h2 root2 hLM hnp0 hfOK hTree he
    have hroot2 : ¬ root2 = INVALID_PAGE_ID := by
      unfold INVALID_PAGE_ID
      omega
    obtain ⟨h4, hg⟩ := getValueT_of_FindsKVIn R2 h2 root2 key value D
      hroot2 hf
    exact ⟨D + 1, h4, hg⟩
  · intro hGKF fuel h2 root2 he fuel2 h3 root3 hrm fuel3 h4 r hg
    obtain ⟨⟨R2, D, hf⟩, hr0, hKOAex⟩ := insert_spec cfg h root key value d
      fuel h2 root2 hLM hnp0 hfOK hTree he
    obtain ⟨T, hKOA⟩ := hKOAex hGKF
    have hGKF3 := remove_spec cfg h2 root2 key value T R2 D fuel2 h3 root3
      hr0 hf hKOA hrm
    exact getValueT_none_of_GKF h3 root3 key fuel3 h4 r hGKF3 hg
  · intro fuelG h1 w hg value2 fuel h2 root2 ok he
    exact insert_dup_spec cfg h root key w fuelG h1 hg value2 fuel h2 root2
      ok he

/-- Witness for C6: the theorem applied to the one-leaf tree `c3Heap`
(root page 1 holding the entry (1, 10)) with the fresh key 7 and
value 70. -/
theorem C6_insert_get_remove_roundtrip_witness :
    (2 ≤ treeCfg.leafMax ∧ 0 ≤ c3Heap.nextPid ∧ freshOK c3Heap ∧
      (ST treeCfg c3Heap 0 1 none none ∧
        parentOf c3Heap 1 = some INVALID_PAGE_ID ∧
        (subPids c3Heap 0 1).Nodup) ∧ leafKeyFree c3Heap 7) ∧
    ((∀ fuel h2 root2,
      insertT treeCfg c3Heap 1 7 70 fuel = some (h2, root2, true) →
      ∃ fuelG h4, getValueT h2 root2 7 fuelG = some (h4, some 70)) ∧
    (leafKeyFree c3Heap 7 →
      ∀ fuel h2 root2,
      insertT treeCfg c3Heap 1 7 70 fuel = some (h2, root2, true) →
      ∀ fuel2 h3 root3, removeT treeCfg h2 root2 7 fuel2 = some (h3, root3) →
      ∀ fuel3 h4 r, getValueT h3 root3 7 fuel3 = some (h4, r) →
        r = none) ∧
    (∀ fuelG h1 w, getValueT c3Heap 1 7 fuelG = some (h1, some w) →
      ∀ value2 fuel h2 root2 ok,
        insertT treeCfg c3Heap 1 7 value2 fuel = some (h2, root2, ok) →
        ok = false ∧ h2.pages = c3Heap.pages ∧ root2 = 1)) := by
  have hfresh : freshOK c3Heap := by
    intro q hq
    show plookup q [((1 : Int), BNode.leafN (-1) 4 [(1, 10)] (-1))] = none
    rw [plookup]
    rw [if_neg (show ¬ (1 : Int) = q from fun hc => by
      rw [← hc] at hq
      exact absurd hq (by decide))]
    rfl
  have hst : ST treeCfg c3Heap 0 1 none none := by
    exact @ST.leaf treeCfg c3Heap 0 1 none none (-1) [(1, 10)] (-1) rfl
      (by simp) (fun e he => ⟨trivial, trivial⟩) (by decide) (by decide)
  have hgkf : leafKeyFree c3Heap 7 := by
    intro p par max es nx hp e hes
    by_cases hq : (1 : Int) = p
    · have hp2 : some (BNode.leafN (-1) 4 [(1, 10)] (-1)) =
          some (BNode.leafN par max es nx) := by
        rw [← hp, ← hq]
        rfl
      injection Option.some.inj hp2 with ha hb hc hd
      rw [← hc] at hes
      rw [List.mem_singleton.mp hes]
      decide
    · exfalso
      have hnone : getPage c3Heap p = none := by
        show plookup p [((1 : Int), BNode.leafN (-1) 4 [(1, 10)] (-1))] = none
        rw [plookup, if_neg hq]
        rfl
      rw [hnone] at hp
      cases hp
  have hhyp := C6_insert_get_remove_roundtrip treeCfg c3Heap 1 7 70 0
    (by decide) (by decide) hfresh
    (Or.inr ⟨hst, by decide, by decide⟩)
  exact ⟨⟨by decide, by decide, hfresh, ⟨hst, by decide, by decide⟩, hgkf⟩,
    hhyp⟩

end BusTub
